import Mathlib

/-!
# JSONSerializableWrapper: property registration and type dispatch

A shallow embedding of `nlohmann_json_wrapper.hpp` and `rapid_json_wrapper.hpp`.

* `Json` is the tree both wrappers build and read.  The node kinds are the ones of
  `nlohmann::json` (`number_integer` and `number_unsigned` are different kinds there); the
  rapidjson number flags (`IsInt`, `IsUint`, ...) are functions of the stored value.
* `TreeLib` holds what the wrappers take from outside: the text parser, the printer and the
  two C++ conversions between `double` and integers.
* `std::string` is `String`; `c_str` cuts a string at its first NUL character, which is what
  every `const char*` hand-over in the rapidjson wrapper does.
* `JSONSerializable` is an object as its `serializers` and `deserializers` see it: the ordered
  list of its bindings, each with the key it was registered under and the current content of
  the storage its closure `[key, &value]` refers to (`Field`).  After construction that storage
  is the member of the object itself.  The class declares no copy operation, so a copy made by
  the implicit ones holds closures that still refer to the members of the object it was copied
  from.  `Instance` keeps the values of the members of the object itself beside its bindings, and
  what is stated of the fields of an object is stated of an `Instance` whose bindings refer to
  storage that holds them (`Instance.ReadsOwnFields`).  What `fromJson` leaves in a nested
  member or in a sequence is the values these hold: the member is assigned from, and an element
  is a copy of, the temporary that `T::fromJsonStatic` returns, and their own closures are
  those of that temporary.  A nested binding also carries `fresh`, the default-constructed
  object of the nested class, which is what `T::fromJsonStatic` starts from.
* A call that can throw or abort yields a `Fault`; the state reached before the fault is kept,
  since a C++ exception leaves the members assigned so far as they are.  `RAPIDJSON_ASSERT` is
  the `assert` of the C library, as rapidjson defines it by default: a failed one ends the call.
* The two tree libraries are not under src.  What the wrappers call of them is modelled from
  the Tree adapter of the spec and the documented behaviour of `nlohmann::json` and rapidjson;
  those definitions say so.  The definitions of the wrappers follow the source line by line.
-/

namespace JsonParser

/-- Modelled from the spec: the floating point scalar (section 4.1), a C++ `double`, kept as
its IEEE-754 binary64 bit pattern. -/
structure Dbl where
  bits : Nat
deriving DecidableEq, Repr

/-- Modelled from the spec: the JSON tree node (section 3), owned by the tree library and not
under src.  The kinds are those of `nlohmann::json`; rapidjson keeps flags on a number node,
which follow from the stored value. -/
inductive Json where
  | null
  | boolean (b : Bool)
  | number_integer (i : Int)
  | number_unsigned (n : Nat)
  | number_float (d : Dbl)
  | string (s : String)
  | array (items : List Json)
  | object (members : List (String × Json))

/-- The ways a call of the wrappers can fail to return. -/
inductive Fault where
  /-- `nlohmann::json::parse_error`, thrown by `json::parse`. -/
  | parse_error
  /-- `nlohmann::json::type_error`, thrown by `operator[]` and `get` on a node of the wrong kind. -/
  | type_error
  /-- A failed `RAPIDJSON_ASSERT`. -/
  | assertion
deriving DecidableEq, Repr

/-- Modelled from the spec: the external collaborators (section 1), taken as parameters: the text
parser and printer of the tree library, and the two C++ conversions between `double` and
integers. -/
structure TreeLib where
  /-- Text to tree; `none` when the text is not well-formed JSON. -/
  parse : String → Option Json
  /-- Tree to text (`json::dump`, `Writer` over a `StringBuffer`). -/
  dump : Json → String
  /-- The conversion `static_cast<double>` of an integer. -/
  toDouble : Int → Dbl
  /-- The conversion `static_cast<int>` of a `double`. -/
  toInt : Dbl → Int

/-- Modelled from the spec: text handed to the tree library as a C string (`c_str()`,
`GetString()`; C++ library, not under src): the string a `const char*` of `s` denotes is `s` up
to its first NUL character. -/
def c_str (s : String) : String :=
  ⟨s.data.takeWhile (fun c => c ≠ Char.ofNat 0)⟩

/-- Modelled from the spec: the signed integer scalar (section 4.1).  C++ conversion of an
integer to `int`: 32 bits, modulo 2^32. -/
def wrapInt32 (i : Int) : Int :=
  (i + 2 ^ 31) % 2 ^ 32 - 2 ^ 31

/-- Modelled from the spec: lookup in a keyed container of the libraries (`find` of a
`std::unordered_map` or `std::map`, `FindMember` of rapidjson): the value of the first entry
with key `k`. -/
def find {κ ν : Type} [DecidableEq κ] : List (κ × ν) → κ → Option ν
  | [], _ => none
  | (k', v) :: rest, k => if k' = k then some v else find rest k

/-- Modelled from the spec: the maps of the enum name registry (section 3).  The assignment
`m[k] = v` of a `std::unordered_map`: overwrite the entry of `k`, or add one. -/
def assign {κ ν : Type} [DecidableEq κ] : List (κ × ν) → κ → ν → List (κ × ν)
  | [], k, v => [(k, v)]
  | (k', v') :: rest, k, v => if k' = k then (k, v) :: rest else (k', v') :: assign rest k v

/-- Modelled from the spec: the enumerated scalar (section 4.1).  An integer type of C++, such as
`std::underlying_type<EnumType>::type`: its width in bits and whether it is signed. -/
structure IntType where
  bits : Nat
  signed : Bool
deriving DecidableEq, Repr

/-- Modelled from the spec: the enumerated scalar (section 4.1).  The C++ conversion of an
integer to an integer type: the value modulo 2^bits that is in the range of the type. -/
def IntType.convert (t : IntType) (i : Int) : Int :=
  if t.signed then (i + 2 ^ (t.bits - 1)) % 2 ^ t.bits - 2 ^ (t.bits - 1)
  else i % 2 ^ t.bits

/-- Whether an integer is in the range of an integer type. -/
def IntType.holds (t : IntType) (i : Int) : Bool :=
  if t.signed then decide (-(2 : Int) ^ (t.bits - 1) ≤ i ∧ i < 2 ^ (t.bits - 1))
  else decide (0 ≤ i ∧ i < 2 ^ t.bits)

/-- The type `int`. -/
def IntType.int : IntType :=
  { bits := 32, signed := true }

/-- The name registry of one enumerated type (`EnumSerializer<EnumType>::instance()`).
An enumerator is kept as its underlying code, an integer of `UnderlyingType`; the wrappers admit
every enumerated type (`static_assert(std::is_enum<EnumType>::value)`), so the underlying type
is part of the registry.  It is `int` where none is given. -/
structure EnumSerializer where
  stringToEnum : List (String × Int)
  enumToString : List (Int × String)
  underlying : IntType := IntType.int

/-- The conversion `static_cast<EnumType>(i)` of an `int`, as the code of the enumerator it
yields: `i` converted to the underlying type.  For an enumerated type without a fixed
underlying type the language defines the conversion for the values of the type only; the
conversion to the underlying type is taken there too. -/
def EnumSerializer.cast (inst : EnumSerializer) (i : Int) : Int :=
  inst.underlying.convert i

/-- The registry before any `registerValue`. -/
def EnumSerializer.empty : EnumSerializer :=
  { stringToEnum := [], enumToString := [] }

/-- `EnumSerializer::registerValue`. -/
def EnumSerializer.registerValue (inst : EnumSerializer) (name : String) (value : Int) :
    EnumSerializer :=
  { inst with
    stringToEnum := assign inst.stringToEnum name value
    enumToString := assign inst.enumToString value name }

mutual
/-- The content of the storage a binding refers to, tagged with the codec the binding was
registered with.  For a nested object and for the elements of a nested array the content is
what their own closures see. -/
inductive Field where
  | string (v : String)
  | int (v : Int)
  | double (v : Dbl)
  | bool (v : Bool)
  | unsigned (v : Nat)
  | uint64 (v : Nat)
  | enum (inst : EnumSerializer) (v : Int)
  | nestedObject (fresh : JSONSerializable) (v : JSONSerializable)
  | nestedArray (fresh : JSONSerializable) (v : List JSONSerializable)
/-- An object as its closures see it: its bindings in registration order, each with its key and
the content of the storage it refers to. -/
inductive JSONSerializable where
  | mk (properties : List (String × Field))
end

/-- The bindings of an object. -/
def JSONSerializable.properties : JSONSerializable → List (String × Field)
  | .mk ps => ps

/-- `registerProperty`, `registerEnum`, `registerNestedObject`, `registerNestedArray`: one
serializer and one deserializer are appended, here as one binding. -/
def JSONSerializable.registerProperty (o : JSONSerializable) (key : String) (value : Field) :
    JSONSerializable :=
  .mk (o.properties ++ [(key, value)])

/-- The end of `fromJsonStatic`: `return obj`, reached unless `fromJson` threw or aborted; the
flag `fromJson` returned is dropped. -/
def returnObj : JSONSerializable × Except Fault Bool → Except Fault JSONSerializable
  | (obj, .ok _) => .ok obj
  | (_, .error e) => .error e

/-- Run `f` on the printed text of each item in turn, stopping at the first fault; the items
built so far are kept. -/
def pushBackAll (f : Json → Except Fault JSONSerializable) :
    List Json → List JSONSerializable → List JSONSerializable × Option Fault
  | [], acc => (acc, none)
  | item :: rest, acc =>
    match f item with
    | .ok o => pushBackAll f rest (acc ++ [o])
    | .error e => (acc, some e)

/-! ## A reference tree library

`Ref.lib` reads and prints the JSON texts whose numbers have no fraction and no exponent part
and fit in 64 bits.  On those texts it builds the tree both libraries build: a literal without
sign is a `number_unsigned`, one with a sign a `number_integer`.  It is the instance the
examples are evaluated on. -/

namespace Ref

/-- The character `"`. -/
def quote : Char := Char.ofNat 34

/-- The escape character of JSON strings. -/
def backslash : Char := Char.ofNat 92

/-- Skip white space. -/
def skipWs : List Char → List Char
  | [] => []
  | c :: cs => if c = ' ' ∨ c.toNat = 9 ∨ c.toNat = 10 ∨ c.toNat = 13 then skipWs cs else c :: cs

/-- Read a run of decimal digits. -/
def digits : List Char → Nat → Nat × List Char
  | [], acc => (acc, [])
  | c :: cs, acc =>
    if 48 ≤ c.toNat ∧ c.toNat ≤ 57 then digits cs (acc * 10 + (c.toNat - 48)) else (acc, c :: cs)

/-- The value of a hexadecimal digit. -/
def hexVal (c : Char) : Option Nat :=
  if 48 ≤ c.toNat ∧ c.toNat ≤ 57 then some (c.toNat - 48)
  else if 97 ≤ c.toNat ∧ c.toNat ≤ 102 then some (c.toNat - 87)
  else if 65 ≤ c.toNat ∧ c.toNat ≤ 70 then some (c.toNat - 55)
  else none

/-- Read a string body up to its closing quote; `acc` holds the characters read, last first. -/
def stringBody : List Char → List Char → Option (String × List Char)
  | [], _ => none
  | c :: cs, acc =>
    if c = quote then some (⟨acc.reverse⟩, cs)
    else if c = backslash then
      match cs with
      | 'u' :: a :: b :: x :: y :: rest =>
        match hexVal a, hexVal b, hexVal x, hexVal y with
        | some h3, some h2, some h1, some h0 =>
          stringBody rest (Char.ofNat (h3 * 4096 + h2 * 256 + h1 * 16 + h0) :: acc)
        | _, _, _, _ => none
      | e :: rest =>
        if e = quote ∨ e = backslash ∨ e = '/' then stringBody rest (e :: acc)
        else if e = 'n' then stringBody rest (Char.ofNat 10 :: acc)
        else if e = 't' then stringBody rest (Char.ofNat 9 :: acc)
        else if e = 'r' then stringBody rest (Char.ofNat 13 :: acc)
        else if e = 'b' then stringBody rest (Char.ofNat 8 :: acc)
        else if e = 'f' then stringBody rest (Char.ofNat 12 :: acc)
        else none
      | [] => none
    else if c.toNat < 32 then none
    else stringBody cs (c :: acc)

/-- A decimal digit. -/
def isDigit (c : Char) : Bool :=
  decide (48 ≤ c.toNat ∧ c.toNat ≤ 57)

/-- Read an integer literal. -/
def number (cs : List Char) : Option (Json × List Char) :=
  let body := match cs with
    | '-' :: rest => rest
    | _ => cs
  let minus : Bool := match cs with
    | '-' :: _ => true
    | _ => false
  match body with
  | [] => none
  | d :: more =>
    if isDigit d then
      match digits body 0 with
      | (n, rest) =>
        let leadingZero : Bool := match more with
          | m :: _ => d == '0' && isDigit m
          | [] => false
        let fraction : Bool := match rest with
          | r :: _ => r == '.' || r == 'e' || r == 'E'
          | [] => false
        if leadingZero || fraction then none
        else if minus then
          if n ≤ 2 ^ 63 then some (.number_integer (-(n : Int)), rest) else none
        else if n < 2 ^ 64 then some (.number_unsigned n, rest) else none
    else none

mutual
/-- Read one value; the first argument bounds the nesting and the number of elements. -/
def value : Nat → List Char → Option (Json × List Char)
  | 0, _ => none
  | fuel + 1, cs =>
    match skipWs cs with
    | [] => none
    | 'n' :: 'u' :: 'l' :: 'l' :: rest => some (.null, rest)
    | 't' :: 'r' :: 'u' :: 'e' :: rest => some (.boolean true, rest)
    | 'f' :: 'a' :: 'l' :: 's' :: 'e' :: rest => some (.boolean false, rest)
    | c :: rest =>
      if c = quote then
        match stringBody rest [] with
        | some (s, rest') => some (.string s, rest')
        | none => none
      else if c = '[' then
        match skipWs rest with
        | ']' :: rest' => some (.array [], rest')
        | _ =>
          match elements fuel rest [] with
          | some (items, rest') => some (.array items, rest')
          | none => none
      else if c = '{' then
        match skipWs rest with
        | '}' :: rest' => some (.object [], rest')
        | _ =>
          match members fuel rest [] with
          | some (ms, rest') => some (.object ms, rest')
          | none => none
      else number (c :: rest)
def elements : Nat → List Char → List Json → Option (List Json × List Char)
  | 0, _, _ => none
  | fuel + 1, cs, acc =>
    match value fuel cs with
    | none => none
    | some (v, rest) =>
      match skipWs rest with
      | ',' :: rest' => elements fuel rest' (acc ++ [v])
      | ']' :: rest' => some (acc ++ [v], rest')
      | _ => none
def members : Nat → List Char → List (String × Json) → Option (List (String × Json) × List Char)
  | 0, _, _ => none
  | fuel + 1, cs, acc =>
    match skipWs cs with
    | [] => none
    | q :: rest =>
      if q = quote then
        match stringBody rest [] with
        | none => none
        | some (k, rest') =>
          match skipWs rest' with
          | ':' :: rest'' =>
            match value fuel rest'' with
            | none => none
            | some (v, rest3) =>
              match skipWs rest3 with
              | ',' :: rest4 => members fuel rest4 (acc ++ [(k, v)])
              | '}' :: rest4 => some (acc ++ [(k, v)], rest4)
              | _ => none
          | _ => none
      else none
end

/-- Text to tree: one value, with nothing but white space after it. -/
def parse (s : String) : Option Json :=
  match value (2 * s.data.length + 2) s.data with
  | some (j, rest) =>
    match skipWs rest with
    | [] => some j
    | _ => none
  | none => none

/-- The lower-case hexadecimal digit of `n`. -/
def hexDigit (n : Nat) : Char :=
  if n < 10 then Char.ofNat (48 + n) else Char.ofNat (87 + n)

/-- Escape the quote, the escape character and the control characters. -/
def escape : List Char → List Char
  | [] => []
  | c :: cs =>
    if c = quote ∨ c = backslash then backslash :: c :: escape cs
    else if c.toNat < 32 then
      backslash :: 'u' :: '0' :: '0' :: hexDigit (c.toNat / 16) :: hexDigit (c.toNat % 16)
        :: escape cs
    else c :: escape cs

/-- A string between quotes. -/
def quoted (s : String) : List Char :=
  quote :: escape s.data ++ [quote]

mutual
/-- Print a tree without white space. -/
def print : Json → List Char
  | .null => "null".data
  | .boolean b => if b then "true".data else "false".data
  | .number_integer i => (toString i).data
  | .number_unsigned n => (toString n).data
  | .number_float d => 'd' :: (toString d.bits).data
  | .string s => quoted s
  | .array items => '[' :: printItems items ++ [']']
  | .object ms => '{' :: printMembers ms ++ ['}']
def printItems : List Json → List Char
  | [] => []
  | [x] => print x
  | x :: y :: rest => print x ++ ',' :: printItems (y :: rest)
def printMembers : List (String × Json) → List Char
  | [] => []
  | [(k, v)] => quoted k ++ ':' :: print v
  | (k, v) :: m :: rest => quoted k ++ ':' :: print v ++ ',' :: printMembers (m :: rest)
end

/-- Tree to compact text.  A `double` is outside the texts this library reads. -/
def dump (t : Json) : String :=
  ⟨print t⟩

/-- The value of `static_cast<double>` on an integer: the nearest binary64 value, ties to
even. -/
def toDouble (i : Int) : Dbl :=
  if i = 0 then ⟨0⟩
  else
    let a := i.natAbs
    let e := Nat.log2 a
    let sign := if i < 0 then 2 ^ 63 else 0
    if e ≤ 52 then ⟨sign + (e + 1023) * 2 ^ 52 + (a * 2 ^ (52 - e) - 2 ^ 52)⟩
    else
      let q := a / 2 ^ (e - 52)
      let r := a % 2 ^ (e - 52)
      let half := 2 ^ (e - 53)
      let m := if half < r ∨ (r = half ∧ q % 2 = 1) then q + 1 else q
      ⟨sign + (e + 1023) * 2 ^ 52 + (m - 2 ^ 52)⟩

/-- The value of `static_cast<int>` on a `double`: truncation toward zero; a value out of the
range of `int` gives the lowest `int`, as on x86-64. -/
def toInt (d : Dbl) : Int :=
  let ex := d.bits / 2 ^ 52 % 2 ^ 11
  let mant := d.bits % 2 ^ 52
  let neg := d.bits / 2 ^ 63 % 2 = 1
  if ex < 1023 then 0
  else if 1023 + 31 ≤ ex then -(2 : Int) ^ 31
  else
    let mag : Nat := (2 ^ 52 + mant) / 2 ^ (1075 - ex)
    if neg then -(mag : Int) else (mag : Int)

/-- Modelled from the spec: parse and print of the Tree adapter (section 2), on the texts
described above. -/
def lib : TreeLib :=
  { parse := parse, dump := dump, toDouble := toDouble, toInt := toInt }

end Ref

/-! ## The nlohmann backend (`nlohmann_json_wrapper.hpp`) -/

namespace nlohmann

/-- Modelled from the spec: the object node of the implicit-ownership tree (section 4.4), the
`std::map` of `nlohmann::json`, not under src.  Insertion keeps the entries in key order, which
is the lexicographic order of the characters, and a key occurs once. -/
def insertSorted (key : String) (v : Json) : List (String × Json) → List (String × Json)
  | [] => [(key, v)]
  | (k, x) :: rest =>
    if k = key then (key, v) :: rest
    else if key.data < k.data then (key, v) :: (k, x) :: rest
    else (k, x) :: insertSorted key v rest

/-- Modelled from the spec: set-scalar and set-child of the Tree adapter (section 4.4), the
statement `obj[key] = v` of `nlohmann::json`: a null node becomes an object first; a node of
another kind throws. -/
def set (obj : Json) (key : String) (v : Json) : Except Fault Json :=
  match obj with
  | .null => .ok (.object [(key, v)])
  | .object m => .ok (.object (insertSorted key v m))
  | _ => .error .type_error

/-- Modelled from the spec: key presence in the Tree adapter (section 2), `obj.contains(key)` of
`nlohmann::json`: false on a node that is not an object. -/
def contains (obj : Json) (key : String) : Bool :=
  match obj with
  | .object m => (find m key).isSome
  | _ => false

/-- Modelled from the spec: get-by-key of the Tree adapter (section 4.4), the read `obj[key]` on
a `const json`. -/
def index (obj : Json) (key : String) : Except Fault Json :=
  match obj with
  | .object m =>
    match find m key with
    | some v => .ok v
    | none => .error .assertion
  | _ => .error .type_error

/-- Modelled from the spec: kind-check of the Tree adapter (section 2), `is_string()` of
`nlohmann::json`: a string node. -/
def is_string : Json → Bool
  | .string _ => true
  | _ => false

/-- Modelled from the spec: kind-check of the Tree adapter (section 2), `is_number_integer()` of
`nlohmann::json`: an integer node, signed or unsigned. -/
def is_number_integer : Json → Bool
  | .number_integer _ => true
  | .number_unsigned _ => true
  | _ => false

/-- Modelled from the spec: kind-check of the Tree adapter (section 2), `is_number_unsigned()` of
`nlohmann::json`: an unsigned integer node. -/
def is_number_unsigned : Json → Bool
  | .number_unsigned _ => true
  | _ => false

/-- Modelled from the spec: kind-check of the Tree adapter (section 2), `is_number()` of
`nlohmann::json`: a number node of any of the three kinds. -/
def is_number : Json → Bool
  | .number_integer _ => true
  | .number_unsigned _ => true
  | .number_float _ => true
  | _ => false

/-- Modelled from the spec: kind-check of the Tree adapter (section 2), `is_boolean()` of
`nlohmann::json`: a boolean node. -/
def is_boolean : Json → Bool
  | .boolean _ => true
  | _ => false

/-- Modelled from the spec: kind-check of the Tree adapter (section 2), `is_object()` of
`nlohmann::json`: an object node. -/
def is_object : Json → Bool
  | .object _ => true
  | _ => false

/-- Modelled from the spec: kind-check of the Tree adapter (section 2), `is_array()` of
`nlohmann::json`: an array node. -/
def is_array : Json → Bool
  | .array _ => true
  | _ => false

/-- Modelled from the spec: get-scalar of the Tree adapter, `get<std::string>()` of
`nlohmann::json`. -/
def get_string : Json → Except Fault String
  | .string s => .ok s
  | _ => .error .type_error

/-- Modelled from the spec: get-scalar of the Tree adapter, `get<int>()` of `nlohmann::json` on a
number node: the stored 64-bit integer, or the `double`, is
converted to `int`. -/
def get_int (lib : TreeLib) : Json → Except Fault Int
  | .number_integer i => .ok (wrapInt32 i)
  | .number_unsigned n => .ok (wrapInt32 n)
  | .number_float d => .ok (lib.toInt d)
  | _ => .error .type_error

/-- Modelled from the spec: get-scalar of the Tree adapter, `get<double>()` of `nlohmann::json`
on a number node. -/
def get_double (lib : TreeLib) : Json → Except Fault Dbl
  | .number_integer i => .ok (lib.toDouble i)
  | .number_unsigned n => .ok (lib.toDouble n)
  | .number_float d => .ok d
  | _ => .error .type_error

/-- Modelled from the spec: get-scalar of the Tree adapter, `get<bool>()` of `nlohmann::json`. -/
def get_bool : Json → Except Fault Bool
  | .boolean b => .ok b
  | _ => .error .type_error

/-- Modelled from the spec: get-scalar of the Tree adapter, `get<unsigned int>()` of
`nlohmann::json`.  The wrapper calls it behind `is_number_unsigned`; the stored
64-bit value is converted to 32 bits. -/
def get_unsigned : Json → Except Fault Nat
  | .number_unsigned n => .ok (n % 2 ^ 32)
  | _ => .error .type_error

/-- Modelled from the spec: get-scalar of the Tree adapter, `get<uint64_t>()` of
`nlohmann::json`, called behind `is_number_unsigned`. -/
def get_uint64 : Json → Except Fault Nat
  | .number_unsigned n => .ok (n % 2 ^ 64)
  | _ => .error .type_error

/-- The body shared by the scalar `deserialize` specialisations:
`if (obj.contains(key) && obj[key].is_K()) value = obj[key].get<T>();`. -/
def assignIf {α : Type} (obj : Json) (key : String) (isKind : Json → Bool)
    (get : Json → Except Fault α) (value : α) : α × Option Fault :=
  if contains obj key then
    match index obj key with
    | .error e => (value, some e)
    | .ok node =>
      if isKind node then
        match get node with
        | .ok x => (x, none)
        | .error e => (value, some e)
      else (value, none)
  else (value, none)

/-- `EnumSerializer::serialize`. -/
def EnumSerializer.serialize (inst : EnumSerializer) (obj : Json) (key : String) (value : Int) :
    Except Fault Json :=
  match find inst.enumToString value with
  | some name => set obj key (.string name)
  | none => .ok obj

/-- `EnumSerializer::deserialize`. -/
def EnumSerializer.deserialize (lib : TreeLib) (inst : EnumSerializer) (obj : Json)
    (key : String) (value : Int) : Int × Option Fault :=
  if contains obj key then
    match index obj key with
    | .error e => (value, some e)
    | .ok jsonValue =>
      if is_string jsonValue then
        match get_string jsonValue with
        | .error e => (value, some e)
        | .ok strValue =>
          match find inst.stringToEnum strValue with
          | some v => (v, none)
          | none => (value, none)
      else if is_number jsonValue then
        match get_int lib jsonValue with
        | .ok i => (inst.cast i, none)
        | .error e => (value, some e)
      else (value, none)
  else (value, none)

mutual
/-- The tree `toJson` prints: every serializer is run, in order, on a tree that starts null. -/
def toJsonTree (lib : TreeLib) : JSONSerializable → Except Fault Json
  | .mk properties => runSerializers lib properties .null
/-- The loop of `toJson` over `serializers`. -/
def runSerializers (lib : TreeLib) : List (String × Field) → Json → Except Fault Json
  | [], obj => .ok obj
  | (key, value) :: rest, obj =>
    match serialize lib value obj key with
    | .ok obj' => runSerializers lib rest obj'
    | .error e => .error e
/-- The serializer of one binding: `PropertySerializer<T>::serialize` for the scalar and enum
codecs, and the closures installed by `registerNestedObject` and `registerNestedArray`. -/
def serialize (lib : TreeLib) : Field → Json → String → Except Fault Json
  | .string v, obj, key => set obj key (.string v)
  | .int v, obj, key => set obj key (.number_integer v)
  | .double v, obj, key => set obj key (.number_float v)
  | .bool v, obj, key => set obj key (.boolean v)
  | .unsigned v, obj, key => set obj key (.number_unsigned v)
  | .uint64 v, obj, key => set obj key (.number_unsigned v)
  | .enum inst v, obj, key => EnumSerializer.serialize inst obj key v
  | .nestedObject _ v, obj, key =>
    match toJsonTree lib v with
    | .error e => .error e
    | .ok t =>
      match lib.parse (lib.dump t) with
      | none => .error .parse_error
      | some sub => set obj key sub
  | .nestedArray _ v, obj, key =>
    match serializeItems lib v [] with
    | .error e => .error e
    | .ok arr => set obj key (.array arr)
/-- The loop `arr.push_back(json::parse(item.toJson()))`. -/
def serializeItems (lib : TreeLib) : List JSONSerializable → List Json → Except Fault (List Json)
  | [], arr => .ok arr
  | item :: rest, arr =>
    match toJsonTree lib item with
    | .error e => .error e
    | .ok t =>
      match lib.parse (lib.dump t) with
      | none => .error .parse_error
      | some sub => serializeItems lib rest (arr ++ [sub])
end

/-- `JSONSerializable::toJson`. -/
def toJson (lib : TreeLib) (o : JSONSerializable) : Except Fault String :=
  match toJsonTree lib o with
  | .ok obj => .ok (lib.dump obj)
  | .error e => .error e

mutual
/-- `JSONSerializable::fromJson`: the object after the call, and the flag returned or the
exception thrown. -/
def fromJson (lib : TreeLib) : JSONSerializable → String → JSONSerializable × Except Fault Bool
  | .mk properties, jsonStr =>
    match lib.parse jsonStr with
    | none => (.mk properties, .error .parse_error)
    | some obj =>
      match runDeserializers lib properties obj with
      | (properties', none) => (.mk properties', .ok true)
      | (properties', some e) => (.mk properties', .error e)
/-- The loop of `fromJson` over `deserializers`. -/
def runDeserializers (lib : TreeLib) :
    List (String × Field) → Json → List (String × Field) × Option Fault
  | [], _ => ([], none)
  | (key, value) :: rest, obj =>
    match deserialize lib value obj key with
    | (value', some e) => ((key, value') :: rest, some e)
    | (value', none) =>
      match runDeserializers lib rest obj with
      | (rest', r) => ((key, value') :: rest', r)
/-- The deserializer of one binding. -/
def deserialize (lib : TreeLib) : Field → Json → String → Field × Option Fault
  | .string v, obj, key =>
    match assignIf obj key is_string get_string v with
    | (x, r) => (.string x, r)
  | .int v, obj, key =>
    match assignIf obj key is_number_integer (get_int lib) v with
    | (x, r) => (.int x, r)
  | .double v, obj, key =>
    match assignIf obj key is_number (get_double lib) v with
    | (x, r) => (.double x, r)
  | .bool v, obj, key =>
    match assignIf obj key is_boolean get_bool v with
    | (x, r) => (.bool x, r)
  | .unsigned v, obj, key =>
    match assignIf obj key is_number_unsigned get_unsigned v with
    | (x, r) => (.unsigned x, r)
  | .uint64 v, obj, key =>
    match assignIf obj key is_number_unsigned get_uint64 v with
    | (x, r) => (.uint64 x, r)
  | .enum inst v, obj, key =>
    match EnumSerializer.deserialize lib inst obj key v with
    | (x, r) => (.enum inst x, r)
  | .nestedObject fresh v, obj, key =>
    if contains obj key then
      match index obj key with
      | .error e => (.nestedObject fresh v, some e)
      | .ok node =>
        if is_object node then
          match returnObj (fromJson lib fresh (lib.dump node)) with
          | .ok o => (.nestedObject fresh o, none)
          | .error e => (.nestedObject fresh v, some e)
        else (.nestedObject fresh v, none)
    else (.nestedObject fresh v, none)
  | .nestedArray fresh v, obj, key =>
    if contains obj key then
      match index obj key with
      | .error e => (.nestedArray fresh v, some e)
      | .ok node =>
        match node with
        | .array items =>
          match pushBackAll (fun item => returnObj (fromJson lib fresh (lib.dump item)))
              items [] with
          | (value, r) => (.nestedArray fresh value, r)
        | _ => (.nestedArray fresh v, none)
    else (.nestedArray fresh v, none)
end

/-- `JSONSerializable::fromJsonStatic`, with `fresh` the default-constructed `Derived`.  The
nested deserializers above call it as `returnObj (fromJson lib fresh text)`. -/
def fromJsonStatic (lib : TreeLib) (fresh : JSONSerializable) (jsonStr : String) :
    Except Fault JSONSerializable :=
  returnObj (fromJson lib fresh jsonStr)

/-- `PropertySerializer<std::vector<JSONSerializable>>::deserialize`, the codec `registerProperty`
selects for a sequence member; `fresh` is the default-constructed object `fromJsonStatic` starts
from.  The sequence after the call, and the exception thrown if any. -/
def PropertySerializerVector.deserialize (lib : TreeLib) (fresh : JSONSerializable) (obj : Json)
    (key : String) (value : List JSONSerializable) : List JSONSerializable × Option Fault :=
  if contains obj key then
    match index obj key with
    | .error e => (value, some e)
    | .ok node =>
      match node with
      | .array items =>
        pushBackAll (fun item => returnObj (fromJson lib fresh (lib.dump item))) items []
      | _ => (value, none)
  else (value, none)

end nlohmann

/-! ## The rapidjson backend (`rapid_json_wrapper.hpp`) -/

namespace rapidjson

/-- Modelled from the spec: set-scalar and set-child of the Tree adapter (section 4.4, explicit
allocator), `obj.AddMember(k, v, alloc)` of rapidjson with `k` built from `key.c_str()`: one member is appended,
whether or not the name is already there. -/
def AddMember (obj : Json) (key : String) (v : Json) : Except Fault Json :=
  match obj with
  | .object m => .ok (.object (m ++ [(c_str key, v)]))
  | _ => .error .assertion

/-- Modelled from the spec: key presence in the Tree adapter (section 2),
`obj.HasMember(key.c_str())` of rapidjson: asserts that `obj` is an object. -/
def HasMember (obj : Json) (key : String) : Except Fault Bool :=
  match obj with
  | .object m => .ok (find m (c_str key)).isSome
  | _ => .error .assertion

/-- Modelled from the spec: get-by-key of the Tree adapter (section 4.4), `obj[key.c_str()]` of
rapidjson: the first member of that name. -/
def index (obj : Json) (key : String) : Except Fault Json :=
  match obj with
  | .object m =>
    match find m (c_str key) with
    | some v => .ok v
    | none => .error .assertion
  | _ => .error .assertion

/-- Modelled from the spec: kind-check of the Tree adapter (section 2), `IsString()` of rapidjson:
a string node. -/
def IsString : Json → Bool
  | .string _ => true
  | _ => false

/-- Modelled from the spec: kind-check of the Tree adapter (section 2), `IsInt()` of rapidjson:
an integer node whose value is in the range of `int`. -/
def IsInt : Json → Bool
  | .number_integer i => decide (-(2 : Int) ^ 31 ≤ i ∧ i < 2 ^ 31)
  | .number_unsigned n => decide (n < 2 ^ 31)
  | _ => false

/-- Modelled from the spec: kind-check of the Tree adapter (section 2), `IsUint()` of rapidjson:
an integer node whose value is in the range of `unsigned`. -/
def IsUint : Json → Bool
  | .number_integer i => decide (0 ≤ i ∧ i < 2 ^ 32)
  | .number_unsigned n => decide (n < 2 ^ 32)
  | _ => false

/-- Modelled from the spec: kind-check of the Tree adapter (section 2), `IsUint64()` of rapidjson:
an integer node whose value is in the range of `uint64_t`. -/
def IsUint64 : Json → Bool
  | .number_integer i => decide (0 ≤ i ∧ i < 2 ^ 64)
  | .number_unsigned n => decide (n < 2 ^ 64)
  | _ => false

/-- Modelled from the spec: kind-check of the Tree adapter (section 2), `IsDouble()` of rapidjson:
a number node that holds a `double`. -/
def IsDouble : Json → Bool
  | .number_float _ => true
  | _ => false

/-- Modelled from the spec: kind-check of the Tree adapter (section 2), `IsNumber()` of rapidjson:
a number node. -/
def IsNumber : Json → Bool
  | .number_integer _ => true
  | .number_unsigned _ => true
  | .number_float _ => true
  | _ => false

/-- Modelled from the spec: kind-check of the Tree adapter (section 2), `IsBool()` of rapidjson:
a boolean node. -/
def IsBool : Json → Bool
  | .boolean _ => true
  | _ => false

/-- Modelled from the spec: kind-check of the Tree adapter (section 2), `IsObject()` of rapidjson:
an object node. -/
def IsObject : Json → Bool
  | .object _ => true
  | _ => false

/-- Modelled from the spec: kind-check of the Tree adapter (section 2), `IsArray()` of rapidjson:
an array node. -/
def IsArray : Json → Bool
  | .array _ => true
  | _ => false

/-- Modelled from the spec: get-scalar of the Tree adapter, `GetString()` of rapidjson assigned
to a `std::string`: the characters up to the first NUL. -/
def GetString : Json → Except Fault String
  | .string s => .ok (c_str s)
  | _ => .error .assertion

/-- Modelled from the spec: get-scalar of the Tree adapter, `GetInt()` of rapidjson: asserts the
`int` flag. -/
def GetInt (node : Json) : Except Fault Int :=
  if IsInt node then
    match node with
    | .number_integer i => .ok i
    | .number_unsigned n => .ok n
    | _ => .error .assertion
  else .error .assertion

/-- Modelled from the spec: get-scalar of the Tree adapter, `GetUint()` of rapidjson: asserts
the `unsigned` flag. -/
def GetUint (node : Json) : Except Fault Nat :=
  if IsUint node then
    match node with
    | .number_integer i => .ok i.toNat
    | .number_unsigned n => .ok n
    | _ => .error .assertion
  else .error .assertion

/-- Modelled from the spec: get-scalar of the Tree adapter, `GetUint64()` of rapidjson: asserts
the `uint64` flag. -/
def GetUint64 (node : Json) : Except Fault Nat :=
  if IsUint64 node then
    match node with
    | .number_integer i => .ok i.toNat
    | .number_unsigned n => .ok n
    | _ => .error .assertion
  else .error .assertion

/-- Modelled from the spec: get-scalar of the Tree adapter, `GetDouble()` of rapidjson, called
behind `IsDouble`. -/
def GetDouble : Json → Except Fault Dbl
  | .number_float d => .ok d
  | _ => .error .assertion

/-- Modelled from the spec: get-scalar of the Tree adapter, `GetBool()` of rapidjson. -/
def GetBool : Json → Except Fault Bool
  | .boolean b => .ok b
  | _ => .error .assertion

/-- The body shared by the scalar `deserialize` specialisations:
`if (obj.HasMember(key.c_str()) && obj[key.c_str()].IsK()) value = obj[key.c_str()].GetT();`. -/
def assignIf {α : Type} (obj : Json) (key : String) (isKind : Json → Bool)
    (get : Json → Except Fault α) (value : α) : α × Option Fault :=
  match HasMember obj key with
  | .error e => (value, some e)
  | .ok false => (value, none)
  | .ok true =>
    match index obj key with
    | .error e => (value, some e)
    | .ok node =>
      if isKind node then
        match get node with
        | .ok x => (x, none)
        | .error e => (value, some e)
      else (value, none)

/-- `EnumSerializer::serialize`. -/
def EnumSerializer.serialize (inst : EnumSerializer) (obj : Json) (key : String) (value : Int) :
    Except Fault Json :=
  match find inst.enumToString value with
  | some name => AddMember obj key (.string (c_str name))
  | none => .ok obj

/-- `EnumSerializer::deserialize`. -/
def EnumSerializer.deserialize (inst : EnumSerializer) (obj : Json) (key : String)
    (value : Int) : Int × Option Fault :=
  match HasMember obj key with
  | .error e => (value, some e)
  | .ok false => (value, none)
  | .ok true =>
    match index obj key with
    | .error e => (value, some e)
    | .ok jsonValue =>
      if IsString jsonValue then
        match GetString jsonValue with
        | .error e => (value, some e)
        | .ok strValue =>
          match find inst.stringToEnum strValue with
          | some v => (v, none)
          | none => (value, none)
      else if IsNumber jsonValue then
        match GetInt jsonValue with
        | .ok i => (inst.cast i, none)
        | .error e => (value, some e)
      else (value, none)

/-- Modelled from the spec: parse of the Tree adapter into a separate sub-tree (section 4.4),
`subDoc.Parse(text.c_str())` on a new rapidjson `Document`: the document stays null when the
text does not parse.  The serializers then move the local document into the tree
(`AddMember(k, subDoc, alloc)`, `PushBack(subDoc, alloc)`); the member is taken to hold the tree
parsed, as it does while the memory of the allocator of the local document is left as it
was. -/
def subDoc (lib : TreeLib) (text : String) : Json :=
  match lib.parse (c_str text) with
  | some t => t
  | none => .null

/-- The loop of the `registerNestedArray` deserializer: only items of object kind are read. -/
def pushBackObjects (f : Json → Except Fault JSONSerializable) :
    List Json → List JSONSerializable → List JSONSerializable × Option Fault
  | [], acc => (acc, none)
  | item :: rest, acc =>
    if IsObject item then
      match f item with
      | .ok o => pushBackObjects f rest (acc ++ [o])
      | .error e => (acc, some e)
    else pushBackObjects f rest acc

mutual
/-- The document `toJson` prints: every serializer is run, in order, on an empty object. -/
def toJsonTree (lib : TreeLib) : JSONSerializable → Except Fault Json
  | .mk properties => runSerializers lib properties (.object [])
/-- The loop of `toJson` over `serializers`. -/
def runSerializers (lib : TreeLib) : List (String × Field) → Json → Except Fault Json
  | [], obj => .ok obj
  | (key, value) :: rest, obj =>
    match serialize lib value obj key with
    | .ok obj' => runSerializers lib rest obj'
    | .error e => .error e
/-- The serializer of one binding. -/
def serialize (lib : TreeLib) : Field → Json → String → Except Fault Json
  | .string v, obj, key => AddMember obj key (.string (c_str v))
  | .int v, obj, key => AddMember obj key (.number_integer v)
  | .double v, obj, key => AddMember obj key (.number_float v)
  | .bool v, obj, key => AddMember obj key (.boolean v)
  | .unsigned v, obj, key => AddMember obj key (.number_unsigned v)
  | .uint64 v, obj, key => AddMember obj key (.number_unsigned v)
  | .enum inst v, obj, key => EnumSerializer.serialize inst obj key v
  | .nestedObject _ v, obj, key =>
    match toJsonTree lib v with
    | .error e => .error e
    | .ok t => AddMember obj key (subDoc lib (c_str (lib.dump t)))
  | .nestedArray _ v, obj, key =>
    match serializeItems lib v [] with
    | .error e => .error e
    | .ok arr => AddMember obj key (.array arr)
/-- The loop `arr.PushBack(subDoc, alloc)`. -/
def serializeItems (lib : TreeLib) : List JSONSerializable → List Json → Except Fault (List Json)
  | [], arr => .ok arr
  | item :: rest, arr =>
    match toJsonTree lib item with
    | .error e => .error e
    | .ok t => serializeItems lib rest (arr ++ [subDoc lib (c_str (lib.dump t))])
end

/-- `JSONSerializable::toJson`: the text of the buffer, handed back as a `const char*`. -/
def toJson (lib : TreeLib) (o : JSONSerializable) : Except Fault String :=
  match toJsonTree lib o with
  | .ok doc => .ok (c_str (lib.dump doc))
  | .error e => .error e

mutual
/-- `JSONSerializable::fromJson`: the object after the call, and the flag returned or the
assertion that failed. -/
def fromJson (lib : TreeLib) : JSONSerializable → String → JSONSerializable × Except Fault Bool
  | .mk properties, jsonStr =>
    match lib.parse (c_str jsonStr) with
    | none => (.mk properties, .ok false)
    | some doc =>
      match runDeserializers lib properties doc with
      | (properties', none) => (.mk properties', .ok true)
      | (properties', some e) => (.mk properties', .error e)
/-- The loop of `fromJson` over `deserializers`. -/
def runDeserializers (lib : TreeLib) :
    List (String × Field) → Json → List (String × Field) × Option Fault
  | [], _ => ([], none)
  | (key, value) :: rest, obj =>
    match deserialize lib value obj key with
    | (value', some e) => ((key, value') :: rest, some e)
    | (value', none) =>
      match runDeserializers lib rest obj with
      | (rest', r) => ((key, value') :: rest', r)
/-- The deserializer of one binding. -/
def deserialize (lib : TreeLib) : Field → Json → String → Field × Option Fault
  | .string v, obj, key =>
    match assignIf obj key IsString GetString v with
    | (x, r) => (.string x, r)
  | .int v, obj, key =>
    match assignIf obj key IsInt GetInt v with
    | (x, r) => (.int x, r)
  | .double v, obj, key =>
    match assignIf obj key IsDouble GetDouble v with
    | (x, r) => (.double x, r)
  | .bool v, obj, key =>
    match assignIf obj key IsBool GetBool v with
    | (x, r) => (.bool x, r)
  | .unsigned v, obj, key =>
    match assignIf obj key IsUint GetUint v with
    | (x, r) => (.unsigned x, r)
  | .uint64 v, obj, key =>
    match assignIf obj key IsUint64 GetUint64 v with
    | (x, r) => (.uint64 x, r)
  | .enum inst v, obj, key =>
    match EnumSerializer.deserialize inst obj key v with
    | (x, r) => (.enum inst x, r)
  | .nestedObject fresh v, obj, key =>
    match HasMember obj key with
    | .error e => (.nestedObject fresh v, some e)
    | .ok false => (.nestedObject fresh v, none)
    | .ok true =>
      match index obj key with
      | .error e => (.nestedObject fresh v, some e)
      | .ok node =>
        if IsObject node then
          match returnObj (fromJson lib fresh (c_str (lib.dump node))) with
          | .ok o => (.nestedObject fresh o, none)
          | .error e => (.nestedObject fresh v, some e)
        else (.nestedObject fresh v, none)
  | .nestedArray fresh v, obj, key =>
    match HasMember obj key with
    | .error e => (.nestedArray fresh v, some e)
    | .ok false => (.nestedArray fresh v, none)
    | .ok true =>
      match index obj key with
      | .error e => (.nestedArray fresh v, some e)
      | .ok node =>
        match node with
        | .array items =>
          match pushBackObjects
              (fun item => returnObj (fromJson lib fresh (c_str (lib.dump item)))) items [] with
          | (value, r) => (.nestedArray fresh value, r)
        | _ => (.nestedArray fresh v, none)
end

/-- `JSONSerializable::fromJsonStatic`: the flag of `fromJson` is dropped.  The nested
deserializers above call it as `returnObj (fromJson lib fresh text)`. -/
def fromJsonStatic (lib : TreeLib) (fresh : JSONSerializable) (jsonStr : String) :
    Except Fault JSONSerializable :=
  returnObj (fromJson lib fresh jsonStr)

/-- Modelled from the spec: the array node of the Tree adapter (section 4.4), `Size()` of
rapidjson: the number of elements; asserts that the node is an array. -/
def Size : Json → Except Fault Nat
  | .array items => .ok items.length
  | _ => .error .assertion

/-- Modelled from the spec: the array node of the Tree adapter (section 4.4), `node[i]` of
rapidjson with an integer index: asserts that the node is an array and that the index is below
its size. -/
def element (node : Json) (i : Nat) : Except Fault Json :=
  match node with
  | .array items =>
    match items[i]? with
    | some item => .ok item
    | none => .error .assertion
  | _ => .error .assertion

/-- The body of the loop `for (int i = 0; i < obj.Size(); i++)` of
`PropertySerializer<std::vector<JSONSerializable>>::deserialize`, run for the `remaining`
indices from `i` on: the item is `obj[key.c_str()][i]`, and only an item of object kind is
read. -/
def loopItems (f : Json → Except Fault JSONSerializable) (node : Json) :
    Nat → Nat → List JSONSerializable → List JSONSerializable × Option Fault
  | 0, _, acc => (acc, none)
  | remaining + 1, i, acc =>
    match element node i with
    | .error e => (acc, some e)
    | .ok item =>
      if IsObject item then
        match f item with
        | .ok o => loopItems f node remaining (i + 1) (acc ++ [o])
        | .error e => (acc, some e)
      else loopItems f node remaining (i + 1) acc

/-- `PropertySerializer<std::vector<JSONSerializable>>::deserialize`, the codec `registerProperty`
selects for a sequence member.  The bound of its loop is `obj.Size()`, the size of the tree the
key is looked up in, taken after `value.clear()`.  The sequence after the call, and the
assertion that failed if any. -/
def PropertySerializerVector.deserialize (lib : TreeLib) (fresh : JSONSerializable) (obj : Json)
    (key : String) (value : List JSONSerializable) : List JSONSerializable × Option Fault :=
  match HasMember obj key with
  | .error e => (value, some e)
  | .ok false => (value, none)
  | .ok true =>
    match index obj key with
    | .error e => (value, some e)
    | .ok node =>
      if IsArray node then
        match Size obj with
        | .error e => ([], some e)
        | .ok n =>
          loopItems (fun item => returnObj (fromJson lib fresh (c_str (lib.dump item))))
            node n 0 []
      else (value, none)

end rapidjson

/-! ## Vocabulary of the statements -/

/-- The loop of `fromJson` over the deserializers `d`, for either backend. -/
def runAll (d : Field → Json → String → Field × Option Fault) :
    List (String × Field) → Json → List (String × Field) × Option Fault
  | [], _ => ([], none)
  | (key, value) :: rest, obj =>
    match d value obj key with
    | (value', some e) => ((key, value') :: rest, some e)
    | (value', none) =>
      match runAll d rest obj with
      | (rest', r) => ((key, value') :: rest', r)

/-- The kind a JSON node declares. -/
inductive Kind where
  | null
  | boolean
  | number
  | string
  | array
  | object
deriving DecidableEq, Repr

/-- The declared kind of a node. -/
def Json.kind : Json → Kind
  | .null => .null
  | .boolean _ => .boolean
  | .number_integer _ => .number
  | .number_unsigned _ => .number
  | .number_float _ => .number
  | .string _ => .string
  | .array _ => .array
  | .object _ => .object

/-- The kind of node a scalar member is read from: a string node for text, a numeric node for
the four number types, a boolean node for flags.  `none` for the other codecs. -/
def Field.expectedKind : Field → Option Kind
  | .string _ => some .string
  | .int _ => some .number
  | .double _ => some .number
  | .bool _ => some .boolean
  | .unsigned _ => some .number
  | .uint64 _ => some .number
  | _ => none

/-- The registry after one `registerValue` call per pair, in list order, on the empty
registry. -/
def EnumSerializer.registerAll (pairs : List (String × Int)) : EnumSerializer :=
  pairs.foldl (fun inst p => inst.registerValue p.1 p.2) EnumSerializer.empty

/-- The members of an object node; none for a node of another kind. -/
def Json.members : Json → List (String × Json)
  | .object m => m
  | _ => []

/-- Whether the serializer of a member writes its key: all do, but the enum serializer when the
value has no registered name. -/
def Field.writes : Field → Bool
  | .enum inst v => (find inst.enumToString v).isSome
  | _ => true

/-- The node of native kind holding the value of a scalar member. -/
def Field.scalarNode : Field → Json
  | .string v => .string v
  | .int v => .number_integer v
  | .double v => .number_float v
  | .bool v => .boolean v
  | .unsigned v => .number_unsigned v
  | .uint64 v => .number_unsigned v
  | _ => .null

/-- The node the rapidjson serializer builds for a scalar member: as `scalarNode`, with a string
taken through its `const char*`. -/
def Field.cNode : Field → Json
  | .string v => .string (c_str v)
  | f => f.scalarNode

/-- A tree `toJson` works on in the nlohmann backend: null at first, an object from the first
write on. -/
def IsTree (obj : Json) : Prop :=
  obj = .null ∨ ∃ m, obj = .object m

/-- A string without NUL character: one its `const char*` denotes in full. -/
def NulFree (s : String) : Prop :=
  c_str s = s

instance (s : String) : Decidable (NulFree s) :=
  inferInstanceAs (Decidable (c_str s = s))

mutual
/-- The tree read back from the printed text of a tree: an integer literal without sign is read
as a `number_unsigned`, whatever kind of integer node was printed. -/
def reparse : Json → Json
  | .number_integer i => if 0 ≤ i then .number_unsigned i.toNat else .number_integer i
  | .array items => .array (reparseItems items)
  | .object members => .object (reparseMembers members)
  | .null => .null
  | .boolean b => .boolean b
  | .number_unsigned n => .number_unsigned n
  | .number_float d => .number_float d
  | .string s => .string s
def reparseItems : List Json → List Json
  | [] => []
  | x :: xs => reparse x :: reparseItems xs
def reparseMembers : List (String × Json) → List (String × Json)
  | [] => []
  | (k, v) :: ms => (k, reparse v) :: reparseMembers ms
end

/-- The node the nlohmann serializer of a member assigns under its key. -/
def nlohmann.nodeOf (lib : TreeLib) : Field → Json
  | .enum inst v =>
    match find inst.enumToString v with
    | some name => .string name
    | none => .null
  | .nestedObject _ v =>
    match nlohmann.toJsonTree lib v with
    | .ok t => (lib.parse (lib.dump t)).getD .null
    | .error _ => .null
  | .nestedArray _ vs =>
    match nlohmann.serializeItems lib vs [] with
    | .ok arr => .array arr
    | .error _ => .null
  | f => f.scalarNode

/-- The node the rapidjson serializer of a member appends under its key. -/
def rapidjson.nodeOf (lib : TreeLib) : Field → Json
  | .string v => .string (c_str v)
  | .enum inst v =>
    match find inst.enumToString v with
    | some name => .string (c_str name)
    | none => .null
  | .nestedObject _ v =>
    match rapidjson.toJsonTree lib v with
    | .ok t => rapidjson.subDoc lib (c_str (lib.dump t))
    | .error _ => .null
  | .nestedArray _ vs =>
    match rapidjson.serializeItems lib vs [] with
    | .ok arr => .array arr
    | .error _ => .null
  | f => f.scalarNode

/-- What the round trip of an object depends on in a backend. -/
structure Backend where
  /-- The tree `toJson` builds. -/
  tree : JSONSerializable → Except Fault Json
  /-- The library reads the printed text of the tree back. -/
  reads : Json → Prop
  /-- The strings the backend carries in full. -/
  text : String → Prop
  /-- The nested objects whose node is of object kind. -/
  nested : JSONSerializable → Prop

/-- The nlohmann backend: every string is carried in full; an object without bindings prints as
`null`. -/
def nlohmannBackend (lib : TreeLib) : Backend :=
  { tree := nlohmann.toJsonTree lib
    reads := fun t => lib.parse (lib.dump t) = some (reparse t)
    text := fun _ => True
    nested := fun v => v.properties ≠ [] }

/-- The rapidjson backend: strings and texts pass as `const char*`. -/
def rapidjsonBackend (lib : TreeLib) : Backend :=
  { tree := rapidjson.toJsonTree lib
    reads := fun t => lib.parse (c_str (lib.dump t)) = some (reparse t)
    text := NulFree
    nested := fun _ => True }

mutual
/-- The objects `o` of the class of `fresh` that come back from their own text: `o` and `fresh`
hold the same bindings, with pairwise distinct keys the backend carries in full; see
`RoundTripsField` for the members. -/
def RoundTrips (b : Backend) : JSONSerializable → JSONSerializable → Prop
  | .mk ps, fresh => RoundTripsAll b ps fresh.properties
def RoundTripsAll (b : Backend) : List (String × Field) → List (String × Field) → Prop
  | [], qs => qs = []
  | (key, f) :: ps, qs =>
    b.text key ∧ key ∉ ps.map Prod.fst ∧
      ∃ g qs', qs = (key, g) :: qs' ∧ RoundTripsField b f g ∧ RoundTripsAll b ps qs'
/-- The member `f` of the object and the member `g` of the fresh object have the same codec; a
string is one the backend carries in full; a number is in the range of its C++ type; an enum
value has a name the backend carries in full, which the forward map sends back to the value; a
nested object, and each element of a nested array, comes back from its own text, which the
library reads back, also when printed a second time. -/
def RoundTripsField (b : Backend) : Field → Field → Prop
  | .string v, g => b.text v ∧ ∃ w, g = .string w
  | .int v, g => (-(2 : Int) ^ 31 ≤ v ∧ v < 2 ^ 31) ∧ ∃ w, g = .int w
  | .double _, g => ∃ w, g = .double w
  | .bool _, g => ∃ w, g = .bool w
  | .unsigned v, g => v < 2 ^ 32 ∧ ∃ w, g = .unsigned w
  | .uint64 v, g => v < 2 ^ 64 ∧ ∃ w, g = .uint64 w
  | .enum inst v, g =>
    (∃ name, find inst.enumToString v = some name ∧ b.text name ∧
        find inst.stringToEnum name = some v) ∧
      ∃ w, g = .enum inst w
  | .nestedObject fresh v, g =>
    (∃ w, g = .nestedObject fresh w) ∧ b.nested v ∧ RoundTrips b v fresh ∧
      ∃ t, b.tree v = .ok t ∧ b.reads t ∧ b.reads (reparse t)
  | .nestedArray fresh vs, g => (∃ w, g = .nestedArray fresh w) ∧ RoundTripsItems b vs fresh
def RoundTripsItems (b : Backend) : List JSONSerializable → JSONSerializable → Prop
  | [], _ => True
  | v :: vs, fresh =>
    RoundTrips b v fresh ∧ (∃ t, b.tree v = .ok t ∧ b.reads t ∧ b.reads (reparse t)) ∧
      RoundTripsItems b vs fresh
end

/-- The codec a binding was registered with: the specialisation of `PropertySerializer` its
member type selects, or the closures of `registerNestedObject` and `registerNestedArray`. -/
inductive Codec where
  | string
  | int
  | double
  | bool
  | unsigned
  | uint64
  | enum
  | nestedObject
  | nestedArray
deriving DecidableEq, Repr

/-- The codec of a member. -/
def Field.codec : Field → Codec
  | .string _ => .string
  | .int _ => .int
  | .double _ => .double
  | .bool _ => .bool
  | .unsigned _ => .unsigned
  | .uint64 _ => .uint64
  | .enum _ _ => .enum
  | .nestedObject _ _ => .nestedObject
  | .nestedArray _ _ => .nestedArray

/-- The members that are text, an integer of one of the three integer types, or a flag. -/
def Field.isDiscrete : Field → Bool
  | .string _ => true
  | .int _ => true
  | .bool _ => true
  | .unsigned _ => true
  | .uint64 _ => true
  | _ => false

/-- The value of an integer member is one of its C++ type: `int`, `unsigned int` or
`uint64_t`. -/
def Field.inRange : Field → Bool
  | .int v => decide (-(2 : Int) ^ 31 ≤ v ∧ v < 2 ^ 31)
  | .unsigned v => decide (v < 2 ^ 32)
  | .uint64 v => decide (v < 2 ^ 64)
  | _ => true

/-- The two maps of a registry refer to each other: every name the reverse map stores is a key of
the forward map, and the code of every value the forward map stores is a key of the reverse
map. -/
def EnumSerializer.Linked (inst : EnumSerializer) : Prop :=
  (∀ v name, find inst.enumToString v = some name → (find inst.stringToEnum name).isSome) ∧
    ∀ name v, find inst.stringToEnum name = some v → (find inst.enumToString v).isSome

/-- The value of a member of an object: a scalar, the code of an enumerator, the values of the
members of a nested object, or the values of the elements of a sequence, each the value of an
object. -/
inductive Value where
  | string (v : String)
  | int (v : Int)
  | double (v : Dbl)
  | bool (v : Bool)
  | unsigned (v : Nat)
  | uint64 (v : Nat)
  | enum (code : Int)
  | object (fields : List Value)
  | sequence (elements : List Value)

mutual
/-- The values held by the storage the bindings of an object refer to, in registration order;
for a nested object and for the elements of a nested array, by the storage their own bindings
refer to. -/
def JSONSerializable.values : JSONSerializable → List Value
  | .mk ps => fieldValues ps
def fieldValues : List (String × Field) → List Value
  | [] => []
  | (_, f) :: rest => f.value :: fieldValues rest
def Field.value : Field → Value
  | .string v => .string v
  | .int v => .int v
  | .double v => .double v
  | .bool v => .bool v
  | .unsigned v => .unsigned v
  | .uint64 v => .uint64 v
  | .enum _ v => .enum v
  | .nestedObject _ v => .object v.values
  | .nestedArray _ vs => .sequence (elementValues vs)
def elementValues : List JSONSerializable → List Value
  | [] => []
  | v :: vs => .object v.values :: elementValues vs
end

/-- An object of a class derived from `JSONSerializable<Derived>`, as the program holds it.
`fields` are the values of its registered members, in registration order.  `bindings` are its
`serializers` and `deserializers`: the closures `[key, &value]` that `registerProperty`,
`registerNestedObject` and `registerNestedArray` append, each with its key and the content of
the storage its reference refers to.  After construction the closures refer to the members of
the object itself.  The class declares no copy operation (only
`virtual ~JSONSerializable() = default`): in a copy made by the implicit ones, such as an
element pushed into a `std::vector` or a member assigned from `T::fromJsonStatic`, the closures
are copies of those of the source and refer to the members of the object copied from. -/
structure Instance where
  fields : List Value
  bindings : JSONSerializable

/-- The bindings of the object, and those of its nested objects and elements, refer to storage
that holds the values of its own members: so it is for an object whose constructor registered
its members, and for a copy as long as it and the object copied from hold the same values. -/
def Instance.ReadsOwnFields (x : Instance) : Prop :=
  x.bindings.values = x.fields

/-- `toJson` of the nlohmann backend on an object as the program holds it: the closures print
what they refer to. -/
def nlohmann.Instance.toJson (lib : TreeLib) (x : Instance) : Except Fault String :=
  nlohmann.toJson lib x.bindings

/-- `toJson` of the rapidjson backend on an object as the program holds it: the closures print
what they refer to. -/
def rapidjson.Instance.toJson (lib : TreeLib) (x : Instance) : Except Fault String :=
  rapidjson.toJson lib x.bindings

/-- The kinds of node the deserializer of a member can read: a string node for text, a numeric
node for the four number types, a boolean node for flags, a string or numeric node for an enum,
an object node for a nested object, an array node for a nested array.  A node of any other kind
is passed over, in both backends. -/
def Field.accepts : Field → Kind → Bool
  | .string _, k => decide (k = .string)
  | .int _, k => decide (k = .number)
  | .double _, k => decide (k = .number)
  | .bool _, k => decide (k = .boolean)
  | .unsigned _, k => decide (k = .number)
  | .uint64 _, k => decide (k = .number)
  | .enum _ _, k => decide (k = .string ∨ k = .number)
  | .nestedObject _ _, k => decide (k = .object)
  | .nestedArray _ _, k => decide (k = .array)

/-- The composite `v` of the class of `fresh` comes back from its own text in the nlohmann
backend: `toJson` builds a tree, the library reads the text of the tree back, and
`fromJsonStatic` of the text of the tree read back returns `v`. -/
def nlohmann.ComesBack (lib : TreeLib) (fresh v : JSONSerializable) : Prop :=
  ∃ t, nlohmann.toJsonTree lib v = .ok t ∧ lib.parse (lib.dump t) = some (reparse t) ∧
    nlohmann.fromJsonStatic lib fresh (lib.dump (reparse t)) = .ok v

/-- The composite `v` of the class of `fresh` comes back from its own text in the rapidjson
backend, where every text is handed over as a C string. -/
def rapidjson.ComesBack (lib : TreeLib) (fresh v : JSONSerializable) : Prop :=
  ∃ t, rapidjson.toJsonTree lib v = .ok t ∧
    lib.parse (c_str (lib.dump t)) = some (reparse t) ∧
    rapidjson.fromJsonStatic lib fresh (c_str (lib.dump (reparse t))) = .ok v

/-! ## Objects the statements are evaluated on -/

namespace Example

/-- The registry after `registerValue("RED", 0)` and `registerValue("GREEN", 1)`. -/
def colors : EnumSerializer :=
  (EnumSerializer.empty.registerValue "RED" 0).registerValue "GREEN" 1

/-- An object with one `int` member registered under `"age"`, holding 30. -/
def person : JSONSerializable :=
  (JSONSerializable.mk []).registerProperty "age" (.int 30)

/-- An object with an enum member under `"color"` and an `int` member under `"age"`. -/
def painted : JSONSerializable :=
  ((JSONSerializable.mk []).registerProperty "color" (.enum colors 0)).registerProperty "age"
    (.int 30)

/-- An object with two `int` members, registered under `"b"` and then under `"a"`. -/
def ba : JSONSerializable :=
  ((JSONSerializable.mk []).registerProperty "b" (.int 1)).registerProperty "a" (.int 2)

/-- An object with an `int` member under `"age"` and then an enum member under `"color"`. -/
def aged : JSONSerializable :=
  ((JSONSerializable.mk []).registerProperty "age" (.int 30)).registerProperty "color"
    (.enum colors 0)

/-- The text `{"age":5,"color":2147483648}`. -/
def agedText : String := "\x7b\"age\":5,\"color\":2147483648\x7d"

/-- An object with one string member under `"s"`, holding `a`, NUL, `b`. -/
def binary : JSONSerializable :=
  (JSONSerializable.mk []).registerProperty "s" (.string "a\x00b")

/-- The default-constructed object of a class with one string member under `"city"`. -/
def address : JSONSerializable :=
  (JSONSerializable.mk []).registerProperty "city" (.string "")

/-- An address with a city. -/
def addressOf (city : String) : JSONSerializable :=
  (JSONSerializable.mk []).registerProperty "city" (.string city)

/-- An object with one enum member, holding the code 2, which has no name. -/
def unnamed : JSONSerializable :=
  (JSONSerializable.mk []).registerProperty "color" (.enum colors 2)

/-- The default-constructed object of that class: the member holds the code 0. -/
def unnamedFresh : JSONSerializable :=
  (JSONSerializable.mk []).registerProperty "color" (.enum colors 0)

/-- Two names that agree up to a NUL character, with two values. -/
def nulPairs : List (String × Int) :=
  [("A\x00B", 0), ("A", 1)]

/-- The text `{}`. -/
def emptyObject : String := "\x7b\x7d"

/-- The text `{`. -/
def truncated : String := "\x7b"

/-- The text `{"age":"not-a-number"}`. -/
def ageIsText : String := "\x7b\"age\":\"not-a-number\"\x7d"

/-- The text `{"color":2147483648}`. -/
def colorIsLarge : String := "\x7b\"color\":2147483648\x7d"

/-- An object with one nested object under `"home"`, holding the address of Oslo. -/
def tenant : JSONSerializable :=
  (JSONSerializable.mk []).registerProperty "home" (.nestedObject address (addressOf "Oslo"))

/-- The text `{"home":{"city":"Rome"}}`. -/
def homeText : String := "\x7b\"home\":\x7b\"city\":\"Rome\"\x7d\x7d"

/-- An object with one nested array under `"places"`, holding the address of Oslo. -/
def visitor : JSONSerializable :=
  (JSONSerializable.mk []).registerProperty "places" (.nestedArray address [addressOf "Oslo"])

/-- The text `{"places":[{"city":"Rome"},{"city":"Bern"}]}`. -/
def placesText : String :=
  "\x7b\"places\":[\x7b\"city\":\"Rome\"\x7d,\x7b\"city\":\"Bern\"\x7d]\x7d"

/-- The text `{"places":[5,{"city":"Rome"}]}`. -/
def mixedPlacesText : String := "\x7b\"places\":[5,\x7b\"city\":\"Rome\"\x7d]\x7d"

/-- The text `{"places":5}`. -/
def placesIsNumber : String := "\x7b\"places\":5\x7d"

/-- The text `[]`. -/
def emptyArray : String := "[]"

/-- The text `5`. -/
def five : String := "5"

/-- An object with one `double` member under `"x"`, holding 0.0. -/
def measured : JSONSerializable :=
  (JSONSerializable.mk []).registerProperty "x" (.double ⟨0⟩)

/-- The text `{"x":1}`. -/
def xIsOne : String := "\x7b\"x\":1\x7d"

/-- The default-constructed object of a class with a string, an `int`, an `unsigned int`, a
`uint64_t` and a `bool` member. -/
def recordFresh : JSONSerializable :=
  (((((JSONSerializable.mk []).registerProperty "name" (.string "")).registerProperty "age"
    (.int 0)).registerProperty "count" (.unsigned 0)).registerProperty "size"
    (.uint64 0)).registerProperty "done" (.bool false)

/-- An object of that class with other values in every member. -/
def record : JSONSerializable :=
  (((((JSONSerializable.mk []).registerProperty "name" (.string "Ann")).registerProperty "age"
    (.int (-3))).registerProperty "count" (.unsigned 7)).registerProperty "size"
    (.uint64 1099511627776)).registerProperty "done" (.bool true)

/-- The default-constructed object of the class of `binary`: one string member under `"s"`. -/
def binaryFresh : JSONSerializable :=
  (JSONSerializable.mk []).registerProperty "s" (.string "")

/-- One name registered for two values. -/
def sharedName : List (String × Int) :=
  [("A", 0), ("A", 1)]

/-- One name, holding a NUL character. -/
def nulName : List (String × Int) :=
  [("A\x00B", 0)]

/-- An object with one `unsigned int` member under `"count"`, holding 7. -/
def counter : JSONSerializable :=
  (JSONSerializable.mk []).registerProperty "count" (.unsigned 7)

/-- The text `{"count":4294967298}`. -/
def countIsLarge : String := "\x7b\"count\":4294967298\x7d"

/-- The text `{"count":12}`. -/
def countIsSmall : String := "\x7b\"count\":12\x7d"

/-- The default-constructed object of a class with a string member under `"city"` and an `int`
member under `"zip"`. -/
def lodgingFresh : JSONSerializable :=
  ((JSONSerializable.mk []).registerProperty "city" (.string "")).registerProperty "zip" (.int 0)

/-- An object of that class: Oslo, 7. -/
def lodging : JSONSerializable :=
  ((JSONSerializable.mk []).registerProperty "city" (.string "Oslo")).registerProperty "zip"
    (.int 7)

/-- An object with a nested object of that class under `"home"` and an `int` member under
`"age"`. -/
def guest : JSONSerializable :=
  ((JSONSerializable.mk []).registerProperty "home"
    (.nestedObject lodgingFresh lodging)).registerProperty "age" (.int 30)

/-- The text `{"home":{"city":"Rome","zip":"x"}}`. -/
def homeZipIsText : String :=
  "\x7b\"home\":\x7b\"city\":\"Rome\",\"zip\":\"x\"\x7d\x7d"

/-- The default-constructed object of a class with two `int` members, both registered under
`"n"`. -/
def twinFresh : JSONSerializable :=
  ((JSONSerializable.mk []).registerProperty "n" (.int 0)).registerProperty "n" (.int 0)

/-- An object of that class: the member registered first holds 1, the other 2. -/
def twin : JSONSerializable :=
  ((JSONSerializable.mk []).registerProperty "n" (.int 1)).registerProperty "n" (.int 2)

/-- The default-constructed object of a class with two string members, both registered under
`"s"`. -/
def twinTextFresh : JSONSerializable :=
  ((JSONSerializable.mk []).registerProperty "s" (.string "")).registerProperty "s" (.string "")

/-- An object of that class: the member registered first holds `a`, NUL, `b`, the other `c`. -/
def twinText : JSONSerializable :=
  ((JSONSerializable.mk []).registerProperty "s" (.string "a\x00b")).registerProperty "s"
    (.string "c")

/-- The registry of an enumerated type declared `enum class Tiny : unsigned char`, with the name
`ZERO` for the code 0. -/
def tiny : EnumSerializer :=
  { stringToEnum := [("ZERO", 0)], enumToString := [(0, "ZERO")],
    underlying := { bits := 8, signed := false } }

/-- An object with one `int` member registered under the key `age`, NUL, `x`, holding 30. -/
def agedNul : JSONSerializable :=
  (JSONSerializable.mk []).registerProperty "age\x00x" (.int 30)

/-- The text `{"age\u0000x":"not-a-number","age":5}`: a string under the key `age`, NUL, `x`
and the number 5 under the key `age`. -/
def ageNulText : String := "\x7b\"age\\u0000x\":\"not-a-number\",\"age\":5\x7d"

/-- The text `{"age":"not-a-number","color":2147483648}`. -/
def ageIsTextColorIsLarge : String :=
  "\x7b\"age\":\"not-a-number\",\"color\":2147483648\x7d"

/-- An object with one nested array registered under the key `places`, NUL, `x`, holding the
address of Oslo. -/
def visitorNul : JSONSerializable :=
  (JSONSerializable.mk []).registerProperty "places\x00x"
    (.nestedArray address [addressOf "Oslo"])

/-- The default-constructed object of a class with a string member under `"city"` and an `int`
member under the key `zip`, NUL, `x`. -/
def lodgingNulFresh : JSONSerializable :=
  ((JSONSerializable.mk []).registerProperty "city" (.string "")).registerProperty "zip\x00x"
    (.int 0)

/-- An object of that class: Oslo, 7. -/
def lodgingNul : JSONSerializable :=
  ((JSONSerializable.mk []).registerProperty "city" (.string "Oslo")).registerProperty
    "zip\x00x" (.int 7)

/-- The default-constructed object of a class with a string member under `"name"`, an enum
member under `"color"`, a nested object under `"home"` and a nested array under `"places"`. -/
def hostFresh : JSONSerializable :=
  ((((JSONSerializable.mk []).registerProperty "name" (.string "")).registerProperty "color"
    (.enum colors 0)).registerProperty "home"
    (.nestedObject address address)).registerProperty "places" (.nestedArray address [])

/-- An object of that class with other values in every member. -/
def host : JSONSerializable :=
  ((((JSONSerializable.mk []).registerProperty "name" (.string "Ann")).registerProperty "color"
    (.enum colors 1)).registerProperty "home"
    (.nestedObject address (addressOf "Oslo"))).registerProperty "places"
    (.nestedArray address [addressOf "Rome"])

/-- The text `{"host":{"name":"Bob","home":5}}`. -/
def hostText : String := "\x7b\"host\":\x7b\"name\":\"Bob\",\"home\":5\x7d\x7d"

/-- An object with a nested object of the class of `hostFresh` under `"host"`. -/
def party : JSONSerializable :=
  (JSONSerializable.mk []).registerProperty "host" (.nestedObject hostFresh host)

/-- The text `{"home":{"zip":9}}`. -/
def homeZipText : String := "\x7b\"home\":\x7b\"zip\":9\x7d\x7d"

/-- The object `record` as the program holds it: its bindings refer to its own members. -/
def recordOwn : Instance :=
  { fields := [.string "Ann", .int (-3), .unsigned 7, .uint64 1099511627776, .bool true],
    bindings := record }

/-- The default-constructed object of the class of `person`: the member holds 0. -/
def personFresh : JSONSerializable :=
  (JSONSerializable.mk []).registerProperty "age" (.int 0)

/-- A copy of `person`, made by the implicit copy constructor, whose member `age` was then set
to 5, as after `Person b = a; b.age = 5;`: the closures of the copy are copies of those of
`person` and refer to the member of `person`, which holds 30. -/
def personCopy : Instance :=
  { fields := [.int 5], bindings := person }

/-- The object `twin` as the program holds it: its bindings refer to its own members. -/
def twinOwn : Instance :=
  { fields := [.int 1, .int 2], bindings := twin }

/-- A copy of `twin` whose members were then set to 5 and 6: its closures refer to the members
of `twin`, which hold 1 and 2. -/
def twinCopy : Instance :=
  { fields := [.int 5, .int 6], bindings := twin }

/-- The default-constructed object of a class with two `int` members and an `unsigned int`
member, all registered under `"n"`. -/
def trioFresh : JSONSerializable :=
  (((JSONSerializable.mk []).registerProperty "n" (.int 0)).registerProperty "n"
    (.int 0)).registerProperty "n" (.unsigned 0)

/-- An object of that class: the members hold 1, 2 and 7. -/
def trio : JSONSerializable :=
  (((JSONSerializable.mk []).registerProperty "n" (.int 1)).registerProperty "n"
    (.int 2)).registerProperty "n" (.unsigned 7)

/-- The default-constructed object of a class with a string member and two `int` members, all
registered under `"n"`; the `int` members hold 10 and 20. -/
def labelledFresh : JSONSerializable :=
  (((JSONSerializable.mk []).registerProperty "n" (.string "")).registerProperty "n"
    (.int 10)).registerProperty "n" (.int 20)

/-- An object of that class: the members hold `a`, 1 and 2. -/
def labelled : JSONSerializable :=
  (((JSONSerializable.mk []).registerProperty "n" (.string "a")).registerProperty "n"
    (.int 1)).registerProperty "n" (.int 2)

end Example

/-! ## The two loops -/

theorem nlohmann_runDeserializers_eq (lib : TreeLib) (ps : List (String × Field)) (doc : Json) :
    nlohmann.runDeserializers lib ps doc = runAll (nlohmann.deserialize lib) ps doc := by
  induction ps with
  | nil => simp [nlohmann.runDeserializers, runAll]
  | cons p ps ih =>
    obtain ⟨k, f⟩ := p
    simp only [nlohmann.runDeserializers, runAll, ih]

theorem rapidjson_runDeserializers_eq (lib : TreeLib) (ps : List (String × Field))
    (doc : Json) :
    rapidjson.runDeserializers lib ps doc = runAll (rapidjson.deserialize lib) ps doc := by
  induction ps with
  | nil => simp [rapidjson.runDeserializers, runAll]
  | cons p ps ih =>
    obtain ⟨k, f⟩ := p
    simp only [rapidjson.runDeserializers, runAll, ih]

/-- When no deserializer faults the loop applies each of them to its own member. -/
theorem runAll_complete (d : Field → Json → String → Field × Option Fault)
    (ps : List (String × Field)) (doc : Json)
    (h : ∀ p ∈ ps, (d p.2 doc p.1).2 = none) :
    runAll d ps doc = (ps.map (fun p => (p.1, (d p.2 doc p.1).1)), none) := by
  induction ps with
  | nil => rfl
  | cons p ps ih =>
    obtain ⟨k, f⟩ := p
    have hp : (d f doc k).2 = none := h (k, f) (List.mem_cons_self _ _)
    have ih' := ih (fun q hq => h q (List.mem_cons_of_mem _ hq))
    rcases hd : d f doc k with ⟨f', r⟩
    rw [hd] at hp
    simp only at hp
    subst hp
    simp [runAll, hd, ih']

/-- A member whose deserializer would leave it as it is, is as it was after the loop, wherever
the loop stops. -/
theorem runAll_frame (d : Field → Json → String → Field × Option Fault)
    (ps : List (String × Field)) (doc : Json) (i : Nat) (p : String × Field)
    (hp : ps[i]? = some p) (hsame : (d p.2 doc p.1).1 = p.2) :
    (runAll d ps doc).1[i]? = some p := by
  induction ps generalizing i with
  | nil => simp at hp
  | cons q ps ih =>
    obtain ⟨k, f⟩ := q
    rcases hd : d f doc k with ⟨f', r⟩
    cases i with
    | zero =>
      simp only [List.getElem?_cons_zero, Option.some.injEq] at hp
      subst hp
      simp only [hd] at hsame
      subst hsame
      cases r with
      | none =>
        rcases hr : runAll d ps doc with ⟨rest', r'⟩
        simp [runAll, hd, hr]
      | some e => simp [runAll, hd]
    | succ j =>
      simp only [List.getElem?_cons_succ] at hp
      cases r with
      | none =>
        have := ih j hp
        rcases hr : runAll d ps doc with ⟨rest', r'⟩
        rw [hr] at this
        simpa [runAll, hd, hr] using this
      | some e => simpa [runAll, hd] using hp

/-- When the loop completes, no deserializer has faulted. -/
theorem runAll_of_complete (d : Field → Json → String → Field × Option Fault)
    (ps : List (String × Field)) (doc : Json) (h : (runAll d ps doc).2 = none) :
    ∀ p ∈ ps, (d p.2 doc p.1).2 = none := by
  induction ps with
  | nil => simp
  | cons q ps ih =>
    obtain ⟨k, f⟩ := q
    rcases hd : d f doc k with ⟨f', r⟩
    cases r with
    | some e => simp [runAll, hd] at h
    | none =>
      rcases hr : runAll d ps doc with ⟨rest', r'⟩
      simp only [runAll, hd, hr] at h
      intro p hp
      rcases List.mem_cons.mp hp with rfl | hp
      · simp [hd]
      · exact ih (by simp [hr, h]) p hp

/-- When the loop completes, the member of every binding is what its deserializer made of it. -/
theorem runAll_get (d : Field → Json → String → Field × Option Fault)
    (ps : List (String × Field)) (doc : Json) (i : Nat) (p : String × Field)
    (h : (runAll d ps doc).2 = none) (hp : ps[i]? = some p) :
    (runAll d ps doc).1[i]? = some (p.1, (d p.2 doc p.1).1) := by
  rw [runAll_complete d ps doc (runAll_of_complete d ps doc h)]
  simp [List.getElem?_map, hp]

theorem nlohmann_fromJson_parsed (lib : TreeLib) (o : JSONSerializable) (text : String)
    (doc : Json) (h : lib.parse text = some doc) :
    nlohmann.fromJson lib o text =
      (.mk (runAll (nlohmann.deserialize lib) o.properties doc).1,
        match (runAll (nlohmann.deserialize lib) o.properties doc).2 with
        | none => .ok true
        | some e => .error e) := by
  cases o with
  | mk ps =>
    rcases hr : runAll (nlohmann.deserialize lib) ps doc with ⟨ps', r⟩
    cases r <;>
      simp [nlohmann.fromJson, h, nlohmann_runDeserializers_eq, hr, JSONSerializable.properties]

theorem rapidjson_fromJson_parsed (lib : TreeLib) (o : JSONSerializable) (text : String)
    (doc : Json) (h : lib.parse (c_str text) = some doc) :
    rapidjson.fromJson lib o text =
      (.mk (runAll (rapidjson.deserialize lib) o.properties doc).1,
        match (runAll (rapidjson.deserialize lib) o.properties doc).2 with
        | none => .ok true
        | some e => .error e) := by
  cases o with
  | mk ps =>
    rcases hr : runAll (rapidjson.deserialize lib) ps doc with ⟨ps', r⟩
    cases r <;>
      simp [rapidjson.fromJson, h, rapidjson_runDeserializers_eq, hr, JSONSerializable.properties]

/-! ## The scalar codecs -/

theorem nlohmann_contains_of_index (obj : Json) (key : String) (node : Json)
    (h : nlohmann.index obj key = .ok node) : nlohmann.contains obj key = true := by
  cases obj <;> simp [nlohmann.index] at h
  case object m =>
    cases hf : find m key with
    | none => simp [hf] at h
    | some v => simp [nlohmann.contains, hf]

theorem nlohmann_assignIf_found {α : Type} (obj : Json) (key : String) (isKind : Json → Bool)
    (get : Json → Except Fault α) (value : α) (node : Json)
    (h : nlohmann.index obj key = .ok node) :
    nlohmann.assignIf obj key isKind get value =
      if isKind node then
        match get node with
        | .ok x => (x, none)
        | .error e => (value, some e)
      else (value, none) := by
  simp [nlohmann.assignIf, nlohmann_contains_of_index obj key node h, h]

theorem nlohmann_assignIf_absent {α : Type} (obj : Json) (key : String) (isKind : Json → Bool)
    (get : Json → Except Fault α) (value : α) (h : nlohmann.contains obj key = false) :
    nlohmann.assignIf obj key isKind get value = (value, none) := by
  simp [nlohmann.assignIf, h]

theorem nlohmann_index_of_contains (obj : Json) (key : String)
    (h : nlohmann.contains obj key = true) : ∃ node, nlohmann.index obj key = .ok node := by
  cases obj <;> simp [nlohmann.contains] at h
  case object m =>
    cases hf : find m key with
    | none => simp [hf] at h
    | some v => exact ⟨v, by simp [nlohmann.index, hf]⟩

/-- A guarded read never throws when the getter accepts every node the kind test accepts. -/
theorem nlohmann_assignIf_no_fault {α : Type} (obj : Json) (key : String)
    (isKind : Json → Bool) (get : Json → Except Fault α) (value : α)
    (hget : ∀ node, isKind node = true → ∃ x, get node = .ok x) :
    (nlohmann.assignIf obj key isKind get value).2 = none := by
  cases hc : nlohmann.contains obj key with
  | false => simp [nlohmann_assignIf_absent obj key isKind get value hc]
  | true =>
    obtain ⟨node, hn⟩ := nlohmann_index_of_contains obj key hc
    rw [nlohmann_assignIf_found obj key isKind get value node hn]
    cases hk : isKind node with
    | false => simp
    | true =>
      obtain ⟨x, hx⟩ := hget node hk
      simp [hx]

theorem rapidjson_hasMember_of_index (obj : Json) (key : String) (node : Json)
    (h : rapidjson.index obj key = .ok node) : rapidjson.HasMember obj key = .ok true := by
  cases obj <;> simp [rapidjson.index] at h
  case object m =>
    cases hf : find m (c_str key) with
    | none => simp [hf] at h
    | some v => simp [rapidjson.HasMember, hf]

theorem rapidjson_assignIf_found {α : Type} (obj : Json) (key : String) (isKind : Json → Bool)
    (get : Json → Except Fault α) (value : α) (node : Json)
    (h : rapidjson.index obj key = .ok node) :
    rapidjson.assignIf obj key isKind get value =
      if isKind node then
        match get node with
        | .ok x => (x, none)
        | .error e => (value, some e)
      else (value, none) := by
  simp [rapidjson.assignIf, rapidjson_hasMember_of_index obj key node h, h]

theorem rapidjson_assignIf_absent {α : Type} (obj : Json) (key : String) (isKind : Json → Bool)
    (get : Json → Except Fault α) (value : α) (h : rapidjson.HasMember obj key = .ok false) :
    rapidjson.assignIf obj key isKind get value = (value, none) := by
  simp [rapidjson.assignIf, h]

theorem rapidjson_hasMember_object (m : List (String × Json)) (key : String) :
    (rapidjson.HasMember (.object m) key = .ok false ∧ find m (c_str key) = none) ∨
      ∃ node, rapidjson.HasMember (.object m) key = .ok true ∧
        rapidjson.index (.object m) key = .ok node ∧ find m (c_str key) = some node := by
  cases hf : find m (c_str key) with
  | none => left; simp [rapidjson.HasMember, hf]
  | some v => right; exact ⟨v, by simp [rapidjson.HasMember, hf], by simp [rapidjson.index, hf], rfl⟩

/-- On an object, a guarded read fails no assertion when the getter accepts every node the
kind test accepts. -/
theorem rapidjson_assignIf_no_fault {α : Type} (m : List (String × Json)) (key : String)
    (isKind : Json → Bool) (get : Json → Except Fault α) (value : α)
    (hget : ∀ node, isKind node = true → ∃ x, get node = .ok x) :
    (rapidjson.assignIf (.object m) key isKind get value).2 = none := by
  rcases rapidjson_hasMember_object m key with ⟨h, _⟩ | ⟨node, _, hn, _⟩
  · simp [rapidjson_assignIf_absent _ key isKind get value h]
  · rw [rapidjson_assignIf_found _ key isKind get value node hn]
    cases hk : isKind node with
    | false => simp
    | true =>
      obtain ⟨x, hx⟩ := hget node hk
      simp [hx]

/-- A scalar deserializer of the nlohmann backend never throws. -/
theorem nlohmann_deserialize_scalar_no_fault (lib : TreeLib) (f : Field) (doc : Json)
    (key : String) (hf : f.expectedKind.isSome) :
    (nlohmann.deserialize lib f doc key).2 = none := by
  cases f <;> simp [Field.expectedKind] at hf
  case string v =>
    have := nlohmann_assignIf_no_fault doc key nlohmann.is_string nlohmann.get_string v
      (by intro node h; cases node <;> simp [nlohmann.is_string, nlohmann.get_string] at h ⊢)
    simpa [nlohmann.deserialize] using this
  case int v =>
    have := nlohmann_assignIf_no_fault doc key nlohmann.is_number_integer (nlohmann.get_int lib) v
      (by intro node h; cases node <;> simp [nlohmann.is_number_integer, nlohmann.get_int] at h ⊢)
    simpa [nlohmann.deserialize] using this
  case double v =>
    have := nlohmann_assignIf_no_fault doc key nlohmann.is_number (nlohmann.get_double lib) v
      (by intro node h; cases node <;> simp [nlohmann.is_number, nlohmann.get_double] at h ⊢)
    simpa [nlohmann.deserialize] using this
  case bool v =>
    have := nlohmann_assignIf_no_fault doc key nlohmann.is_boolean nlohmann.get_bool v
      (by intro node h; cases node <;> simp [nlohmann.is_boolean, nlohmann.get_bool] at h ⊢)
    simpa [nlohmann.deserialize] using this
  case unsigned v =>
    have := nlohmann_assignIf_no_fault doc key nlohmann.is_number_unsigned nlohmann.get_unsigned v
      (by intro node h; cases node <;> simp [nlohmann.is_number_unsigned, nlohmann.get_unsigned] at h ⊢)
    simpa [nlohmann.deserialize] using this
  case uint64 v =>
    have := nlohmann_assignIf_no_fault doc key nlohmann.is_number_unsigned nlohmann.get_uint64 v
      (by intro node h; cases node <;> simp [nlohmann.is_number_unsigned, nlohmann.get_uint64] at h ⊢)
    simpa [nlohmann.deserialize] using this

/-- On an object, a scalar deserializer of the rapidjson backend fails no assertion. -/
theorem rapidjson_deserialize_scalar_no_fault (lib : TreeLib) (f : Field)
    (m : List (String × Json)) (key : String) (hf : f.expectedKind.isSome) :
    (rapidjson.deserialize lib f (.object m) key).2 = none := by
  cases f <;> simp [Field.expectedKind] at hf
  case string v =>
    have := rapidjson_assignIf_no_fault m key rapidjson.IsString rapidjson.GetString v
      (by intro node h; cases node <;> simp [rapidjson.IsString, rapidjson.GetString] at h ⊢)
    simpa [rapidjson.deserialize] using this
  case int v =>
    have := rapidjson_assignIf_no_fault m key rapidjson.IsInt rapidjson.GetInt v
      (by
        intro node h
        cases node <;> simp [rapidjson.IsInt] at h <;> simp [rapidjson.GetInt, rapidjson.IsInt, h])
    simpa [rapidjson.deserialize] using this
  case double v =>
    have := rapidjson_assignIf_no_fault m key rapidjson.IsDouble rapidjson.GetDouble v
      (by intro node h; cases node <;> simp [rapidjson.IsDouble, rapidjson.GetDouble] at h ⊢)
    simpa [rapidjson.deserialize] using this
  case bool v =>
    have := rapidjson_assignIf_no_fault m key rapidjson.IsBool rapidjson.GetBool v
      (by intro node h; cases node <;> simp [rapidjson.IsBool, rapidjson.GetBool] at h ⊢)
    simpa [rapidjson.deserialize] using this
  case unsigned v =>
    have := rapidjson_assignIf_no_fault m key rapidjson.IsUint rapidjson.GetUint v
      (by
        intro node h
        cases node <;> simp [rapidjson.IsUint] at h <;>
          simp [rapidjson.GetUint, rapidjson.IsUint, h])
    simpa [rapidjson.deserialize] using this
  case uint64 v =>
    have := rapidjson_assignIf_no_fault m key rapidjson.IsUint64 rapidjson.GetUint64 v
      (by
        intro node h
        cases node <;> simp [rapidjson.IsUint64] at h <;>
          simp [rapidjson.GetUint64, rapidjson.IsUint64, h])
    simpa [rapidjson.deserialize] using this

/-- The enum deserializer of the nlohmann backend never throws: `get<int>()` converts every
number. -/
theorem nlohmann_enum_deserialize_no_fault (lib : TreeLib) (inst : EnumSerializer) (doc : Json)
    (key : String) (value : Int) :
    (nlohmann.EnumSerializer.deserialize lib inst doc key value).2 = none := by
  cases hc : nlohmann.contains doc key with
  | false => simp [nlohmann.EnumSerializer.deserialize, hc]
  | true =>
    obtain ⟨node, hn⟩ := nlohmann_index_of_contains doc key hc
    simp only [nlohmann.EnumSerializer.deserialize, hc, hn, if_true]
    cases node <;> simp [nlohmann.is_string, nlohmann.is_number, nlohmann.get_string,
      nlohmann.get_int]
    case string s => cases hf : find inst.stringToEnum s <;> simp [hf]

/-- A scalar or enum deserializer of the nlohmann backend never throws. -/
theorem nlohmann_deserialize_flat_no_fault (lib : TreeLib) (f : Field) (doc : Json)
    (key : String) (hf : f.expectedKind.isSome ∨ f.codec = .enum) :
    (nlohmann.deserialize lib f doc key).2 = none := by
  rcases hf with hf | hf
  · exact nlohmann_deserialize_scalar_no_fault lib f doc key hf
  · cases f <;> simp [Field.codec] at hf
    case enum inst v =>
      have := nlohmann_enum_deserialize_no_fault lib inst doc key v
      rcases hr : nlohmann.EnumSerializer.deserialize lib inst doc key v with ⟨x, r⟩
      rw [hr] at this
      simp only at this
      simp [nlohmann.deserialize, hr, this]

/-- A scalar deserializer of the nlohmann backend skips a node of another kind. -/
theorem nlohmann_deserialize_kind_mismatch (lib : TreeLib) (f : Field) (doc : Json)
    (key : String) (node : Json) (k : Kind) (hn : nlohmann.index doc key = .ok node)
    (hk : f.expectedKind = some k) (hne : node.kind ≠ k) :
    nlohmann.deserialize lib f doc key = (f, none) := by
  cases f <;> simp [Field.expectedKind] at hk <;> subst hk <;>
    simp only [nlohmann.deserialize, nlohmann_assignIf_found doc key _ _ _ node hn] <;>
    cases node <;>
    simp [Json.kind, nlohmann.is_string, nlohmann.is_number_integer, nlohmann.is_number,
      nlohmann.is_boolean, nlohmann.is_number_unsigned] at hne ⊢

/-- A scalar deserializer of the rapidjson backend skips a node of another kind. -/
theorem rapidjson_deserialize_kind_mismatch (lib : TreeLib) (f : Field) (doc : Json)
    (key : String) (node : Json) (k : Kind) (hn : rapidjson.index doc key = .ok node)
    (hk : f.expectedKind = some k) (hne : node.kind ≠ k) :
    rapidjson.deserialize lib f doc key = (f, none) := by
  cases f <;> simp [Field.expectedKind] at hk <;> subst hk <;>
    simp only [rapidjson.deserialize, rapidjson_assignIf_found doc key _ _ _ node hn] <;>
    cases node <;>
    simp [Json.kind, rapidjson.IsString, rapidjson.IsInt, rapidjson.IsDouble,
      rapidjson.IsBool, rapidjson.IsUint, rapidjson.IsUint64] at hne ⊢

/-! ## Parse failure (C2) -/

/-- C2: text that is not well-formed JSON.  The rapidjson `fromJson` returns false and leaves
every member as it was; the nlohmann `fromJson` leaves every member as it was too, but it does
not return false: `json::parse` throws and the exception leaves `fromJson`. -/
theorem fromJson_malformed_C2 (lib : TreeLib) (o : JSONSerializable) (text : String)
    (hn : lib.parse text = none) (hr : lib.parse (c_str text) = none) :
    nlohmann.fromJson lib o text = (o, .error .parse_error) ∧
      rapidjson.fromJson lib o text = (o, .ok false) := by
  cases o with
  | mk ps => simp [nlohmann.fromJson, rapidjson.fromJson, hn, hr]

/-- C2 at the text `{`. -/
theorem fromJson_malformed_C2_witness :
    Ref.lib.parse Example.truncated = none ∧ Ref.lib.parse (c_str Example.truncated) = none ∧
      nlohmann.fromJson Ref.lib Example.person Example.truncated = (Example.person, .error .parse_error) ∧
      rapidjson.fromJson Ref.lib Example.person Example.truncated = (Example.person, .ok false) :=
  ⟨rfl, rfl, fromJson_malformed_C2 Ref.lib Example.person Example.truncated rfl rfl⟩

/-! ## Missing keys (C3) -/

/-- A deserializer of the nlohmann backend leaves its member alone when the key is absent. -/
theorem nlohmann_deserialize_absent (lib : TreeLib) (f : Field) (doc : Json) (key : String)
    (h : nlohmann.contains doc key = false) : nlohmann.deserialize lib f doc key = (f, none) := by
  cases f <;>
    simp [nlohmann.deserialize, nlohmann.assignIf, nlohmann.EnumSerializer.deserialize, h]

/-- A deserializer of the rapidjson backend leaves its member alone when `HasMember` is false. -/
theorem rapidjson_deserialize_absent (lib : TreeLib) (f : Field) (doc : Json) (key : String)
    (h : rapidjson.HasMember doc key = .ok false) :
    rapidjson.deserialize lib f doc key = (f, none) := by
  cases f <;>
    simp [rapidjson.deserialize, rapidjson.assignIf, rapidjson.EnumSerializer.deserialize, h]

/-- A member whose key the tree does not hold is as it was after `fromJson`, in both backends,
whatever the other deserializers do; and when the tree holds none of the keys `fromJson` returns
true with the object as it was. -/
theorem fromJson_absent_key (lib : TreeLib) (o : JSONSerializable) (text : String) (doc : Json)
    (i : Nat) (key : String) (f : Field) (hi : o.properties[i]? = some (key, f)) :
    (lib.parse text = some doc → nlohmann.contains doc key = false →
        (nlohmann.fromJson lib o text).1.properties[i]? = some (key, f)) ∧
      (lib.parse (c_str text) = some doc → rapidjson.HasMember doc key = .ok false →
        (rapidjson.fromJson lib o text).1.properties[i]? = some (key, f)) := by
  constructor
  · intro hp hc
    rw [nlohmann_fromJson_parsed lib o text doc hp]
    exact runAll_frame _ _ doc i (key, f) hi
      (by simp [nlohmann_deserialize_absent lib f doc key hc])
  · intro hp hc
    rw [rapidjson_fromJson_parsed lib o text doc hp]
    exact runAll_frame _ _ doc i (key, f) hi
      (by simp [rapidjson_deserialize_absent lib f doc key hc])

theorem fromJson_no_key (lib : TreeLib) (o : JSONSerializable) (text : String) (doc : Json) :
    (lib.parse text = some doc → (∀ p ∈ o.properties, nlohmann.contains doc p.1 = false) →
        nlohmann.fromJson lib o text = (o, .ok true)) ∧
      (lib.parse (c_str text) = some doc →
        (∀ p ∈ o.properties, rapidjson.HasMember doc p.1 = .ok false) →
        rapidjson.fromJson lib o text = (o, .ok true)) := by
  constructor
  · intro hp hc
    rw [nlohmann_fromJson_parsed lib o text doc hp, runAll_complete _ _ doc
      (fun p hp' => by simp [nlohmann_deserialize_absent lib p.2 doc p.1 (hc p hp')])]
    cases o with
    | mk ps =>
      have : ps.map (fun p => (p.1, (nlohmann.deserialize lib p.2 doc p.1).1)) = ps := by
        conv_rhs => rw [← List.map_id ps]
        apply List.map_congr_left
        intro p hp'
        simp [nlohmann_deserialize_absent lib p.2 doc p.1 (hc p hp')]
      simp [JSONSerializable.properties, this]
  · intro hp hc
    rw [rapidjson_fromJson_parsed lib o text doc hp, runAll_complete _ _ doc
      (fun p hp' => by simp [rapidjson_deserialize_absent lib p.2 doc p.1 (hc p hp')])]
    cases o with
    | mk ps =>
      have : ps.map (fun p => (p.1, (rapidjson.deserialize lib p.2 doc p.1).1)) = ps := by
        conv_rhs => rw [← List.map_id ps]
        apply List.map_congr_left
        intro p hp'
        simp [rapidjson_deserialize_absent lib p.2 doc p.1 (hc p hp')]
      simp [JSONSerializable.properties, this]

/-- C3: an object with an enum member under `"color"` and an `int` member under `"age"` reads
the JSON object `{"color":2147483648}`, which does not hold the key `"age"`.  The nlohmann
`fromJson` returns true with `age` as it was.  The rapidjson `fromJson` does not return: the enum
deserializer passes `IsNumber` and fails the assertion of `GetInt`. -/
theorem fromJson_absent_key_abort_C3 :
    Ref.lib.parse Example.colorIsLarge
        = some (.object [("color", .number_unsigned 2147483648)]) ∧
      rapidjson.HasMember (.object [("color", .number_unsigned 2147483648)]) "age" = .ok false ∧
      rapidjson.fromJson Ref.lib Example.painted Example.colorIsLarge
        = (Example.painted, .error .assertion) ∧
      nlohmann.fromJson Ref.lib Example.painted Example.colorIsLarge
        = (.mk [("color", .enum Example.colors (-2147483648)), ("age", .int 30)], .ok true) :=
  ⟨rfl, rfl, rfl, rfl⟩

/-! ## Kind mismatch (C4) -/

/-- C4, as amended: a scalar binding, and a tree in which the node the backend finds for the
key of the binding is of another kind than the one the member is read from.  The nlohmann
backend finds the member under the key; the rapidjson backend is handed the key as a C string
and finds the first member whose name is the key up to its first NUL character.  The member
keeps its value, whatever the other bindings do.  `fromJson` returns true exactly when no
deserializer of the registry fails; none does when the registry holds scalar bindings only, and
in the nlohmann backend none does when it holds scalar and enum bindings only. -/
theorem fromJson_kind_mismatch_C4 (lib : TreeLib) (o : JSONSerializable) (text : String)
    (doc : Json) (i : Nat) (key : String) (f : Field) (node : Json) (k : Kind)
    (hi : o.properties[i]? = some (key, f)) (hk : f.expectedKind = some k)
    (hne : node.kind ≠ k) :
    (lib.parse text = some doc → nlohmann.index doc key = .ok node →
        (nlohmann.fromJson lib o text).1.properties[i]? = some (key, f) ∧
        ((nlohmann.fromJson lib o text).2 = .ok true ↔
          ∀ p ∈ o.properties, (nlohmann.deserialize lib p.2 doc p.1).2 = none) ∧
        ((∀ p ∈ o.properties, p.2.expectedKind.isSome ∨ p.2.codec = .enum) →
          (nlohmann.fromJson lib o text).2 = .ok true)) ∧
      (lib.parse (c_str text) = some doc →
        (∃ m, doc = .object m ∧ find m (c_str key) = some node) →
        (rapidjson.fromJson lib o text).1.properties[i]? = some (key, f) ∧
        ((rapidjson.fromJson lib o text).2 = .ok true ↔
          ∀ p ∈ o.properties, (rapidjson.deserialize lib p.2 doc p.1).2 = none) ∧
        ((∀ p ∈ o.properties, p.2.expectedKind.isSome) →
          (rapidjson.fromJson lib o text).2 = .ok true)) := by
  have hiff : ∀ (d : Field → Json → String → Field × Option Fault),
      ((match (runAll d o.properties doc).2 with
          | none => (.ok true : Except Fault Bool)
          | some e => .error e) = .ok true ↔
        ∀ p ∈ o.properties, (d p.2 doc p.1).2 = none) := by
    intro d
    constructor
    · intro h
      apply runAll_of_complete
      cases hr : (runAll d o.properties doc).2 with
      | none => rfl
      | some e => rw [hr] at h; simp at h
    · intro h
      rw [runAll_complete d _ doc h]
  constructor
  · intro hp hn
    rw [nlohmann_fromJson_parsed lib o text doc hp]
    refine ⟨runAll_frame _ _ doc i (key, f) hi
      (by simp [nlohmann_deserialize_kind_mismatch lib f doc key node k hn hk hne]),
      hiff _, ?_⟩
    intro hs
    exact (hiff _).2
      (fun p hp' => nlohmann_deserialize_flat_no_fault lib p.2 doc p.1 (hs p hp'))
  · intro hp hm
    obtain ⟨m, rfl, hfind⟩ := hm
    have hn : rapidjson.index (.object m) key = .ok node := by
      simp [rapidjson.index, hfind]
    rw [rapidjson_fromJson_parsed lib o text _ hp]
    refine ⟨runAll_frame _ _ _ i (key, f) hi
      (by simp [rapidjson_deserialize_kind_mismatch lib f _ key node k hn hk hne]),
      hiff _, ?_⟩
    intro hs
    exact (hiff _).2
      (fun p hp' => rapidjson_deserialize_scalar_no_fault lib p.2 m p.1 (hs p hp'))

/-- C4 at the `int` member `"age"` and the text `{"age":"not-a-number"}`. -/
theorem fromJson_kind_mismatch_C4_witness :
    Example.person.properties[0]? = some ("age", .int 30) ∧
      (Field.int 30).expectedKind = some .number ∧
      (Json.string "not-a-number").kind ≠ .number ∧
      ((nlohmann.fromJson Ref.lib Example.person Example.ageIsText).1.properties[0]?
          = some ("age", .int 30) ∧
        (nlohmann.fromJson Ref.lib Example.person Example.ageIsText).2 = .ok true) ∧
      ((rapidjson.fromJson Ref.lib Example.person Example.ageIsText).1.properties[0]?
          = some ("age", .int 30) ∧
        (rapidjson.fromJson Ref.lib Example.person Example.ageIsText).2 = .ok true) :=
  have h := fromJson_kind_mismatch_C4 Ref.lib Example.person Example.ageIsText
    (.object [("age", .string "not-a-number")]) 0 "age" (.int 30) (.string "not-a-number")
    .number rfl rfl (by decide)
  have hs : ∀ p ∈ Example.person.properties, p.2.expectedKind.isSome := by
    intro p hp
    have : p = ("age", .int 30) := by simpa [Example.person, JSONSerializable.registerProperty,
      JSONSerializable.properties] using hp
    subst this
    rfl
  ⟨rfl, rfl, by decide,
    ⟨(h.1 rfl rfl).1, (h.1 rfl rfl).2.2 (fun p hp => Or.inl (hs p hp))⟩,
    ⟨(h.2 rfl ⟨_, rfl, rfl⟩).1, (h.2 rfl ⟨_, rfl, rfl⟩).2.2 hs⟩⟩

/-- C4 fails as stated in the rapidjson backend, in two ways.  The `int` member is registered
under the key `age`, NUL, `x`, and the tree holds a string under that key and the number 5 under
the key `age`: the node under the key of the binding is not a number, and the member is assigned
5, read from the member `age`; the nlohmann backend leaves it at 30.  And with an enum member
under `"color"` beside the `int` member under `"age"`, on the text
`{"age":"not-a-number","color":2147483648}` the assertion of `GetInt` fails in the enum
deserializer and `fromJson` does not return; the nlohmann backend returns true. -/
theorem fromJson_kind_mismatch_C4_counterexample :
    Example.agedNul.properties = [("age\x00x", .int 30)] ∧
      Ref.lib.parse Example.ageNulText
        = some (.object [("age\x00x", .string "not-a-number"), ("age", .number_unsigned 5)]) ∧
      find [("age\x00x", Json.string "not-a-number"), ("age", Json.number_unsigned 5)]
        "age\x00x" = some (.string "not-a-number") ∧
      (Json.string "not-a-number").kind ≠ .number ∧
      rapidjson.fromJson Ref.lib Example.agedNul Example.ageNulText
        = (.mk [("age\x00x", .int 5)], .ok true) ∧
      nlohmann.fromJson Ref.lib Example.agedNul Example.ageNulText
        = (.mk [("age\x00x", .int 30)], .ok true) ∧
      rapidjson.fromJson Ref.lib Example.aged Example.ageIsTextColorIsLarge
        = (Example.aged, .error .assertion) ∧
      nlohmann.fromJson Ref.lib Example.aged Example.ageIsTextColorIsLarge
        = (.mk [("age", .int 30), ("color", .enum Example.colors (-2147483648))], .ok true) :=
  ⟨rfl, rfl, rfl, by decide, rfl, rfl, rfl, rfl⟩

/-! ## The enum name registry (C5 to C8) -/

theorem find_assign_self {κ ν : Type} [DecidableEq κ] (m : List (κ × ν)) (k : κ) (v : ν) :
    find (assign m k v) k = some v := by
  induction m with
  | nil => simp [assign, find]
  | cons p m ih =>
    obtain ⟨k', v'⟩ := p
    by_cases h : k' = k
    · simp [assign, find, h]
    · simp [assign, find, h, ih]

theorem find_assign_ne {κ ν : Type} [DecidableEq κ] (m : List (κ × ν)) (k k' : κ) (v : ν)
    (h : k' ≠ k) : find (assign m k v) k' = find m k' := by
  induction m with
  | nil => simp [assign, find, Ne.symm h]
  | cons p m ih =>
    obtain ⟨k₀, v₀⟩ := p
    by_cases h₀ : k₀ = k
    · subst h₀
      simp [assign, find, Ne.symm h]
    · by_cases h₁ : k₀ = k'
      · subst h₁
        simp [assign, find, h₀]
      · simp [assign, find, h₀, h₁, ih]

theorem find_append_of_some {κ ν : Type} [DecidableEq κ] (m m' : List (κ × ν)) (k : κ) (v : ν)
    (h : find m k = some v) : find (m ++ m') k = some v := by
  induction m with
  | nil => simp [find] at h
  | cons p m ih =>
    obtain ⟨k₀, v₀⟩ := p
    by_cases h₀ : k₀ = k
    · simpa [find, h₀] using h
    · simp only [find, h₀, if_false, List.cons_append] at h ⊢
      exact ih h

theorem find_append_of_none {κ ν : Type} [DecidableEq κ] (m m' : List (κ × ν)) (k : κ)
    (h : find m k = none) : find (m ++ m') k = find m' k := by
  induction m with
  | nil => rfl
  | cons p m ih =>
    obtain ⟨k₀, v₀⟩ := p
    by_cases h₀ : k₀ = k
    · simp [find, h₀] at h
    · simp only [find, h₀, if_false, List.cons_append] at h ⊢
      exact ih h

/-- Registrations under other names leave the forward entry of a name as it is. -/
theorem registerAll_forward_frame (pairs : List (String × Int)) (init : EnumSerializer)
    (name : String) (h : name ∉ pairs.map Prod.fst) :
    find (pairs.foldl (fun inst p => inst.registerValue p.1 p.2) init).stringToEnum name
      = find init.stringToEnum name := by
  induction pairs generalizing init with
  | nil => rfl
  | cons p ps ih =>
    simp only [List.map_cons, List.mem_cons, not_or] at h
    simp only [List.foldl_cons]
    rw [ih _ h.2]
    exact find_assign_ne _ _ _ _ h.1

/-- Registrations of other values leave the reverse entry of a value as it is. -/
theorem registerAll_reverse_frame (pairs : List (String × Int)) (init : EnumSerializer)
    (v : Int) (h : v ∉ pairs.map Prod.snd) :
    find (pairs.foldl (fun inst p => inst.registerValue p.1 p.2) init).enumToString v
      = find init.enumToString v := by
  induction pairs generalizing init with
  | nil => rfl
  | cons p ps ih =>
    simp only [List.map_cons, List.mem_cons, not_or] at h
    simp only [List.foldl_cons]
    rw [ih _ h.2]
    exact find_assign_ne _ _ _ _ h.1

/-- With pairwise distinct names, every registered name maps to its value. -/
theorem registerAll_forward (pairs : List (String × Int)) (init : EnumSerializer)
    (name : String) (v : Int) (hn : (pairs.map Prod.fst).Nodup) (hm : (name, v) ∈ pairs) :
    find (pairs.foldl (fun inst p => inst.registerValue p.1 p.2) init).stringToEnum name
      = some v := by
  induction pairs generalizing init with
  | nil => simp at hm
  | cons p ps ih =>
    simp only [List.map_cons, List.nodup_cons] at hn
    simp only [List.foldl_cons]
    rcases List.mem_cons.mp hm with h | h
    · subst h
      rw [registerAll_forward_frame ps _ _ hn.1]
      exact find_assign_self _ _ _
    · exact ih _ hn.2 h

/-- With pairwise distinct values, every registered value maps to its name. -/
theorem registerAll_reverse (pairs : List (String × Int)) (init : EnumSerializer)
    (name : String) (v : Int) (hv : (pairs.map Prod.snd).Nodup) (hm : (name, v) ∈ pairs) :
    find (pairs.foldl (fun inst p => inst.registerValue p.1 p.2) init).enumToString v
      = some name := by
  induction pairs generalizing init with
  | nil => simp at hm
  | cons p ps ih =>
    simp only [List.map_cons, List.nodup_cons] at hv
    simp only [List.foldl_cons]
    rcases List.mem_cons.mp hm with h | h
    · subst h
      rw [registerAll_reverse_frame ps _ _ hv.1]
      exact find_assign_self _ _ _
    · exact ih _ hv.2 h

theorem find_insertSorted_self (m : List (String × Json)) (key : String) (x : Json) :
    find (nlohmann.insertSorted key x m) key = some x := by
  induction m with
  | nil => simp [nlohmann.insertSorted, find]
  | cons p m ih =>
    obtain ⟨k, y⟩ := p
    by_cases h : k = key
    · simp [nlohmann.insertSorted, find, h]
    · by_cases h' : key.data < k.data
      · simp [nlohmann.insertSorted, find, h, h']
      · simp [nlohmann.insertSorted, find, h, h', ih]

theorem find_insertSorted_ne (m : List (String × Json)) (key k' : String) (x : Json)
    (hne : k' ≠ key) : find (nlohmann.insertSorted key x m) k' = find m k' := by
  induction m with
  | nil => simp [nlohmann.insertSorted, find, Ne.symm hne]
  | cons p m ih =>
    obtain ⟨k, y⟩ := p
    by_cases h : k = key
    · subst h
      simp [nlohmann.insertSorted, find, Ne.symm hne]
    · by_cases h' : key.data < k.data
      · simp [nlohmann.insertSorted, find, h, h', Ne.symm hne]
      · by_cases h₁ : k = k'
        · subst h₁
          simp [nlohmann.insertSorted, find, h, h']
        · simp [nlohmann.insertSorted, find, h, h', h₁, ih]

/-- What `obj[key] = x` does to a tree that is null or an object. -/
theorem nlohmann_set_spec (obj : Json) (key : String) (x : Json)
    (hobj : obj = .null ∨ ∃ m, obj = .object m) :
    ∃ m', nlohmann.set obj key x = .ok (.object m') ∧ find m' key = some x ∧
      ∀ k, k ≠ key → find m' k = find obj.members k := by
  rcases hobj with rfl | ⟨m, rfl⟩
  · refine ⟨[(key, x)], rfl, by simp [find], ?_⟩
    intro k hk
    simp [find, Json.members, Ne.symm hk]
  · exact ⟨_, rfl, find_insertSorted_self m key x,
      fun k hk => find_insertSorted_ne m key k x hk⟩

theorem nlohmann_index_object (m : List (String × Json)) (key : String) (x : Json)
    (h : find m key = some x) : nlohmann.index (.object m) key = .ok x := by
  simp [nlohmann.index, h]

theorem rapidjson_index_object (m : List (String × Json)) (key : String) (x : Json)
    (h : find m (c_str key) = some x) : rapidjson.index (.object m) key = .ok x := by
  simp [rapidjson.index, h]

/-- The nlohmann enum deserializer on a string node: a lookup in the forward map. -/
theorem nlohmann_enum_deserialize_string (lib : TreeLib) (inst : EnumSerializer) (doc : Json)
    (key s : String) (value : Int) (h : nlohmann.index doc key = .ok (.string s)) :
    nlohmann.EnumSerializer.deserialize lib inst doc key value =
      ((find inst.stringToEnum s).getD value, none) := by
  simp only [nlohmann.EnumSerializer.deserialize, nlohmann_contains_of_index doc key _ h, h]
  cases hf : find inst.stringToEnum s <;> simp [nlohmann.is_string, nlohmann.get_string, hf]

/-- The rapidjson enum deserializer on a string node: a lookup of the string up to its first
NUL character in the forward map. -/
theorem rapidjson_enum_deserialize_string (inst : EnumSerializer) (doc : Json)
    (key s : String) (value : Int) (h : rapidjson.index doc key = .ok (.string s)) :
    rapidjson.EnumSerializer.deserialize inst doc key value =
      ((find inst.stringToEnum (c_str s)).getD value, none) := by
  simp only [rapidjson.EnumSerializer.deserialize, rapidjson_hasMember_of_index doc key _ h, h]
  cases hf : find inst.stringToEnum (c_str s) <;>
    simp [rapidjson.IsString, rapidjson.GetString, hf]

theorem wrapInt32_of_range (i : Int) (h : -(2 : Int) ^ 31 ≤ i ∧ i < 2 ^ 31) :
    wrapInt32 i = i := by
  unfold wrapInt32
  omega

/-- C5, as amended: a registry filled by `registerValue` from pairs with pairwise distinct names
and pairwise distinct values, and one of its pairs `(name, v)`.  In the nlohmann backend,
serializing `v` into a tree that is null or an object puts the string node `name` under the key,
deserializing any tree with the string node `name` under the key assigns `v`, and so does
deserializing the tree just written.  The rapidjson backend is handed the key and the name as C
strings, so that there `under the key` reads: the first member whose name is the key up to its
first NUL character (`key.c_str()`).  With that reading the same holds in the rapidjson backend
when `name` has no NUL character and the tree written to has no member with that name yet. -/
theorem enum_symmetry_C5 (lib : TreeLib) (pairs : List (String × Int)) (name : String) (v : Int)
    (key : String) (obj : Json) (value : Int)
    (hnames : (pairs.map Prod.fst).Nodup) (hvalues : (pairs.map Prod.snd).Nodup)
    (hmem : (name, v) ∈ pairs) :
    ((obj = .null ∨ ∃ m, obj = .object m) →
        ∃ obj', nlohmann.EnumSerializer.serialize (EnumSerializer.registerAll pairs) obj key v
            = .ok obj' ∧
          nlohmann.index obj' key = .ok (.string name) ∧
          nlohmann.EnumSerializer.deserialize lib (EnumSerializer.registerAll pairs) obj' key
            value = (v, none)) ∧
      (nlohmann.index obj key = .ok (.string name) →
        nlohmann.EnumSerializer.deserialize lib (EnumSerializer.registerAll pairs) obj key value
          = (v, none)) ∧
      (NulFree name → ∀ m, obj = .object m → find m (c_str key) = none →
        ∃ m', rapidjson.EnumSerializer.serialize (EnumSerializer.registerAll pairs) obj key v
            = .ok (.object m') ∧
          find m' (c_str key) = some (.string name) ∧
          rapidjson.EnumSerializer.deserialize (EnumSerializer.registerAll pairs) (.object m')
            key value = (v, none)) ∧
      (NulFree name → ∀ m, obj = .object m → find m (c_str key) = some (.string name) →
        rapidjson.EnumSerializer.deserialize (EnumSerializer.registerAll pairs) obj key value
          = (v, none)) := by
  have hfwd : find (EnumSerializer.registerAll pairs).stringToEnum name = some v :=
    registerAll_forward pairs _ name v hnames hmem
  have hrev : find (EnumSerializer.registerAll pairs).enumToString v = some name :=
    registerAll_reverse pairs _ name v hvalues hmem
  have hnl : ∀ doc, nlohmann.index doc key = .ok (.string name) →
      nlohmann.EnumSerializer.deserialize lib (EnumSerializer.registerAll pairs) doc key value
        = (v, none) := by
    intro doc h
    rw [nlohmann_enum_deserialize_string lib _ doc key name value h, hfwd]
    rfl
  have hrj : NulFree name → ∀ m, find m (c_str key) = some (.string name) →
      rapidjson.EnumSerializer.deserialize (EnumSerializer.registerAll pairs) (.object m) key
        value = (v, none) := by
    intro hnul m h
    rw [rapidjson_enum_deserialize_string _ _ key name value
      (rapidjson_index_object m key _ h), hnul, hfwd]
    rfl
  refine ⟨?_, hnl obj, ?_, fun hnul m hm h => by subst hm; exact hrj hnul m h⟩
  · intro hobj
    obtain ⟨m', hset, hfind, _⟩ := nlohmann_set_spec obj key (.string name) hobj
    have hidx := nlohmann_index_object m' key _ hfind
    exact ⟨.object m', by simp [nlohmann.EnumSerializer.serialize, hrev, hset], hidx,
      hnl _ hidx⟩
  · intro hnul m hm hfresh
    subst hm
    have hfind : find (m ++ [(c_str key, Json.string name)]) (c_str key)
        = some (.string name) := by
      rw [find_append_of_none m _ _ hfresh]
      simp [find]
    refine ⟨m ++ [(c_str key, .string name)], ?_, hfind, hrj hnul _ hfind⟩
    simp only [rapidjson.EnumSerializer.serialize, hrev, rapidjson.AddMember]
    rw [hnul]

/-- C5 at the registry `RED -> 0, GREEN -> 1`: the tree `{"color":"GREEN"}` gives back 1. -/
theorem enum_symmetry_C5_witness :
    nlohmann.EnumSerializer.deserialize Ref.lib
        (EnumSerializer.registerAll [("RED", 0), ("GREEN", 1)])
        (.object [("color", .string "GREEN")]) "color" 0 = (1, none) ∧
      rapidjson.EnumSerializer.deserialize
        (EnumSerializer.registerAll [("RED", 0), ("GREEN", 1)])
        (.object [("color", .string "GREEN")]) "color" 0 = (1, none) :=
  have h := enum_symmetry_C5 Ref.lib [("RED", 0), ("GREEN", 1)] "GREEN" 1 "color"
    (.object [("color", .string "GREEN")]) 0 (by decide) (by decide) (by decide)
  ⟨h.2.1 rfl, h.2.2.2 (by decide) _ rfl rfl⟩

/-- C5 fails as stated in the rapidjson backend.  With the names `A\0B -> 0` and `A -> 1`, which
are distinct, serializing 0 writes the string node `A` and deserializing that tree assigns 1.
With `RED -> 0, GREEN -> 1`, serializing 1 into a tree that has the key already appends a second
member, and deserializing assigns 0, the value of the first.  With the key `color`, NUL, `x`,
which the tree `{"color":"RED"}` does not hold, serializing 1 appends a member named `color`,
no member is under the key, and deserializing assigns 0. -/
theorem enum_symmetry_C5_counterexample :
    (Example.nulPairs.map Prod.fst).Nodup ∧ (Example.nulPairs.map Prod.snd).Nodup ∧
      ("A\x00B", 0) ∈ Example.nulPairs ∧
      rapidjson.EnumSerializer.serialize (EnumSerializer.registerAll Example.nulPairs)
        (.object []) "color" 0 = .ok (.object [("color", .string "A")]) ∧
      rapidjson.EnumSerializer.deserialize (EnumSerializer.registerAll Example.nulPairs)
        (.object [("color", .string "A")]) "color" 0 = (1, none) ∧
      rapidjson.EnumSerializer.serialize Example.colors
        (.object [("color", .string "RED")]) "color" 1
        = .ok (.object [("color", .string "RED"), ("color", .string "GREEN")]) ∧
      rapidjson.EnumSerializer.deserialize Example.colors
        (.object [("color", .string "RED"), ("color", .string "GREEN")]) "color" 1
        = (0, none) ∧
      find [("color", Json.string "RED")] "color\x00x" = none ∧
      rapidjson.EnumSerializer.serialize Example.colors
        (.object [("color", .string "RED")]) "color\x00x" 1
        = .ok (.object [("color", .string "RED"), ("color", .string "GREEN")]) ∧
      find [("color", Json.string "RED"), ("color", Json.string "GREEN")] "color\x00x" = none ∧
      rapidjson.EnumSerializer.deserialize Example.colors
        (.object [("color", .string "RED"), ("color", .string "GREEN")]) "color\x00x" 1
        = (0, none) :=
  ⟨by decide, by decide, by decide, rfl, rfl, rfl, rfl, rfl, rfl, rfl, rfl⟩

/-- C6, as amended: the enum serializer on a tree `toJson` can hand it.  When the code of the
value is a key of the reverse map, the nlohmann serializer puts the mapped name as a string node
under the key and leaves the other keys alone, and the rapidjson serializer appends one member
with the key and the mapped name, each up to its first NUL character (so the key and the name
themselves when they have none).  When the code is not a key of the reverse map, both return the
tree as it was. -/
theorem enum_serialize_C6 (inst : EnumSerializer) (key : String) (v : Int) (obj : Json)
    (hobj : obj = .null ∨ ∃ m, obj = .object m) :
    (∀ name, find inst.enumToString v = some name →
        (∃ m', nlohmann.EnumSerializer.serialize inst obj key v = .ok (.object m') ∧
          find m' key = some (.string name) ∧
          ∀ k, k ≠ key → find m' k = find obj.members k) ∧
        (∀ m, obj = .object m →
          rapidjson.EnumSerializer.serialize inst obj key v
            = .ok (.object (m ++ [(c_str key, .string (c_str name))])) ∧
          (NulFree key → NulFree name →
            rapidjson.EnumSerializer.serialize inst obj key v
              = .ok (.object (m ++ [(key, .string name)]))))) ∧
      (find inst.enumToString v = none →
        nlohmann.EnumSerializer.serialize inst obj key v = .ok obj ∧
        rapidjson.EnumSerializer.serialize inst obj key v = .ok obj) := by
  constructor
  · intro name hname
    constructor
    · obtain ⟨m', hset, hfind, hother⟩ := nlohmann_set_spec obj key (.string name) hobj
      exact ⟨m', by simp [nlohmann.EnumSerializer.serialize, hname, hset], hfind, hother⟩
    · intro m hm
      subst hm
      refine ⟨by simp [rapidjson.EnumSerializer.serialize, hname, rapidjson.AddMember], ?_⟩
      intro hk hn
      simp only [rapidjson.EnumSerializer.serialize, hname, rapidjson.AddMember]
      rw [hk, hn]
  · intro hnone
    simp [nlohmann.EnumSerializer.serialize, rapidjson.EnumSerializer.serialize, hnone]

/-- C6 at the registry `RED -> 0, GREEN -> 1`: the value 1 is written as `"GREEN"`, the value 2
is not written. -/
theorem enum_serialize_C6_witness :
    rapidjson.EnumSerializer.serialize Example.colors (.object []) "color" 1
        = .ok (.object ([] ++ [("color", .string "GREEN")])) ∧
      nlohmann.EnumSerializer.serialize Example.colors (.object []) "color" 2
        = .ok (.object []) :=
  ⟨(((enum_serialize_C6 Example.colors "color" 1 (.object []) (Or.inr ⟨[], rfl⟩)).1 "GREEN"
      rfl).2 [] rfl).2 (by decide) (by decide),
    ((enum_serialize_C6 Example.colors "color" 2 (.object []) (Or.inr ⟨[], rfl⟩)).2 rfl).1⟩

/-- C6 fails as stated in the rapidjson backend: with `A\0B` the name of the value 0, the node
written is the string `A`, which is not the mapped name. -/
theorem enum_serialize_C6_counterexample :
    find (EnumSerializer.registerAll Example.nulPairs).enumToString 0 = some "A\x00B" ∧
      rapidjson.EnumSerializer.serialize (EnumSerializer.registerAll Example.nulPairs)
        (.object []) "color" 0 = .ok (.object [("color", .string "A")]) ∧
      "A" ≠ "A\x00B" :=
  ⟨rfl, rfl, by decide⟩

/-- C7, as amended: the enum deserializer on a string node `s` under the key.  In the nlohmann
backend the member is assigned the forward entry of `s` when there is one and keeps its value
when there is none.  The rapidjson backend is handed the key as a C string and reads the node as
one: the node read is that of the first member whose name is the key up to its first NUL
character (`key.c_str()`), and the string looked up in the forward map is `s` up to its first
NUL character.  So with the node under the key read in that way, the same holds in the rapidjson
backend for an `s` without NUL character.  A miss is not an error. -/
theorem enum_deserialize_string_C7 (lib : TreeLib) (inst : EnumSerializer) (doc : Json)
    (key s : String) (value : Int) :
    (nlohmann.index doc key = .ok (.string s) →
        (∀ v, find inst.stringToEnum s = some v →
          nlohmann.EnumSerializer.deserialize lib inst doc key value = (v, none)) ∧
        (find inst.stringToEnum s = none →
          nlohmann.EnumSerializer.deserialize lib inst doc key value = (value, none))) ∧
      ((∃ m, doc = .object m ∧ find m (c_str key) = some (.string s)) →
        rapidjson.EnumSerializer.deserialize inst doc key value
          = ((find inst.stringToEnum (c_str s)).getD value, none) ∧
        (NulFree s →
          (∀ v, find inst.stringToEnum s = some v →
            rapidjson.EnumSerializer.deserialize inst doc key value = (v, none)) ∧
          (find inst.stringToEnum s = none →
            rapidjson.EnumSerializer.deserialize inst doc key value = (value, none)))) := by
  constructor
  · intro h
    rw [nlohmann_enum_deserialize_string lib inst doc key s value h]
    exact ⟨fun v hv => by rw [hv]; rfl, fun hn => by rw [hn]; rfl⟩
  · rintro ⟨m, rfl, h⟩
    rw [rapidjson_enum_deserialize_string inst _ key s value (rapidjson_index_object m key _ h)]
    refine ⟨rfl, fun hnul => ?_⟩
    rw [hnul]
    exact ⟨fun v hv => by rw [hv]; rfl, fun hn => by rw [hn]; rfl⟩

/-- C7 at the registry `RED -> 0, GREEN -> 1`: `"GREEN"` assigns 1 and `"BLUE"` is a miss that
keeps the value 7. -/
theorem enum_deserialize_string_C7_witness :
    nlohmann.EnumSerializer.deserialize Ref.lib Example.colors
        (.object [("color", .string "GREEN")]) "color" 7 = (1, none) ∧
      rapidjson.EnumSerializer.deserialize Example.colors
        (.object [("color", .string "BLUE")]) "color" 7 = (7, none) :=
  ⟨((enum_deserialize_string_C7 Ref.lib Example.colors (.object [("color", .string "GREEN")])
      "color" "GREEN" 7).1 rfl).1 1 rfl,
    (((enum_deserialize_string_C7 Ref.lib Example.colors (.object [("color", .string "BLUE")])
      "color" "BLUE" 7).2 ⟨_, rfl, rfl⟩).2 (by decide)).2 rfl⟩

/-- C7 fails as stated in the rapidjson backend.  The string `RED\0x` under the key is not a key
of the forward map, and the member, which held 7, is assigned 0, the entry of `RED`.  And with
the key `color`, NUL, `x`, the tree `{"color\u0000x":"GREEN","color":"RED"}` holds the string
`GREEN` under the key, whose forward entry is 1, and the member is assigned 0, the entry of
`RED`, read from the member `color`. -/
theorem enum_deserialize_string_C7_counterexample :
    find Example.colors.stringToEnum "RED\x00x" = none ∧
      rapidjson.EnumSerializer.deserialize Example.colors
        (.object [("color", .string "RED\x00x")]) "color" 7 = (0, none) ∧
      find [("color\x00x", Json.string "GREEN"), ("color", Json.string "RED")] "color\x00x"
        = some (.string "GREEN") ∧
      find Example.colors.stringToEnum "GREEN" = some 1 ∧
      rapidjson.EnumSerializer.deserialize Example.colors
        (.object [("color\x00x", .string "GREEN"), ("color", .string "RED")]) "color\x00x" 7
        = (0, none) :=
  ⟨rfl, rfl, rfl, rfl, rfl⟩

/-- The conversion to an integer type keeps a value that is in the range of the type. -/
theorem convert_of_holds (t : IntType) (i : Int) (hb : 0 < t.bits) (h : t.holds i = true) :
    t.convert i = i := by
  unfold IntType.holds at h
  unfold IntType.convert
  by_cases hs : t.signed = true
  · simp only [hs, if_true, decide_eq_true_eq] at h ⊢
    have hpow : (2 : Int) ^ t.bits = 2 * 2 ^ (t.bits - 1) := by
      obtain ⟨b, hb'⟩ : ∃ b, t.bits = b + 1 := ⟨t.bits - 1, by omega⟩
      rw [hb']
      simp [pow_succ, mul_comm]
    have hpos : (0 : Int) < 2 ^ (t.bits - 1) := by positivity
    rw [hpow, Int.emod_eq_of_lt (by omega) (by omega)]
    omega
  · have hs' : t.signed = false := by simpa using hs
    simp only [hs', Bool.false_eq_true, if_false, decide_eq_true_eq] at h ⊢
    exact Int.emod_eq_of_lt h.1 h.2

/-- C8, as amended: the enum deserializer on a number node under the key.  The rapidjson
backend is handed the key as a C string, so that there `under the key` reads: the first member
whose name is the key up to its first NUL character (`key.c_str()`).  The registry is not
consulted.  On an integer node whose value `i` is in the range of `int`, both backends assign the
enumerator `static_cast<EnumType>(i)`, whose code is `i` converted to the underlying type of the
enum: the code `i` itself when `i` is in the range of that type, as it always is when the
underlying type is `int`.  On any number node the nlohmann backend assigns the conversion to the
enum of the number converted to `int`. -/
theorem enum_deserialize_number_C8 (lib : TreeLib) (inst : EnumSerializer) (doc : Json)
    (key : String) (value : Int) (node : Json) (i : Int)
    (hnode : node = .number_integer i ∨ (0 ≤ i ∧ node = .number_unsigned i.toNat))
    (hrange : -(2 : Int) ^ 31 ≤ i ∧ i < 2 ^ 31) :
    (nlohmann.index doc key = .ok node →
        nlohmann.EnumSerializer.deserialize lib inst doc key value = (inst.cast i, none)) ∧
      ((∃ m, doc = .object m ∧ find m (c_str key) = some node) →
        rapidjson.EnumSerializer.deserialize inst doc key value = (inst.cast i, none)) ∧
      (0 < inst.underlying.bits → inst.underlying.holds i = true → inst.cast i = i) ∧
      (inst.underlying = IntType.int → inst.cast i = i) ∧
      (∀ n, nlohmann.index doc key = .ok (.number_unsigned n) →
        nlohmann.EnumSerializer.deserialize lib inst doc key value
          = (inst.cast (wrapInt32 n), none)) ∧
      (∀ j, nlohmann.index doc key = .ok (.number_integer j) →
        nlohmann.EnumSerializer.deserialize lib inst doc key value
          = (inst.cast (wrapInt32 j), none)) ∧
      (∀ d, nlohmann.index doc key = .ok (.number_float d) →
        nlohmann.EnumSerializer.deserialize lib inst doc key value
          = (inst.cast (lib.toInt d), none)) := by
  have hu : ∀ n, nlohmann.index doc key = .ok (.number_unsigned n) →
      nlohmann.EnumSerializer.deserialize lib inst doc key value
        = (inst.cast (wrapInt32 n), none) := by
    intro n h
    simp [nlohmann.EnumSerializer.deserialize, nlohmann_contains_of_index doc key _ h, h,
      nlohmann.is_string, nlohmann.is_number, nlohmann.get_int]
  have hi : ∀ j, nlohmann.index doc key = .ok (.number_integer j) →
      nlohmann.EnumSerializer.deserialize lib inst doc key value
        = (inst.cast (wrapInt32 j), none) := by
    intro j h
    simp [nlohmann.EnumSerializer.deserialize, nlohmann_contains_of_index doc key _ h, h,
      nlohmann.is_string, nlohmann.is_number, nlohmann.get_int]
  refine ⟨?_, ?_, ?_, ?_, hu, hi, ?_⟩
  · intro h
    rcases hnode with rfl | ⟨h0, rfl⟩
    · rw [hi i h, wrapInt32_of_range i hrange]
    · rw [hu _ h, Int.toNat_of_nonneg h0, wrapInt32_of_range i hrange]
  · rintro ⟨m, rfl, hfind⟩
    have h := rapidjson_index_object m key _ hfind
    have hm := rapidjson_hasMember_of_index _ key _ h
    rcases hnode with rfl | ⟨h0, rfl⟩
    · have hr : -2147483648 ≤ i ∧ i < 2147483648 := by omega
      simp [rapidjson.EnumSerializer.deserialize, hm, h, rapidjson.IsString,
        rapidjson.IsNumber, rapidjson.GetInt, rapidjson.IsInt, hr]
    · have hlt : i.toNat < 2147483648 := by omega
      simp [rapidjson.EnumSerializer.deserialize, hm, h, rapidjson.IsString,
        rapidjson.IsNumber, rapidjson.GetInt, rapidjson.IsInt, hlt, Int.toNat_of_nonneg h0]
  · intro hb hh
    exact convert_of_holds _ i hb hh
  · intro hint
    have hr : -2147483648 ≤ i ∧ i < 2147483648 := by omega
    exact convert_of_holds _ i (by rw [hint]; decide)
      (by rw [hint]; simp [IntType.holds, IntType.int, hr])
  · intro d h
    simp [nlohmann.EnumSerializer.deserialize, nlohmann_contains_of_index doc key _ h, h,
      nlohmann.is_string, nlohmann.is_number, nlohmann.get_int]

/-- C8 at the registry `RED -> 0, GREEN -> 1` of an enum over `int` and the tree `{"color":2}`:
both backends assign the code 2, which has no name. -/
theorem enum_deserialize_number_C8_witness :
    Example.colors.underlying = IntType.int ∧
      nlohmann.EnumSerializer.deserialize Ref.lib Example.colors
        (.object [("color", .number_unsigned 2)]) "color" 0 = (Example.colors.cast 2, none) ∧
      rapidjson.EnumSerializer.deserialize Example.colors
        (.object [("color", .number_unsigned 2)]) "color" 0 = (Example.colors.cast 2, none) ∧
      Example.colors.cast 2 = 2 ∧
      find Example.colors.enumToString 2 = none :=
  have h := enum_deserialize_number_C8 Ref.lib Example.colors
    (.object [("color", .number_unsigned 2)]) "color" 0 (.number_unsigned 2) 2
    (Or.inr ⟨by decide, rfl⟩) (by decide)
  ⟨rfl, h.1 rfl, h.2.1 ⟨_, rfl, rfl⟩, h.2.2.2.1 rfl, rfl⟩

/-- C8 fails as stated.  The number 4294967298 under the key is not the code of the value
assigned: the nlohmann backend assigns the code 2, and the rapidjson backend assigns nothing,
the assertion of `GetInt` fails.  For an enum over `unsigned char` the numbers 300 and -1 are
assigned as the codes 44 and 255.  In the rapidjson backend, with the key `color`, NUL, `x`, the
node under the key holds 2 and the member is assigned 1, from the member `color`. -/
theorem enum_deserialize_number_C8_counterexample :
    nlohmann.EnumSerializer.deserialize Ref.lib Example.colors
        (.object [("color", .number_unsigned 4294967298)]) "color" 0 = (2, none) ∧
      rapidjson.EnumSerializer.deserialize Example.colors
        (.object [("color", .number_unsigned 4294967298)]) "color" 0 = (0, some .assertion) ∧
      nlohmann.EnumSerializer.deserialize Ref.lib Example.tiny
        (.object [("color", .number_unsigned 300)]) "color" 0 = (44, none) ∧
      rapidjson.EnumSerializer.deserialize Example.tiny
        (.object [("color", .number_unsigned 300)]) "color" 0 = (44, none) ∧
      nlohmann.EnumSerializer.deserialize Ref.lib Example.tiny
        (.object [("color", .number_integer (-1))]) "color" 0 = (255, none) ∧
      rapidjson.EnumSerializer.deserialize Example.tiny
        (.object [("color", .number_integer (-1))]) "color" 0 = (255, none) ∧
      find [("color\x00x", Json.number_unsigned 2), ("color", Json.number_unsigned 1)]
        "color\x00x" = some (.number_unsigned 2) ∧
      rapidjson.EnumSerializer.deserialize Example.colors
        (.object [("color\x00x", .number_unsigned 2), ("color", .number_unsigned 1)])
        "color\x00x" 0 = (1, none) :=
  ⟨rfl, rfl, rfl, rfl, rfl, rfl, rfl, rfl⟩

/-! ## The tree `toJson` builds (C9, C10) -/

theorem mem_keys_iff_find {ν : Type} (m : List (String × ν)) (k : String) :
    k ∈ m.map Prod.fst ↔ (find m k).isSome = true := by
  induction m with
  | nil => simp [find]
  | cons p m ih =>
    obtain ⟨k', v⟩ := p
    by_cases h : k' = k
    · simp [find, h]
    · simp [find, h, ih, Ne.symm h]

theorem insertSorted_keys (m : List (String × Json)) (key k : String) (x : Json) :
    k ∈ (nlohmann.insertSorted key x m).map Prod.fst ↔ k = key ∨ k ∈ m.map Prod.fst := by
  rw [mem_keys_iff_find, mem_keys_iff_find]
  by_cases h : k = key
  · subst h
    simp [find_insertSorted_self]
  · simp [find_insertSorted_ne m key k x h, h]

/-- Insertion into a `std::map` keeps the keys in strictly ascending order. -/
theorem insertSorted_sorted (m : List (String × Json)) (key : String) (x : Json)
    (h : (m.map Prod.fst).Pairwise (fun a b => a < b)) :
    ((nlohmann.insertSorted key x m).map Prod.fst).Pairwise (fun a b => a < b) := by
  induction m with
  | nil => simp [nlohmann.insertSorted]
  | cons p m ih =>
    obtain ⟨k, y⟩ := p
    simp only [List.map_cons, List.pairwise_cons] at h
    by_cases h₁ : k = key
    · subst h₁
      simpa [nlohmann.insertSorted] using h
    · by_cases h₂ : key.data < k.data
      · have h₂' : key < k := String.lt_iff_toList_lt.mpr h₂
        simp only [nlohmann.insertSorted, h₁, h₂, if_true, if_false, List.map_cons,
          List.pairwise_cons]
        refine ⟨?_, h⟩
        intro a ha
        rcases List.mem_cons.mp ha with rfl | ha
        · exact h₂'
        · exact lt_trans h₂' (h.1 a ha)
      · have h₂' : ¬ key < k := fun hlt => h₂ (String.lt_iff_toList_lt.mp hlt)
        simp only [nlohmann.insertSorted, h₁, h₂, if_false, List.map_cons, List.pairwise_cons]
        refine ⟨?_, ih h.2⟩
        intro a ha
        rcases (insertSorted_keys m key a x).mp ha with rfl | ha
        · exact lt_of_le_of_ne (not_lt.mp h₂') h₁
        · exact h.1 a ha

/-- What the serializer of one binding does to the tree in the nlohmann backend: it throws, or
it leaves the tree alone (an enum value without a name), or it assigns one node under the key,
which for a scalar member is the node holding its value. -/
theorem nlohmann_serialize_cases (lib : TreeLib) (f : Field) (obj : Json) (key : String) :
    (∃ e, nlohmann.serialize lib f obj key = .error e) ∨
      (f.writes = false ∧ nlohmann.serialize lib f obj key = .ok obj) ∨
      (f.writes = true ∧ ∃ x, nlohmann.serialize lib f obj key = nlohmann.set obj key x ∧
        (f.expectedKind.isSome → x = f.scalarNode)) := by
  cases f with
  | string v =>
    exact Or.inr (Or.inr ⟨rfl, .string v, by simp [nlohmann.serialize], fun _ => rfl⟩)
  | int v =>
    exact Or.inr (Or.inr ⟨rfl, .number_integer v, by simp [nlohmann.serialize], fun _ => rfl⟩)
  | double v =>
    exact Or.inr (Or.inr ⟨rfl, .number_float v, by simp [nlohmann.serialize], fun _ => rfl⟩)
  | bool v =>
    exact Or.inr (Or.inr ⟨rfl, .boolean v, by simp [nlohmann.serialize], fun _ => rfl⟩)
  | unsigned v =>
    exact Or.inr (Or.inr ⟨rfl, .number_unsigned v, by simp [nlohmann.serialize], fun _ => rfl⟩)
  | uint64 v =>
    exact Or.inr (Or.inr ⟨rfl, .number_unsigned v, by simp [nlohmann.serialize], fun _ => rfl⟩)
  | enum inst v =>
    cases hf : find inst.enumToString v with
    | none =>
      exact Or.inr (Or.inl ⟨by simp [Field.writes, hf],
        by simp [nlohmann.serialize, nlohmann.EnumSerializer.serialize, hf]⟩)
    | some name =>
      exact Or.inr (Or.inr ⟨by simp [Field.writes, hf], .string name,
        by simp [nlohmann.serialize, nlohmann.EnumSerializer.serialize, hf],
        fun h => by simp [Field.expectedKind] at h⟩)
  | nestedObject fresh v =>
    cases ht : nlohmann.toJsonTree lib v with
    | error e => exact Or.inl ⟨e, by simp [nlohmann.serialize, ht]⟩
    | ok t =>
      cases hp : lib.parse (lib.dump t) with
      | none => exact Or.inl ⟨.parse_error, by simp [nlohmann.serialize, ht, hp]⟩
      | some sub =>
        exact Or.inr (Or.inr ⟨rfl, sub, by simp [nlohmann.serialize, ht, hp],
          fun h => by simp [Field.expectedKind] at h⟩)
  | nestedArray fresh v =>
    cases ht : nlohmann.serializeItems lib v [] with
    | error e => exact Or.inl ⟨e, by simp [nlohmann.serialize, ht]⟩
    | ok arr =>
      exact Or.inr (Or.inr ⟨rfl, .array arr, by simp [nlohmann.serialize, ht],
        fun h => by simp [Field.expectedKind] at h⟩)

/-- The loop of the nlohmann `toJson`, when it ends: the result is a tree again, the keys it
holds are those it held plus those written, in ascending order if they were, and a key no
binding has is as it was. -/
theorem nlohmann_runSerializers_spec (lib : TreeLib) (ps : List (String × Field)) (obj t : Json)
    (hobj : IsTree obj) (hrun : nlohmann.runSerializers lib ps obj = .ok t) :
    IsTree t ∧
      (∀ k, k ∈ t.members.map Prod.fst ↔
        k ∈ obj.members.map Prod.fst ∨ ∃ f, (k, f) ∈ ps ∧ f.writes = true) ∧
      ((obj.members.map Prod.fst).Pairwise (fun a b => a < b) →
        (t.members.map Prod.fst).Pairwise (fun a b => a < b)) ∧
      (∀ k, k ∉ ps.map Prod.fst → find t.members k = find obj.members k) := by
  induction ps generalizing obj with
  | nil =>
    simp only [nlohmann.runSerializers, Except.ok.injEq] at hrun
    subst hrun
    exact ⟨hobj, by simp, fun h => h, fun _ _ => rfl⟩
  | cons p ps ih =>
    obtain ⟨key, f⟩ := p
    simp only [nlohmann.runSerializers] at hrun
    rcases nlohmann_serialize_cases lib f obj key with ⟨e, he⟩ | ⟨hw, hs⟩ | ⟨hw, x, hs, _⟩
    · simp [he] at hrun
    · rw [hs] at hrun
      obtain ⟨h1, h2, h3, h4⟩ := ih obj hobj hrun
      refine ⟨h1, ?_, h3, ?_⟩
      · intro k
        rw [h2 k]
        constructor
        · rintro (h | ⟨g, hg, hgw⟩)
          · exact Or.inl h
          · exact Or.inr ⟨g, List.mem_cons_of_mem _ hg, hgw⟩
        · rintro (h | ⟨g, hg, hgw⟩)
          · exact Or.inl h
          · rcases List.mem_cons.mp hg with heq | hg
            · simp only [Prod.mk.injEq] at heq
              rw [heq.2, hw] at hgw
              exact absurd hgw (by simp)
            · exact Or.inr ⟨g, hg, hgw⟩
      · intro k hk
        simp only [List.map_cons, List.mem_cons, not_or] at hk
        exact h4 k hk.2
    · obtain ⟨m', hset, hfind, hother⟩ := nlohmann_set_spec obj key x hobj
      rw [hs, hset] at hrun
      obtain ⟨h1, h2, h3, h4⟩ := ih (.object m') (Or.inr ⟨m', rfl⟩) hrun
      have hkeys : ∀ k, k ∈ m'.map Prod.fst ↔ k = key ∨ k ∈ obj.members.map Prod.fst := by
        intro k
        rw [mem_keys_iff_find, mem_keys_iff_find]
        by_cases hk : k = key
        · subst hk
          simp [hfind]
        · simp [hother k hk, hk]
      refine ⟨h1, ?_, ?_, ?_⟩
      · intro k
        rw [h2 k]
        simp only [Json.members, hkeys k]
        constructor
        · rintro ((rfl | h) | ⟨g, hg, hgw⟩)
          · exact Or.inr ⟨f, List.mem_cons_self _ _, hw⟩
          · exact Or.inl h
          · exact Or.inr ⟨g, List.mem_cons_of_mem _ hg, hgw⟩
        · rintro (h | ⟨g, hg, hgw⟩)
          · exact Or.inl (Or.inr h)
          · rcases List.mem_cons.mp hg with heq | hg
            · simp only [Prod.mk.injEq] at heq
              exact Or.inl (Or.inl heq.1)
            · exact Or.inr ⟨g, hg, hgw⟩
      · intro hsorted
        apply h3
        rcases hobj with rfl | ⟨m, rfl⟩
        · simp only [nlohmann.set, Except.ok.injEq, Json.object.injEq] at hset
          subst hset
          simp [Json.members]
        · simp only [nlohmann.set, Except.ok.injEq, Json.object.injEq] at hset
          subst hset
          exact insertSorted_sorted m key x hsorted
      · intro k hk
        simp only [List.map_cons, List.mem_cons, not_or] at hk
        rw [h4 k hk.2]
        exact hother k hk.1

mutual
/-- The rapidjson `toJson` always builds an object. -/
theorem rapidjson_toJsonTree_ok (lib : TreeLib) :
    ∀ o : JSONSerializable, ∃ ms, rapidjson.toJsonTree lib o = .ok (.object ms)
  | .mk ps => by
    obtain ⟨ms, h⟩ := rapidjson_runSerializers_ok lib ps []
    exact ⟨ms, by simpa [rapidjson.toJsonTree] using h⟩
theorem rapidjson_runSerializers_ok (lib : TreeLib) :
    ∀ (ps : List (String × Field)) (m : List (String × Json)),
      ∃ ms, rapidjson.runSerializers lib ps (.object m) = .ok (.object ms)
  | [], m => ⟨m, by simp [rapidjson.runSerializers]⟩
  | (k, f) :: rest, m => by
    obtain ⟨m₁, h₁⟩ := rapidjson_serialize_ok lib f k m
    obtain ⟨m₂, h₂⟩ := rapidjson_runSerializers_ok lib rest m₁
    exact ⟨m₂, by simp [rapidjson.runSerializers, h₁, h₂]⟩
theorem rapidjson_serialize_ok (lib : TreeLib) :
    ∀ (f : Field) (key : String) (m : List (String × Json)),
      ∃ ms, rapidjson.serialize lib f (.object m) key = .ok (.object ms)
  | .string v, key, m => by simp [rapidjson.serialize, rapidjson.AddMember]
  | .int v, key, m => by simp [rapidjson.serialize, rapidjson.AddMember]
  | .double v, key, m => by simp [rapidjson.serialize, rapidjson.AddMember]
  | .bool v, key, m => by simp [rapidjson.serialize, rapidjson.AddMember]
  | .unsigned v, key, m => by simp [rapidjson.serialize, rapidjson.AddMember]
  | .uint64 v, key, m => by simp [rapidjson.serialize, rapidjson.AddMember]
  | .enum inst v, key, m => by
    cases hf : find inst.enumToString v <;>
      simp [rapidjson.serialize, rapidjson.EnumSerializer.serialize, rapidjson.AddMember, hf]
  | .nestedObject _ v, key, m => by
    obtain ⟨ms, h⟩ := rapidjson_toJsonTree_ok lib v
    simp [rapidjson.serialize, rapidjson.AddMember, h]
  | .nestedArray _ vs, key, m => by
    obtain ⟨arr, h⟩ := rapidjson_serializeItems_ok lib vs []
    simp [rapidjson.serialize, rapidjson.AddMember, h]
theorem rapidjson_serializeItems_ok (lib : TreeLib) :
    ∀ (vs : List JSONSerializable) (arr : List Json),
      ∃ arr', rapidjson.serializeItems lib vs arr = .ok arr'
  | [], arr => ⟨arr, by simp [rapidjson.serializeItems]⟩
  | v :: rest, arr => by
    obtain ⟨ms, h⟩ := rapidjson_toJsonTree_ok lib v
    obtain ⟨arr', h'⟩ := rapidjson_serializeItems_ok lib rest
      (arr ++ [rapidjson.subDoc lib (c_str (lib.dump (.object ms)))])
    exact ⟨arr', by simp [rapidjson.serializeItems, h, h']⟩
end

/-- What the serializer of one binding does to the document in the rapidjson backend: nothing
(an enum value without a name), or it appends one member named by the key as a C string, which
for a scalar member holds the node of its value. -/
theorem rapidjson_serialize_cases (lib : TreeLib) (f : Field) (m : List (String × Json))
    (key : String) :
    (f.writes = false ∧ rapidjson.serialize lib f (.object m) key = .ok (.object m)) ∨
      (f.writes = true ∧ ∃ node,
        rapidjson.serialize lib f (.object m) key = .ok (.object (m ++ [(c_str key, node)])) ∧
        (f.expectedKind.isSome → node = f.cNode)) := by
  cases f with
  | string v =>
    exact Or.inr ⟨rfl, .string (c_str v), by simp [rapidjson.serialize, rapidjson.AddMember],
      fun _ => rfl⟩
  | int v =>
    exact Or.inr ⟨rfl, .number_integer v, by simp [rapidjson.serialize, rapidjson.AddMember],
      fun _ => rfl⟩
  | double v =>
    exact Or.inr ⟨rfl, .number_float v, by simp [rapidjson.serialize, rapidjson.AddMember],
      fun _ => rfl⟩
  | bool v =>
    exact Or.inr ⟨rfl, .boolean v, by simp [rapidjson.serialize, rapidjson.AddMember],
      fun _ => rfl⟩
  | unsigned v =>
    exact Or.inr ⟨rfl, .number_unsigned v, by simp [rapidjson.serialize, rapidjson.AddMember],
      fun _ => rfl⟩
  | uint64 v =>
    exact Or.inr ⟨rfl, .number_unsigned v, by simp [rapidjson.serialize, rapidjson.AddMember],
      fun _ => rfl⟩
  | enum inst v =>
    cases hf : find inst.enumToString v with
    | none =>
      exact Or.inl ⟨by simp [Field.writes, hf],
        by simp [rapidjson.serialize, rapidjson.EnumSerializer.serialize, hf]⟩
    | some name =>
      exact Or.inr ⟨by simp [Field.writes, hf], .string (c_str name),
        by simp [rapidjson.serialize, rapidjson.EnumSerializer.serialize, rapidjson.AddMember,
          hf],
        fun h => by simp [Field.expectedKind] at h⟩
  | nestedObject fresh v =>
    obtain ⟨ms, h⟩ := rapidjson_toJsonTree_ok lib v
    exact Or.inr ⟨rfl, rapidjson.subDoc lib (c_str (lib.dump (.object ms))),
      by simp [rapidjson.serialize, rapidjson.AddMember, h],
      fun h => by simp [Field.expectedKind] at h⟩
  | nestedArray fresh vs =>
    obtain ⟨arr, h⟩ := rapidjson_serializeItems_ok lib vs []
    exact Or.inr ⟨rfl, .array arr, by simp [rapidjson.serialize, rapidjson.AddMember, h],
      fun h => by simp [Field.expectedKind] at h⟩

/-- The loop of the rapidjson `toJson`: it appends, in the order of the bindings, one member for
each binding that writes. -/
theorem rapidjson_runSerializers_spec (lib : TreeLib) (ps : List (String × Field))
    (m : List (String × Json)) :
    ∃ ms, rapidjson.runSerializers lib ps (.object m) = .ok (.object (m ++ ms)) ∧
      List.Forall₂
        (fun (p : String × Field) (e : String × Json) =>
          e.1 = c_str p.1 ∧ (p.2.expectedKind.isSome → e.2 = p.2.cNode))
        (ps.filter (fun p => p.2.writes)) ms := by
  induction ps generalizing m with
  | nil => exact ⟨[], by simp [rapidjson.runSerializers], by simp⟩
  | cons p ps ih =>
    obtain ⟨key, f⟩ := p
    rcases rapidjson_serialize_cases lib f m key with ⟨hw, hs⟩ | ⟨hw, node, hs, hnode⟩
    · obtain ⟨ms, hrun, hall⟩ := ih m
      exact ⟨ms, by simp [rapidjson.runSerializers, hs, hrun], by simpa [List.filter, hw] using hall⟩
    · obtain ⟨ms, hrun, hall⟩ := ih (m ++ [(c_str key, node)])
      refine ⟨(c_str key, node) :: ms, by simp [rapidjson.runSerializers, hs, hrun], ?_⟩
      simp only [List.filter, hw]
      exact List.Forall₂.cons ⟨rfl, hnode⟩ hall

/-- The loop stops at the first deserializer that faults: those before it have been applied, in
order, and those after it have not. -/
theorem runAll_stops (d : Field → Json → String → Field × Option Fault)
    (ps qs : List (String × Field)) (doc : Json) (k : String) (f f' : Field) (e : Fault)
    (hps : ∀ p ∈ ps, (d p.2 doc p.1).2 = none) (hf : d f doc k = (f', some e)) :
    runAll d (ps ++ (k, f) :: qs) doc
      = (ps.map (fun p => (p.1, (d p.2 doc p.1).1)) ++ (k, f') :: qs, some e) := by
  induction ps with
  | nil => simp [runAll, hf]
  | cons p ps ih =>
    obtain ⟨k₀, f₀⟩ := p
    have hp : (d f₀ doc k₀).2 = none := hps (k₀, f₀) (List.mem_cons_self _ _)
    have ih' := ih (fun q hq => hps q (List.mem_cons_of_mem _ hq))
    rcases hd : d f₀ doc k₀ with ⟨f₁, r⟩
    rw [hd] at hp
    simp only at hp
    subst hp
    simp [runAll, hd, ih']

theorem keys_of_forall₂ (l : List (String × Field)) (ms : List (String × Json))
    (hall : List.Forall₂
      (fun (p : String × Field) (e : String × Json) =>
        e.1 = c_str p.1 ∧ (p.2.expectedKind.isSome → e.2 = p.2.cNode)) l ms) :
    ms.map Prod.fst = l.map (fun p => c_str p.1) := by
  induction hall with
  | nil => rfl
  | cons h _ ih => simp [h.1, ih]

/-- C9, as amended.  The rapidjson `toJson` builds an object whose members are, in registration
order, those of the bindings that write (all but an enum member whose value has no name), each
named by its key as a C string.  The nlohmann `toJson`, when it returns, builds a tree whose
keys are those of the bindings that write, in ascending order of the keys.  In both backends
`fromJson` applies the deserializers in registration order: when one of them faults, those
registered before it have been applied and those registered after it have not. -/
theorem registration_order_C9 (lib : TreeLib) (o : JSONSerializable) :
    (∃ ms, rapidjson.toJsonTree lib o = .ok (.object ms) ∧
        ms.map Prod.fst
          = (o.properties.filter (fun p => p.2.writes)).map (fun p => c_str p.1)) ∧
      (∀ t, nlohmann.toJsonTree lib o = .ok t →
        (t.members.map Prod.fst).Pairwise (fun a b => a < b) ∧
        ∀ k, k ∈ t.members.map Prod.fst ↔ ∃ f, (k, f) ∈ o.properties ∧ f.writes = true) ∧
      (∀ text doc ps qs k f f' e, o.properties = ps ++ (k, f) :: qs →
        (lib.parse text = some doc →
          (∀ p ∈ ps, (nlohmann.deserialize lib p.2 doc p.1).2 = none) →
          nlohmann.deserialize lib f doc k = (f', some e) →
          nlohmann.fromJson lib o text
            = (.mk (ps.map (fun p => (p.1, (nlohmann.deserialize lib p.2 doc p.1).1))
                ++ (k, f') :: qs), .error e)) ∧
        (lib.parse (c_str text) = some doc →
          (∀ p ∈ ps, (rapidjson.deserialize lib p.2 doc p.1).2 = none) →
          rapidjson.deserialize lib f doc k = (f', some e) →
          rapidjson.fromJson lib o text
            = (.mk (ps.map (fun p => (p.1, (rapidjson.deserialize lib p.2 doc p.1).1))
                ++ (k, f') :: qs), .error e))) := by
  refine ⟨?_, ?_, ?_⟩
  · cases o with
    | mk props =>
      obtain ⟨ms, hrun, hall⟩ := rapidjson_runSerializers_spec lib props []
      exact ⟨ms, by simpa [rapidjson.toJsonTree] using hrun, keys_of_forall₂ _ ms hall⟩
  · intro t ht
    cases o with
    | mk props =>
      simp only [nlohmann.toJsonTree] at ht
      obtain ⟨_, hkeys, hsorted, _⟩ :=
        nlohmann_runSerializers_spec lib props .null t (Or.inl rfl) ht
      refine ⟨hsorted (by simp [Json.members]), ?_⟩
      intro k
      rw [hkeys k]
      simp [Json.members, JSONSerializable.properties]
  · intro text doc ps qs k f f' e hprops
    constructor
    · intro hp hps hf
      rw [nlohmann_fromJson_parsed lib o text doc hp, hprops, runAll_stops _ ps qs doc k f f' e hps hf]
    · intro hp hps hf
      rw [rapidjson_fromJson_parsed lib o text doc hp, hprops, runAll_stops _ ps qs doc k f f' e hps hf]

/-- C9 at two objects: the rapidjson tree of `b`, `a` keeps that order, and on the text
`{"age":5,"color":2147483648}` the member `age`, registered first, is assigned before the enum
deserializer of `color` fails its assertion. -/
theorem registration_order_C9_witness :
    rapidjson.toJsonTree Ref.lib Example.ba
        = .ok (.object [("b", .number_integer 1), ("a", .number_integer 2)]) ∧
      rapidjson.fromJson Ref.lib Example.aged Example.agedText
        = (.mk ([("age", Field.int 30)].map
              (fun p => (p.1, (rapidjson.deserialize Ref.lib p.2
                (.object [("age", .number_unsigned 5), ("color", .number_unsigned 2147483648)])
                p.1).1))
            ++ ("color", .enum Example.colors 0) :: []), .error .assertion) :=
  ⟨rfl,
    ((registration_order_C9 Ref.lib Example.aged).2.2 Example.agedText
      (.object [("age", .number_unsigned 5), ("color", .number_unsigned 2147483648)])
      [("age", .int 30)] [] "color" (.enum Example.colors 0) (.enum Example.colors 0)
      .assertion rfl).2 rfl
      (by
        intro p hp
        have : p = ("age", .int 30) := by simpa using hp
        subst this
        rfl)
      rfl⟩

/-- C9 fails as stated in the nlohmann backend: the members `b` and `a`, registered in that
order under distinct keys, appear in the tree as `a`, `b`. -/
theorem registration_order_C9_counterexample :
    Example.ba.properties.map Prod.fst = ["b", "a"] ∧
      nlohmann.toJsonTree Ref.lib Example.ba
        = .ok (.object [("a", .number_integer 2), ("b", .number_integer 1)]) :=
  ⟨rfl, rfl⟩

theorem takeWhile_twice {α : Type} (p : α → Bool) (l : List α) :
    (l.takeWhile p).takeWhile p = l.takeWhile p := by
  induction l with
  | nil => rfl
  | cons a l ih =>
    cases h : p a
    · simp [List.takeWhile_cons, h]
    · simp [List.takeWhile_cons, h, ih]

theorem c_str_idem (s : String) : c_str (c_str s) = c_str s := by
  simp only [c_str]
  rw [takeWhile_twice]

mutual
/-- Reading back twice gives what reading back once gives. -/
theorem reparse_idem : ∀ t : Json, reparse (reparse t) = reparse t
  | .null => rfl
  | .boolean _ => rfl
  | .number_integer i => by
    by_cases h : 0 ≤ i
    · simp [reparse, h]
    · simp [reparse, h]
  | .number_unsigned _ => rfl
  | .number_float _ => rfl
  | .string _ => rfl
  | .array items => by simp [reparse, reparseItems_idem items]
  | .object members => by simp [reparse, reparseMembers_idem members]
theorem reparseItems_idem : ∀ l : List Json, reparseItems (reparseItems l) = reparseItems l
  | [] => rfl
  | x :: xs => by simp [reparseItems, reparse_idem x, reparseItems_idem xs]
theorem reparseMembers_idem :
    ∀ m : List (String × Json), reparseMembers (reparseMembers m) = reparseMembers m
  | [] => rfl
  | (k, v) :: ms => by simp [reparseMembers, reparse_idem v, reparseMembers_idem ms]
end

theorem find_reparseMembers (m : List (String × Json)) (k : String) :
    find (reparseMembers m) k = (find m k).map reparse := by
  induction m with
  | nil => rfl
  | cons p m ih =>
    obtain ⟨k', v⟩ := p
    by_cases h : k' = k
    · simp [reparseMembers, find, h]
    · simp [reparseMembers, find, h, ih]

/-- The loop of the nlohmann `toJson` when every serializer assigns its node: it returns a tree
that holds, with pairwise distinct keys, the node of every binding under its key. -/
theorem nlohmann_runSerializers_nodes (lib : TreeLib) (ps : List (String × Field)) (obj : Json)
    (hobj : IsTree obj)
    (hser : ∀ p ∈ ps, ∀ o, nlohmann.serialize lib p.2 o p.1
      = nlohmann.set o p.1 (nlohmann.nodeOf lib p.2))
    (hnodup : (ps.map Prod.fst).Nodup) :
    ∃ t, nlohmann.runSerializers lib ps obj = .ok t ∧ IsTree t ∧
      (ps ≠ [] → ∃ m, t = .object m) ∧
      (∀ p ∈ ps, find t.members p.1 = some (nlohmann.nodeOf lib p.2)) ∧
      (∀ k, k ∉ ps.map Prod.fst → find t.members k = find obj.members k) := by
  induction ps generalizing obj with
  | nil =>
    exact ⟨obj, by simp [nlohmann.runSerializers], hobj, by simp, by simp, fun _ _ => rfl⟩
  | cons p ps ih =>
    obtain ⟨key, f⟩ := p
    simp only [List.map_cons, List.nodup_cons] at hnodup
    obtain ⟨m', hset, hfind, hother⟩ :=
      nlohmann_set_spec obj key (nlohmann.nodeOf lib f) hobj
    obtain ⟨t, hrun, htree, _, hnodes, hframe⟩ :=
      ih (.object m') (Or.inr ⟨m', rfl⟩) (fun q hq => hser q (List.mem_cons_of_mem _ hq))
        hnodup.2
    have hkey : find t.members key = some (nlohmann.nodeOf lib f) := by
      rw [hframe key hnodup.1]
      exact hfind
    refine ⟨t, ?_, htree, ?_, ?_, ?_⟩
    · simp only [nlohmann.runSerializers]
      rw [hser (key, f) (List.mem_cons_self _ _) obj, hset]
      exact hrun
    · intro _
      rcases htree with rfl | ⟨m, rfl⟩
      · simp [Json.members, find] at hkey
      · exact ⟨m, rfl⟩
    · intro q hq
      rcases List.mem_cons.mp hq with rfl | hq
      · exact hkey
      · exact hnodes q hq
    · intro k hk
      simp only [List.map_cons, List.mem_cons, not_or] at hk
      rw [hframe k hk.2]
      exact hother k hk.1

/-- `fromJsonStatic` of the nlohmann backend on a text that parses and whose deserializers all
complete. -/
theorem nlohmann_returnObj_of_run (lib : TreeLib) (fresh : JSONSerializable) (text : String)
    (doc : Json) (ps : List (String × Field)) (hp : lib.parse text = some doc)
    (hrun : runAll (nlohmann.deserialize lib) fresh.properties doc = (ps, none)) :
    nlohmann.fromJson lib fresh text = (.mk ps, .ok true) ∧
      returnObj (nlohmann.fromJson lib fresh text) = .ok (.mk ps) := by
  rw [nlohmann_fromJson_parsed lib fresh text doc hp, hrun]
  exact ⟨rfl, rfl⟩

theorem index_reparse_of_find (t : Json) (k : String) (x : Json) (ht : IsTree t)
    (h : find t.members k = some x) : nlohmann.index (reparse t) k = .ok (reparse x) := by
  rcases ht with rfl | ⟨m, rfl⟩
  · simp [Json.members, find] at h
  · simp only [Json.members] at h
    simp [reparse, nlohmann.index, find_reparseMembers, h]

/-- A nested object of the nlohmann backend is read back from the node its serializer printed. -/
theorem nlohmann_read_back (lib : TreeLib) (fresh v : JSONSerializable) (t : Json)
    (hreads : lib.parse (lib.dump (reparse t)) = some (reparse (reparse t)))
    (hrun : runAll (nlohmann.deserialize lib) fresh.properties (reparse t)
      = (v.properties, none)) :
    returnObj (nlohmann.fromJson lib fresh (lib.dump (reparse t))) = .ok v := by
  rw [reparse_idem] at hreads
  have := (nlohmann_returnObj_of_run lib fresh _ _ _ hreads hrun).2
  cases v with
  | mk ps => simpa [JSONSerializable.properties] using this

mutual
/-- Round trip of the nlohmann backend at the level of trees: the tree of the object, read
back, makes the deserializers of the fresh object rebuild the object. -/
theorem nlohmann_roundtrip_object (lib : TreeLib) :
    ∀ (o fresh : JSONSerializable), RoundTrips (nlohmannBackend lib) o fresh →
      ∃ t, nlohmann.toJsonTree lib o = .ok t ∧ IsTree t ∧
        (o.properties ≠ [] → ∃ m, t = .object m) ∧
        runAll (nlohmann.deserialize lib) fresh.properties (reparse t) = (o.properties, none)
  | .mk ps, fresh, h => by
    simp only [RoundTrips] at h
    obtain ⟨hnodup, hser, hdes⟩ := nlohmann_roundtrip_all lib ps fresh.properties h
    obtain ⟨t, hrun, htree, hobj, hnodes, _⟩ :=
      nlohmann_runSerializers_nodes lib ps .null (Or.inl rfl) hser hnodup
    refine ⟨t, by simpa [nlohmann.toJsonTree] using hrun, htree,
      by simpa [JSONSerializable.properties] using hobj, ?_⟩
    exact hdes (reparse t) (fun p hp => index_reparse_of_find t p.1 _ htree (hnodes p hp))
theorem nlohmann_roundtrip_all (lib : TreeLib) :
    ∀ (ps qs : List (String × Field)), RoundTripsAll (nlohmannBackend lib) ps qs →
      (ps.map Prod.fst).Nodup ∧
      (∀ p ∈ ps, ∀ o, nlohmann.serialize lib p.2 o p.1
        = nlohmann.set o p.1 (nlohmann.nodeOf lib p.2)) ∧
      (∀ doc, (∀ p ∈ ps, nlohmann.index doc p.1 = .ok (reparse (nlohmann.nodeOf lib p.2))) →
        runAll (nlohmann.deserialize lib) qs doc = (ps, none))
  | [], qs, h => by
    simp only [RoundTripsAll] at h
    subst h
    exact ⟨by simp, by simp, fun _ _ => rfl⟩
  | (key, f) :: ps, qs, h => by
    simp only [RoundTripsAll] at h
    obtain ⟨_, hkey, g, qs', rfl, hf, hrest⟩ := h
    obtain ⟨hser, hdes⟩ := nlohmann_roundtrip_field lib f g hf
    obtain ⟨hnodup, hsers, hdess⟩ := nlohmann_roundtrip_all lib ps qs' hrest
    refine ⟨by simp [hkey, hnodup], ?_, ?_⟩
    · intro p hp o
      rcases List.mem_cons.mp hp with rfl | hp
      · exact hser o key
      · exact hsers p hp o
    · intro doc hdoc
      have h1 := hdes doc key (hdoc (key, f) (List.mem_cons_self _ _))
      have h2 := hdess doc (fun p hp => hdoc p (List.mem_cons_of_mem _ hp))
      simp [runAll, h1, h2]
theorem nlohmann_roundtrip_field (lib : TreeLib) :
    ∀ (f g : Field), RoundTripsField (nlohmannBackend lib) f g →
      (∀ o key, nlohmann.serialize lib f o key = nlohmann.set o key (nlohmann.nodeOf lib f)) ∧
      (∀ doc key, nlohmann.index doc key = .ok (reparse (nlohmann.nodeOf lib f)) →
        nlohmann.deserialize lib g doc key = (f, none))
  | .string v, g, h => by
    simp only [RoundTripsField] at h
    obtain ⟨_, w, rfl⟩ := h
    refine ⟨fun o key => rfl, fun doc key hd => ?_⟩
    simp only [nlohmann.nodeOf, Field.scalarNode, reparse] at hd
    simp [nlohmann.deserialize, nlohmann_assignIf_found doc key _ _ _ _ hd, nlohmann.is_string,
      nlohmann.get_string]
  | .int v, g, h => by
    simp only [RoundTripsField] at h
    obtain ⟨hr, w, rfl⟩ := h
    refine ⟨fun o key => rfl, fun doc key hd => ?_⟩
    simp only [nlohmann.nodeOf, Field.scalarNode, reparse] at hd
    by_cases h0 : 0 ≤ v
    · simp only [h0, if_true] at hd
      simp [nlohmann.deserialize, nlohmann_assignIf_found doc key _ _ _ _ hd,
        nlohmann.is_number_integer, nlohmann.get_int, Int.toNat_of_nonneg h0,
        wrapInt32_of_range v hr]
    · simp only [h0, if_false] at hd
      simp [nlohmann.deserialize, nlohmann_assignIf_found doc key _ _ _ _ hd,
        nlohmann.is_number_integer, nlohmann.get_int, wrapInt32_of_range v hr]
  | .double v, g, h => by
    simp only [RoundTripsField] at h
    obtain ⟨w, rfl⟩ := h
    refine ⟨fun o key => rfl, fun doc key hd => ?_⟩
    simp only [nlohmann.nodeOf, Field.scalarNode, reparse] at hd
    simp [nlohmann.deserialize, nlohmann_assignIf_found doc key _ _ _ _ hd, nlohmann.is_number,
      nlohmann.get_double]
  | .bool v, g, h => by
    simp only [RoundTripsField] at h
    obtain ⟨w, rfl⟩ := h
    refine ⟨fun o key => rfl, fun doc key hd => ?_⟩
    simp only [nlohmann.nodeOf, Field.scalarNode, reparse] at hd
    simp [nlohmann.deserialize, nlohmann_assignIf_found doc key _ _ _ _ hd, nlohmann.is_boolean,
      nlohmann.get_bool]
  | .unsigned v, g, h => by
    simp only [RoundTripsField] at h
    obtain ⟨hr, w, rfl⟩ := h
    refine ⟨fun o key => rfl, fun doc key hd => ?_⟩
    simp only [nlohmann.nodeOf, Field.scalarNode, reparse] at hd
    have hr' : v < 4294967296 := by omega
    simp [nlohmann.deserialize, nlohmann_assignIf_found doc key _ _ _ _ hd,
      nlohmann.is_number_unsigned, nlohmann.get_unsigned, Nat.mod_eq_of_lt hr']
  | .uint64 v, g, h => by
    simp only [RoundTripsField] at h
    obtain ⟨hr, w, rfl⟩ := h
    refine ⟨fun o key => rfl, fun doc key hd => ?_⟩
    simp only [nlohmann.nodeOf, Field.scalarNode, reparse] at hd
    have hr' : v < 18446744073709551616 := by omega
    simp [nlohmann.deserialize, nlohmann_assignIf_found doc key _ _ _ _ hd,
      nlohmann.is_number_unsigned, nlohmann.get_uint64, Nat.mod_eq_of_lt hr']
  | .enum inst v, g, h => by
    simp only [RoundTripsField] at h
    obtain ⟨⟨name, hrev, _, hfwd⟩, w, rfl⟩ := h
    refine ⟨fun o key => ?_, fun doc key hd => ?_⟩
    · simp [nlohmann.serialize, nlohmann.EnumSerializer.serialize, nlohmann.nodeOf, hrev]
    · simp only [nlohmann.nodeOf, hrev, reparse] at hd
      simp [nlohmann.deserialize, nlohmann_enum_deserialize_string lib inst doc key name w hd,
        hfwd]
  | .nestedObject fresh v, g, h => by
    simp only [RoundTripsField] at h
    obtain ⟨⟨w, rfl⟩, hne, hv, t, ht, hreads, hreads'⟩ := h
    obtain ⟨t', ht', _, hobj, hrun⟩ := nlohmann_roundtrip_object lib v fresh hv
    have htt : t' = t := by
      have : nlohmann.toJsonTree lib v = .ok t := ht
      rw [ht'] at this
      exact Except.ok.inj this
    subst htt
    have hreads₁ : lib.parse (lib.dump t') = some (reparse t') := hreads
    have hreads₂ : lib.parse (lib.dump (reparse t')) = some (reparse (reparse t')) := hreads'
    refine ⟨fun o key => ?_, fun doc key hd => ?_⟩
    · simp [nlohmann.serialize, nlohmann.nodeOf, ht', hreads₁]
    · simp only [nlohmann.nodeOf, ht', hreads₁, Option.getD_some, reparse_idem] at hd
      obtain ⟨m, rfl⟩ := hobj hne
      have hback := nlohmann_read_back lib fresh v _ hreads₂ hrun
      simp only [reparse] at hd hback
      simp [nlohmann.deserialize, nlohmann_contains_of_index doc key _ hd, hd,
        nlohmann.is_object, hback]
  | .nestedArray fresh vs, g, h => by
    simp only [RoundTripsField] at h
    obtain ⟨⟨w, rfl⟩, hvs⟩ := h
    obtain ⟨arr, hser, hback⟩ := nlohmann_roundtrip_items lib vs fresh hvs []
    simp only [List.nil_append] at hser
    refine ⟨fun o key => ?_, fun doc key hd => ?_⟩
    · simp [nlohmann.serialize, nlohmann.nodeOf, hser]
    · simp only [nlohmann.nodeOf, hser, reparse] at hd
      have := hback []
      simp only [List.nil_append] at this
      simp [nlohmann.deserialize, nlohmann_contains_of_index doc key _ hd, hd, this]
theorem nlohmann_roundtrip_items (lib : TreeLib) :
    ∀ (vs : List JSONSerializable) (fresh : JSONSerializable),
      RoundTripsItems (nlohmannBackend lib) vs fresh →
      ∀ acc, ∃ arr, nlohmann.serializeItems lib vs acc = .ok (acc ++ arr) ∧
        ∀ acc', pushBackAll
            (fun item => returnObj (nlohmann.fromJson lib fresh (lib.dump item)))
            (reparseItems arr) acc' = (acc' ++ vs, none)
  | [], fresh, _ => fun acc =>
    ⟨[], by simp [nlohmann.serializeItems], fun acc' => by simp [reparseItems, pushBackAll]⟩
  | v :: vs, fresh, h => by
    simp only [RoundTripsItems] at h
    obtain ⟨hv, ⟨t, ht, hreads, hreads'⟩, hrest⟩ := h
    obtain ⟨t', ht', _, _, hrun⟩ := nlohmann_roundtrip_object lib v fresh hv
    have htt : t' = t := by
      have : nlohmann.toJsonTree lib v = .ok t := ht
      rw [ht'] at this
      exact Except.ok.inj this
    subst htt
    have hreads₁ : lib.parse (lib.dump t') = some (reparse t') := hreads
    have hreads₂ : lib.parse (lib.dump (reparse t')) = some (reparse (reparse t')) := hreads'
    have hback := nlohmann_read_back lib fresh v _ hreads₂ hrun
    intro acc
    obtain ⟨arr, hser, hpush⟩ := nlohmann_roundtrip_items lib vs fresh hrest (acc ++ [reparse t'])
    refine ⟨reparse t' :: arr, ?_, fun acc' => ?_⟩
    · simp [nlohmann.serializeItems, ht', hreads₁, hser]
    · have := hpush (acc' ++ [v])
      simp only [reparseItems, reparse_idem, pushBackAll, hback]
      simpa using this
end

/-- The loop of the rapidjson `toJson` when every serializer appends its node under its key. -/
theorem rapidjson_runSerializers_nodes (lib : TreeLib) (ps : List (String × Field))
    (m : List (String × Json))
    (hser : ∀ p ∈ ps, ∀ m', rapidjson.serialize lib p.2 (.object m') p.1
      = .ok (.object (m' ++ [(p.1, rapidjson.nodeOf lib p.2)]))) :
    rapidjson.runSerializers lib ps (.object m)
      = .ok (.object (m ++ ps.map (fun p => (p.1, rapidjson.nodeOf lib p.2)))) := by
  induction ps generalizing m with
  | nil => simp [rapidjson.runSerializers]
  | cons p ps ih =>
    obtain ⟨key, f⟩ := p
    simp only [rapidjson.runSerializers]
    rw [hser (key, f) (List.mem_cons_self _ _) m]
    simp only
    rw [ih _ (fun q hq => hser q (List.mem_cons_of_mem _ hq))]
    simp

theorem find_map_of_nodup {ν : Type} (ps : List (String × Field)) (node : Field → ν)
    (p : String × Field) (hnodup : (ps.map Prod.fst).Nodup) (hp : p ∈ ps) :
    find (ps.map (fun q => (q.1, node q.2))) p.1 = some (node p.2) := by
  induction ps with
  | nil => simp at hp
  | cons q ps ih =>
    simp only [List.map_cons, List.nodup_cons] at hnodup
    rcases List.mem_cons.mp hp with rfl | hp'
    · simp [find]
    · have hne : q.1 ≠ p.1 := by
        intro h
        apply hnodup.1
        rw [h]
        exact List.mem_map.mpr ⟨p, hp', rfl⟩
      simp only [List.map_cons, find, hne, if_false]
      exact ih hnodup.2 hp'

/-- A nested object of the rapidjson backend is read back from the node its serializer
appended. -/
theorem rapidjson_read_back (lib : TreeLib) (fresh v : JSONSerializable) (t : Json)
    (hreads : lib.parse (c_str (lib.dump (reparse t))) = some (reparse (reparse t)))
    (hrun : runAll (rapidjson.deserialize lib) fresh.properties (reparse t)
      = (v.properties, none)) :
    returnObj (rapidjson.fromJson lib fresh (c_str (lib.dump (reparse t)))) = .ok v := by
  rw [reparse_idem] at hreads
  rw [rapidjson_fromJson_parsed lib fresh _ (reparse t) (by rw [c_str_idem]; exact hreads), hrun]
  cases v with
  | mk ps => rfl

mutual
/-- Round trip of the rapidjson backend at the level of trees. -/
theorem rapidjson_roundtrip_object (lib : TreeLib) :
    ∀ (o fresh : JSONSerializable), RoundTrips (rapidjsonBackend lib) o fresh →
      ∃ ms, rapidjson.toJsonTree lib o = .ok (.object ms) ∧
        runAll (rapidjson.deserialize lib) fresh.properties (reparse (.object ms))
          = (o.properties, none)
  | .mk ps, fresh, h => by
    simp only [RoundTrips] at h
    obtain ⟨hnodup, hnul, hser, hdes⟩ := rapidjson_roundtrip_all lib ps fresh.properties h
    have hrun := rapidjson_runSerializers_nodes lib ps [] hser
    simp only [List.nil_append] at hrun
    refine ⟨_, by simpa [rapidjson.toJsonTree] using hrun, ?_⟩
    apply hdes
    intro p hp
    have hfind := find_map_of_nodup ps (rapidjson.nodeOf lib) p hnodup hp
    simp only [reparse, rapidjson.index]
    rw [hnul p hp, find_reparseMembers, hfind]
    rfl
theorem rapidjson_roundtrip_all (lib : TreeLib) :
    ∀ (ps qs : List (String × Field)), RoundTripsAll (rapidjsonBackend lib) ps qs →
      (ps.map Prod.fst).Nodup ∧ (∀ p ∈ ps, c_str p.1 = p.1) ∧
      (∀ p ∈ ps, ∀ m, rapidjson.serialize lib p.2 (.object m) p.1
        = .ok (.object (m ++ [(p.1, rapidjson.nodeOf lib p.2)]))) ∧
      (∀ doc, (∀ p ∈ ps, rapidjson.index doc p.1 = .ok (reparse (rapidjson.nodeOf lib p.2))) →
        runAll (rapidjson.deserialize lib) qs doc = (ps, none))
  | [], qs, h => by
    simp only [RoundTripsAll] at h
    subst h
    exact ⟨by simp, by simp, by simp, fun _ _ => rfl⟩
  | (key, f) :: ps, qs, h => by
    simp only [RoundTripsAll] at h
    obtain ⟨hnk, hkey, g, qs', rfl, hf, hrest⟩ := h
    have hnk' : c_str key = key := hnk
    obtain ⟨hser, hdes⟩ := rapidjson_roundtrip_field lib f g hf
    obtain ⟨hnodup, hnuls, hsers, hdess⟩ := rapidjson_roundtrip_all lib ps qs' hrest
    refine ⟨by simp [hkey, hnodup], ?_, ?_, ?_⟩
    · intro p hp
      rcases List.mem_cons.mp hp with rfl | hp
      · exact hnk'
      · exact hnuls p hp
    · intro p hp m
      rcases List.mem_cons.mp hp with rfl | hp
      · have := hser m key
        rw [hnk'] at this
        exact this
      · exact hsers p hp m
    · intro doc hdoc
      have h1 := hdes doc key (hdoc (key, f) (List.mem_cons_self _ _))
      have h2 := hdess doc (fun p hp => hdoc p (List.mem_cons_of_mem _ hp))
      simp [runAll, h1, h2]
theorem rapidjson_roundtrip_field (lib : TreeLib) :
    ∀ (f g : Field), RoundTripsField (rapidjsonBackend lib) f g →
      (∀ m key, rapidjson.serialize lib f (.object m) key
        = .ok (.object (m ++ [(c_str key, rapidjson.nodeOf lib f)]))) ∧
      (∀ doc key, rapidjson.index doc key = .ok (reparse (rapidjson.nodeOf lib f)) →
        rapidjson.deserialize lib g doc key = (f, none))
  | .string v, g, h => by
    simp only [RoundTripsField] at h
    obtain ⟨hv, w, rfl⟩ := h
    have hv' : c_str v = v := hv
    refine ⟨fun m key => rfl, fun doc key hd => ?_⟩
    simp only [rapidjson.nodeOf, reparse, hv'] at hd
    simp [rapidjson.deserialize, rapidjson_assignIf_found doc key _ _ _ _ hd,
      rapidjson.IsString, rapidjson.GetString, hv']
  | .int v, g, h => by
    simp only [RoundTripsField] at h
    obtain ⟨hr, w, rfl⟩ := h
    refine ⟨fun m key => rfl, fun doc key hd => ?_⟩
    simp only [rapidjson.nodeOf, Field.scalarNode, reparse] at hd
    by_cases h0 : 0 ≤ v
    · simp only [h0, if_true] at hd
      have hlt : v.toNat < 2147483648 := by omega
      simp [rapidjson.deserialize, rapidjson_assignIf_found doc key _ _ _ _ hd,
        rapidjson.IsInt, rapidjson.GetInt, hlt, Int.toNat_of_nonneg h0]
    · simp only [h0, if_false] at hd
      have hr' : -2147483648 ≤ v ∧ v < 2147483648 := by omega
      simp [rapidjson.deserialize, rapidjson_assignIf_found doc key _ _ _ _ hd,
        rapidjson.IsInt, rapidjson.GetInt, hr']
  | .double v, g, h => by
    simp only [RoundTripsField] at h
    obtain ⟨w, rfl⟩ := h
    refine ⟨fun m key => rfl, fun doc key hd => ?_⟩
    simp only [rapidjson.nodeOf, Field.scalarNode, reparse] at hd
    simp [rapidjson.deserialize, rapidjson_assignIf_found doc key _ _ _ _ hd,
      rapidjson.IsDouble, rapidjson.GetDouble]
  | .bool v, g, h => by
    simp only [RoundTripsField] at h
    obtain ⟨w, rfl⟩ := h
    refine ⟨fun m key => rfl, fun doc key hd => ?_⟩
    simp only [rapidjson.nodeOf, Field.scalarNode, reparse] at hd
    simp [rapidjson.deserialize, rapidjson_assignIf_found doc key _ _ _ _ hd,
      rapidjson.IsBool, rapidjson.GetBool]
  | .unsigned v, g, h => by
    simp only [RoundTripsField] at h
    obtain ⟨hr, w, rfl⟩ := h
    refine ⟨fun m key => rfl, fun doc key hd => ?_⟩
    simp only [rapidjson.nodeOf, Field.scalarNode, reparse] at hd
    have hr' : v < 4294967296 := by omega
    simp [rapidjson.deserialize, rapidjson_assignIf_found doc key _ _ _ _ hd,
      rapidjson.IsUint, rapidjson.GetUint, hr']
  | .uint64 v, g, h => by
    simp only [RoundTripsField] at h
    obtain ⟨hr, w, rfl⟩ := h
    refine ⟨fun m key => rfl, fun doc key hd => ?_⟩
    simp only [rapidjson.nodeOf, Field.scalarNode, reparse] at hd
    have hr' : v < 18446744073709551616 := by omega
    simp [rapidjson.deserialize, rapidjson_assignIf_found doc key _ _ _ _ hd,
      rapidjson.IsUint64, rapidjson.GetUint64, hr']
  | .enum inst v, g, h => by
    simp only [RoundTripsField] at h
    obtain ⟨⟨name, hrev, hname, hfwd⟩, w, rfl⟩ := h
    have hname' : c_str name = name := hname
    refine ⟨fun m key => ?_, fun doc key hd => ?_⟩
    · simp [rapidjson.serialize, rapidjson.EnumSerializer.serialize, rapidjson.nodeOf, hrev,
        rapidjson.AddMember]
    · simp only [rapidjson.nodeOf, hrev, reparse, hname'] at hd
      simp [rapidjson.deserialize, rapidjson_enum_deserialize_string inst doc key name w hd,
        hname', hfwd]
  | .nestedObject fresh v, g, h => by
    simp only [RoundTripsField] at h
    obtain ⟨⟨w, rfl⟩, _, hv, t, ht, hreads, hreads'⟩ := h
    obtain ⟨ms, ht', hrun⟩ := rapidjson_roundtrip_object lib v fresh hv
    have htt : .object ms = t := by
      have : rapidjson.toJsonTree lib v = .ok t := ht
      rw [ht'] at this
      exact Except.ok.inj this
    subst htt
    have hreads₁ : lib.parse (c_str (lib.dump (.object ms))) = some (reparse (.object ms)) :=
      hreads
    have hreads₂ : lib.parse (c_str (lib.dump (reparse (.object ms))))
        = some (reparse (reparse (.object ms))) := hreads'
    have hnode : rapidjson.subDoc lib (c_str (lib.dump (.object ms)))
        = reparse (.object ms) := by
      simp [rapidjson.subDoc, c_str_idem, hreads₁]
    refine ⟨fun m key => ?_, fun doc key hd => ?_⟩
    · simp [rapidjson.serialize, rapidjson.nodeOf, ht', rapidjson.AddMember]
    · simp only [rapidjson.nodeOf, ht', hnode, reparse_idem] at hd
      have hback := rapidjson_read_back lib fresh v _ hreads₂ hrun
      simp only [reparse] at hd hback
      simp [rapidjson.deserialize, rapidjson_hasMember_of_index doc key _ hd, hd,
        rapidjson.IsObject, hback]
  | .nestedArray fresh vs, g, h => by
    simp only [RoundTripsField] at h
    obtain ⟨⟨w, rfl⟩, hvs⟩ := h
    obtain ⟨arr, hser, hback⟩ := rapidjson_roundtrip_items lib vs fresh hvs []
    simp only [List.nil_append] at hser
    refine ⟨fun m key => ?_, fun doc key hd => ?_⟩
    · simp [rapidjson.serialize, rapidjson.nodeOf, hser, rapidjson.AddMember]
    · simp only [rapidjson.nodeOf, hser, reparse] at hd
      have := hback []
      simp only [List.nil_append] at this
      simp [rapidjson.deserialize, rapidjson_hasMember_of_index doc key _ hd, hd, this]
theorem rapidjson_roundtrip_items (lib : TreeLib) :
    ∀ (vs : List JSONSerializable) (fresh : JSONSerializable),
      RoundTripsItems (rapidjsonBackend lib) vs fresh →
      ∀ acc, ∃ arr, rapidjson.serializeItems lib vs acc = .ok (acc ++ arr) ∧
        ∀ acc', rapidjson.pushBackObjects
            (fun item => returnObj (rapidjson.fromJson lib fresh (c_str (lib.dump item))))
            (reparseItems arr) acc' = (acc' ++ vs, none)
  | [], fresh, _ => fun acc =>
    ⟨[], by simp [rapidjson.serializeItems],
      fun acc' => by simp [reparseItems, rapidjson.pushBackObjects]⟩
  | v :: vs, fresh, h => by
    simp only [RoundTripsItems] at h
    obtain ⟨hv, ⟨t, ht, hreads, hreads'⟩, hrest⟩ := h
    obtain ⟨ms, ht', hrun⟩ := rapidjson_roundtrip_object lib v fresh hv
    have htt : .object ms = t := by
      have : rapidjson.toJsonTree lib v = .ok t := ht
      rw [ht'] at this
      exact Except.ok.inj this
    subst htt
    have hreads₁ : lib.parse (c_str (lib.dump (.object ms))) = some (reparse (.object ms)) :=
      hreads
    have hreads₂ : lib.parse (c_str (lib.dump (reparse (.object ms))))
        = some (reparse (reparse (.object ms))) := hreads'
    have hnode : rapidjson.subDoc lib (c_str (lib.dump (.object ms)))
        = reparse (.object ms) := by
      simp [rapidjson.subDoc, c_str_idem, hreads₁]
    have hback := rapidjson_read_back lib fresh v _ hreads₂ hrun
    intro acc
    obtain ⟨arr, hser, hpush⟩ :=
      rapidjson_roundtrip_items lib vs fresh hrest (acc ++ [reparse (.object ms)])
    refine ⟨reparse (.object ms) :: arr, ?_, fun acc' => ?_⟩
    · simp [rapidjson.serializeItems, ht', hnode, hser]
    · have := hpush (acc' ++ [v])
      simp only [reparseItems, reparse_idem]
      simp only [reparse] at hback ⊢
      simp only [rapidjson.pushBackObjects, rapidjson.IsObject, if_true, hback]
      simpa using this
end

/-- A binding that does not write is an enum binding whose value has no name: its serializer
returns the tree it was given, in both backends. -/
theorem serialize_silent (lib : TreeLib) (f : Field) (obj : Json) (key : String)
    (h : f.writes = false) :
    nlohmann.serialize lib f obj key = .ok obj ∧ rapidjson.serialize lib f obj key = .ok obj := by
  cases f <;> simp [Field.writes] at h
  case enum inst v =>
    simp [nlohmann.serialize, nlohmann.EnumSerializer.serialize, rapidjson.serialize,
      rapidjson.EnumSerializer.serialize, h]

/-- The loops of `toJson` return the tree they start from when no binding writes. -/
theorem runSerializers_silent (lib : TreeLib) (ps : List (String × Field)) (obj : Json)
    (h : ∀ p ∈ ps, p.2.writes = false) :
    nlohmann.runSerializers lib ps obj = .ok obj ∧
      rapidjson.runSerializers lib ps obj = .ok obj := by
  induction ps with
  | nil => simp [nlohmann.runSerializers, rapidjson.runSerializers]
  | cons p ps ih =>
    obtain ⟨key, f⟩ := p
    have hf := serialize_silent lib f obj key (h (key, f) (List.mem_cons_self _ _))
    have ih' := ih (fun q hq => h q (List.mem_cons_of_mem _ hq))
    simp [nlohmann.runSerializers, rapidjson.runSerializers, hf.1, hf.2, ih'.1, ih'.2]

/-- C11: the root of the tree `toJson` prints, for an object none of whose bindings writes its
key: an empty registry, or only enum members holding values without a name.  The rapidjson
`toJson` starts from `SetObject()` and prints the empty object.  The nlohmann `toJson` starts
from a default-constructed `json`, which is null, and prints that: the root is not an object. -/
theorem toJson_root_C11 (lib : TreeLib) (o : JSONSerializable)
    (h : ∀ p ∈ o.properties, p.2.writes = false) :
    nlohmann.toJsonTree lib o = .ok .null ∧
      nlohmann.toJson lib o = .ok (lib.dump .null) ∧
      rapidjson.toJsonTree lib o = .ok (.object []) ∧
      rapidjson.toJson lib o = .ok (c_str (lib.dump (.object []))) := by
  cases o with
  | mk ps =>
    have hn := (runSerializers_silent lib ps .null h).1
    have hr := (runSerializers_silent lib ps (.object []) h).2
    simp [nlohmann.toJsonTree, nlohmann.toJson, rapidjson.toJsonTree, rapidjson.toJson, hn, hr]

/-- C11 at the object without bindings and at an object whose only member is an enum holding the
code 2, which has no name: the nlohmann `toJson` returns the text `null`, the rapidjson `toJson`
the text `{}`. -/
theorem toJson_root_C11_witness :
    (∀ p ∈ Example.unnamed.properties, p.2.writes = false) ∧
      nlohmann.toJson Ref.lib (.mk []) = .ok "null" ∧
      nlohmann.toJson Ref.lib Example.unnamed = .ok "null" ∧
      rapidjson.toJson Ref.lib (.mk []) = .ok Example.emptyObject ∧
      rapidjson.toJson Ref.lib Example.unnamed = .ok Example.emptyObject :=
  ⟨by decide,
    (toJson_root_C11 Ref.lib (.mk []) (by simp [JSONSerializable.properties])).2.1,
    (toJson_root_C11 Ref.lib Example.unnamed (by decide)).2.1,
    (toJson_root_C11 Ref.lib (.mk []) (by simp [JSONSerializable.properties])).2.2.2,
    (toJson_root_C11 Ref.lib Example.unnamed (by decide)).2.2.2⟩

/-! ## The static factory (C12) -/

/-- C12: `fromJsonStatic` runs `fromJson` on the default-constructed object `fresh` and returns
that object when `fromJson` returns, whatever the flag.  On a text that does not parse the
rapidjson `fromJsonStatic` returns `fresh`, every member at its default value.  The nlohmann
`fromJsonStatic` does not return an object on such a text: the exception of `json::parse` leaves
`fromJson` and `fromJsonStatic`. -/
theorem fromJsonStatic_C12 (lib : TreeLib) (fresh : JSONSerializable) (text : String) :
    (∀ o b, nlohmann.fromJson lib fresh text = (o, .ok b) →
        nlohmann.fromJsonStatic lib fresh text = .ok o) ∧
      (∀ o b, rapidjson.fromJson lib fresh text = (o, .ok b) →
        rapidjson.fromJsonStatic lib fresh text = .ok o) ∧
      (lib.parse (c_str text) = none → rapidjson.fromJsonStatic lib fresh text = .ok fresh) ∧
      (lib.parse text = none →
        nlohmann.fromJsonStatic lib fresh text = .error .parse_error) := by
  refine ⟨fun o b h => ?_, fun o b h => ?_, fun h => ?_, fun h => ?_⟩
  · simp [nlohmann.fromJsonStatic, h, returnObj]
  · simp [rapidjson.fromJsonStatic, h, returnObj]
  · cases fresh with
    | mk ps => simp [rapidjson.fromJsonStatic, rapidjson.fromJson, h, returnObj]
  · cases fresh with
    | mk ps => simp [nlohmann.fromJsonStatic, nlohmann.fromJson, h, returnObj]

/-- C12 at the text `{`, which does not parse, and at the text `{}`, which does. -/
theorem fromJsonStatic_C12_witness :
    Ref.lib.parse Example.truncated = none ∧
      Ref.lib.parse (c_str Example.truncated) = none ∧
      rapidjson.fromJsonStatic Ref.lib Example.person Example.truncated = .ok Example.person ∧
      nlohmann.fromJsonStatic Ref.lib Example.person Example.truncated = .error .parse_error ∧
      nlohmann.fromJson Ref.lib Example.person Example.emptyObject = (Example.person, .ok true) ∧
      nlohmann.fromJsonStatic Ref.lib Example.person Example.emptyObject = .ok Example.person :=
  ⟨rfl, rfl,
    (fromJsonStatic_C12 Ref.lib Example.person Example.truncated).2.2.1 rfl,
    (fromJsonStatic_C12 Ref.lib Example.person Example.truncated).2.2.2 rfl,
    rfl,
    (fromJsonStatic_C12 Ref.lib Example.person Example.emptyObject).1 Example.person true rfl⟩

/-! ## Nested bindings (C13, C14) -/

/-- After a `fromJson` of the nlohmann backend that returns, the member of every binding is what
its deserializer made of it. -/
theorem nlohmann_fromJson_get (lib : TreeLib) (o : JSONSerializable) (text : String)
    (doc : Json) (i : Nat) (key : String) (f : Field) (hp : lib.parse text = some doc)
    (hret : (nlohmann.fromJson lib o text).2 = .ok true)
    (hi : o.properties[i]? = some (key, f)) :
    (nlohmann.deserialize lib f doc key).2 = none ∧
      (nlohmann.fromJson lib o text).1.properties[i]?
        = some (key, (nlohmann.deserialize lib f doc key).1) := by
  rw [nlohmann_fromJson_parsed lib o text doc hp] at hret ⊢
  have hnone : (runAll (nlohmann.deserialize lib) o.properties doc).2 = none := by
    cases hr : (runAll (nlohmann.deserialize lib) o.properties doc).2 with
    | none => rfl
    | some e => simp [hr] at hret
  exact ⟨runAll_of_complete _ _ doc hnone (key, f) (List.getElem?_mem hi),
    runAll_get _ _ doc i (key, f) hnone hi⟩

/-- After a `fromJson` of the rapidjson backend that returns true, the member of every binding
is what its deserializer made of it. -/
theorem rapidjson_fromJson_get (lib : TreeLib) (o : JSONSerializable) (text : String)
    (doc : Json) (i : Nat) (key : String) (f : Field) (hp : lib.parse (c_str text) = some doc)
    (hret : (rapidjson.fromJson lib o text).2 = .ok true)
    (hi : o.properties[i]? = some (key, f)) :
    (rapidjson.deserialize lib f doc key).2 = none ∧
      (rapidjson.fromJson lib o text).1.properties[i]?
        = some (key, (rapidjson.deserialize lib f doc key).1) := by
  rw [rapidjson_fromJson_parsed lib o text doc hp] at hret ⊢
  have hnone : (runAll (rapidjson.deserialize lib) o.properties doc).2 = none := by
    cases hr : (runAll (rapidjson.deserialize lib) o.properties doc).2 with
    | none => rfl
    | some e => simp [hr] at hret
  exact ⟨runAll_of_complete _ _ doc hnone (key, f) (List.getElem?_mem hi),
    runAll_get _ _ doc i (key, f) hnone hi⟩

/-- The loop of the nlohmann nested array deserializer, when it completes, has appended
`fromJsonStatic` of every item, in order. -/
theorem pushBackAll_complete (f : Json → Except Fault JSONSerializable) (items : List Json)
    (acc res : List JSONSerializable) (h : pushBackAll f items acc = (res, none)) :
    ∃ os, List.Forall₂ (fun e x => f e = .ok x) items os ∧ res = acc ++ os := by
  induction items generalizing acc with
  | nil =>
    simp only [pushBackAll, Prod.mk.injEq, and_true] at h
    exact ⟨[], List.Forall₂.nil, by simp [h]⟩
  | cons item rest ih =>
    cases hf : f item with
    | error e => simp [pushBackAll, hf] at h
    | ok o =>
      simp only [pushBackAll, hf] at h
      obtain ⟨os, hall, hres⟩ := ih (acc ++ [o]) h
      exact ⟨o :: os, List.Forall₂.cons hf hall, by simp [hres]⟩

/-- The loop of the rapidjson nested array deserializer, when it completes, has appended
`fromJsonStatic` of every item of object kind, in order. -/
theorem pushBackObjects_complete (f : Json → Except Fault JSONSerializable) (items : List Json)
    (acc res : List JSONSerializable)
    (h : rapidjson.pushBackObjects f items acc = (res, none)) :
    ∃ os, List.Forall₂ (fun e x => f e = .ok x) (items.filter rapidjson.IsObject) os ∧
      res = acc ++ os := by
  induction items generalizing acc with
  | nil =>
    simp only [rapidjson.pushBackObjects, Prod.mk.injEq, and_true] at h
    exact ⟨[], by simp, by simp [h]⟩
  | cons item rest ih =>
    cases hk : rapidjson.IsObject item with
    | false =>
      simp only [rapidjson.pushBackObjects, hk] at h
      obtain ⟨os, hall, hres⟩ := ih acc (by simpa using h)
      exact ⟨os, by simpa [List.filter_cons, hk] using hall, hres⟩
    | true =>
      cases hf : f item with
      | error e => simp [rapidjson.pushBackObjects, hk, hf] at h
      | ok o =>
        simp only [rapidjson.pushBackObjects, hk, hf, if_true] at h
        obtain ⟨os, hall, hres⟩ := ih (acc ++ [o]) h
        have hcons : List.Forall₂ (fun e x => f e = .ok x)
            (item :: rest.filter rapidjson.IsObject) (o :: os) := List.Forall₂.cons hf hall
        exact ⟨o :: os, by simpa [List.filter_cons, hk] using hcons, by simp [hres]⟩

/-- C14, as amended: the binding of a nested array, in an object whose `fromJson` reads a text
that parses to `doc`.  The rapidjson backend is handed the key as a C string, so that there
`under the key` reads: the first member whose name is the key up to its first NUL character
(`key.c_str()`), and the key is absent when there is no such member.  When the tree holds an
array under the key and `fromJson` returns true, the member is afterwards, in the nlohmann
backend, `fromJsonStatic` of the printed text of every element, in order, so as long as the
array, and none of the prior elements is kept; in the rapidjson backend it is `fromJsonStatic`
of the elements of object kind only, in order.  When the key is absent or the node is not an
array the member is as it was. -/
theorem nested_array_C14 (lib : TreeLib) (o : JSONSerializable) (text : String) (doc : Json)
    (i : Nat) (key : String) (fresh : JSONSerializable) (prior : List JSONSerializable)
    (hi : o.properties[i]? = some (key, .nestedArray fresh prior)) :
    (lib.parse text = some doc → (nlohmann.fromJson lib o text).2 = .ok true →
        ∀ items, nlohmann.index doc key = .ok (.array items) →
          ∃ os, List.Forall₂
              (fun e x => nlohmann.fromJsonStatic lib fresh (lib.dump e) = .ok x) items os ∧
            (nlohmann.fromJson lib o text).1.properties[i]?
              = some (key, .nestedArray fresh os)) ∧
      (lib.parse text = some doc →
        (nlohmann.contains doc key = false ∨
          ∃ node, nlohmann.index doc key = .ok node ∧ node.kind ≠ .array) →
        (nlohmann.fromJson lib o text).1.properties[i]?
          = some (key, .nestedArray fresh prior)) ∧
      (lib.parse (c_str text) = some doc → (rapidjson.fromJson lib o text).2 = .ok true →
        ∀ m items, doc = .object m → find m (c_str key) = some (.array items) →
          ∃ os, List.Forall₂
              (fun e x => rapidjson.fromJsonStatic lib fresh (c_str (lib.dump e)) = .ok x)
              (items.filter rapidjson.IsObject) os ∧
            (rapidjson.fromJson lib o text).1.properties[i]?
              = some (key, .nestedArray fresh os)) ∧
      (lib.parse (c_str text) = some doc →
        (∃ m, doc = .object m ∧ (find m (c_str key) = none ∨
          ∃ node, find m (c_str key) = some node ∧ node.kind ≠ .array)) →
        (rapidjson.fromJson lib o text).1.properties[i]?
          = some (key, .nestedArray fresh prior)) := by
  refine ⟨?_, ?_, ?_, ?_⟩
  · intro hp hret items hn
    obtain ⟨hnone, hget⟩ := nlohmann_fromJson_get lib o text doc i key _ hp hret hi
    rcases hpush : pushBackAll
        (fun item => returnObj (nlohmann.fromJson lib fresh (lib.dump item))) items []
      with ⟨res, r⟩
    have hd : nlohmann.deserialize lib (.nestedArray fresh prior) doc key
        = (.nestedArray fresh res, r) := by
      simp [nlohmann.deserialize, nlohmann_contains_of_index doc key _ hn, hn, hpush]
    rw [hd] at hnone hget
    simp only at hnone
    subst hnone
    obtain ⟨os, hall, hres⟩ := pushBackAll_complete _ items [] res hpush
    simp only [List.nil_append] at hres
    subst hres
    exact ⟨res, hall, hget⟩
  · intro hp hcase
    rw [nlohmann_fromJson_parsed lib o text doc hp]
    refine runAll_frame _ _ doc i _ hi ?_
    rcases hcase with hc | ⟨node, hn, hk⟩
    · simp [nlohmann_deserialize_absent lib _ doc key hc]
    · cases node <;>
        simp [Json.kind, nlohmann.deserialize, nlohmann_contains_of_index doc key _ hn, hn] at hk ⊢
  · intro hp hret m items hm hfind
    have hn : rapidjson.index doc key = .ok (.array items) := by
      subst hm
      exact rapidjson_index_object m key _ hfind
    obtain ⟨hnone, hget⟩ := rapidjson_fromJson_get lib o text doc i key _ hp hret hi
    rcases hpush : rapidjson.pushBackObjects
        (fun item => returnObj (rapidjson.fromJson lib fresh (c_str (lib.dump item)))) items []
      with ⟨res, r⟩
    have hd : rapidjson.deserialize lib (.nestedArray fresh prior) doc key
        = (.nestedArray fresh res, r) := by
      simp [rapidjson.deserialize, rapidjson_hasMember_of_index doc key _ hn, hn, hpush]
    rw [hd] at hnone hget
    simp only at hnone
    subst hnone
    obtain ⟨os, hall, hres⟩ := pushBackObjects_complete _ items [] res hpush
    simp only [List.nil_append] at hres
    subst hres
    exact ⟨res, hall, hget⟩
  · intro hp hcase
    rw [rapidjson_fromJson_parsed lib o text doc hp]
    refine runAll_frame _ _ doc i _ hi ?_
    obtain ⟨m, hm, hcase⟩ := hcase
    subst hm
    rcases hcase with hc | ⟨node, hfind, hk⟩
    · simp [rapidjson_deserialize_absent lib _ _ key
        (show rapidjson.HasMember (.object m) key = .ok false by simp [rapidjson.HasMember, hc])]
    · have hn := rapidjson_index_object m key _ hfind
      cases node <;>
        simp [Json.kind, rapidjson.deserialize, rapidjson_hasMember_of_index _ key _ hn, hn]
          at hk ⊢
/-- C14 at an object whose nested array under `"places"` holds one address: from
`{"places":[{"city":"Rome"},{"city":"Bern"}]}` both backends rebuild the member as the two
addresses read, and from `{"places":5}` and `{}` they leave it as it was. -/
theorem nested_array_C14_witness :
    Example.visitor.properties[0]?
        = some ("places", .nestedArray Example.address [Example.addressOf "Oslo"]) ∧
      Ref.lib.parse Example.placesText
        = some (.object [("places", .array [.object [("city", .string "Rome")],
            .object [("city", .string "Bern")]])]) ∧
      (∃ os, List.Forall₂
          (fun e x => nlohmann.fromJsonStatic Ref.lib Example.address (Ref.lib.dump e) = .ok x)
          [.object [("city", .string "Rome")], .object [("city", .string "Bern")]] os ∧
        (nlohmann.fromJson Ref.lib Example.visitor Example.placesText).1.properties[0]?
          = some ("places", .nestedArray Example.address os)) ∧
      nlohmann.fromJson Ref.lib Example.visitor Example.placesText
        = (.mk [("places", .nestedArray Example.address
            [Example.addressOf "Rome", Example.addressOf "Bern"])], .ok true) ∧
      (∃ os, List.Forall₂
          (fun e x => rapidjson.fromJsonStatic Ref.lib Example.address
            (c_str (Ref.lib.dump e)) = .ok x)
          ([.object [("city", .string "Rome")], .object [("city", .string "Bern")]].filter
            rapidjson.IsObject) os ∧
        (rapidjson.fromJson Ref.lib Example.visitor Example.placesText).1.properties[0]?
          = some ("places", .nestedArray Example.address os)) ∧
      rapidjson.fromJson Ref.lib Example.visitor Example.placesText
        = (.mk [("places", .nestedArray Example.address
            [Example.addressOf "Rome", Example.addressOf "Bern"])], .ok true) ∧
      (nlohmann.fromJson Ref.lib Example.visitor Example.placesIsNumber).1.properties[0]?
        = some ("places", .nestedArray Example.address [Example.addressOf "Oslo"]) ∧
      (rapidjson.fromJson Ref.lib Example.visitor Example.placesIsNumber).1.properties[0]?
        = some ("places", .nestedArray Example.address [Example.addressOf "Oslo"]) ∧
      (nlohmann.fromJson Ref.lib Example.visitor Example.emptyObject).1.properties[0]?
        = some ("places", .nestedArray Example.address [Example.addressOf "Oslo"]) ∧
      (rapidjson.fromJson Ref.lib Example.visitor Example.emptyObject).1.properties[0]?
        = some ("places", .nestedArray Example.address [Example.addressOf "Oslo"]) :=
  ⟨rfl, rfl,
    (nested_array_C14 Ref.lib Example.visitor Example.placesText
      (.object [("places", .array [.object [("city", .string "Rome")],
        .object [("city", .string "Bern")]])]) 0 "places" Example.address
      [Example.addressOf "Oslo"] rfl).1 rfl rfl _ rfl,
    rfl,
    (nested_array_C14 Ref.lib Example.visitor Example.placesText
      (.object [("places", .array [.object [("city", .string "Rome")],
        .object [("city", .string "Bern")]])]) 0 "places" Example.address
      [Example.addressOf "Oslo"] rfl).2.2.1 rfl rfl _ _ rfl rfl,
    rfl,
    (nested_array_C14 Ref.lib Example.visitor Example.placesIsNumber
      (.object [("places", .number_unsigned 5)]) 0 "places" Example.address
      [Example.addressOf "Oslo"] rfl).2.1 rfl (Or.inr ⟨_, rfl, by decide⟩),
    (nested_array_C14 Ref.lib Example.visitor Example.placesIsNumber
      (.object [("places", .number_unsigned 5)]) 0 "places" Example.address
      [Example.addressOf "Oslo"] rfl).2.2.2 rfl ⟨_, rfl, Or.inr ⟨_, rfl, by decide⟩⟩,
    (nested_array_C14 Ref.lib Example.visitor Example.emptyObject
      (.object []) 0 "places" Example.address
      [Example.addressOf "Oslo"] rfl).2.1 rfl (Or.inl rfl),
    (nested_array_C14 Ref.lib Example.visitor Example.emptyObject
      (.object []) 0 "places" Example.address
      [Example.addressOf "Oslo"] rfl).2.2.2 rfl ⟨_, rfl, Or.inl rfl⟩⟩
/-- C14 fails as stated in the rapidjson backend.  The array of `{"places":[5,{"city":"Rome"}]}`
has two elements, and after `fromJson` the member holds one object, read from the second; the
element that is not an object is skipped.  The nlohmann `fromJson` reads both.  And for a
binding registered under the key `places`, NUL, `x`, the tree of
`{"places":[{"city":"Rome"},{"city":"Bern"}]}` holds no node under that key, and the member,
which held one address, is replaced by the two read from the member `places`; the nlohmann
`fromJson` leaves it as it was. -/
theorem nested_array_C14_counterexample :
    Ref.lib.parse (c_str Example.mixedPlacesText)
        = some (.object [("places", .array [.number_unsigned 5,
            .object [("city", .string "Rome")]])]) ∧
      rapidjson.fromJsonStatic Ref.lib Example.address
          (c_str (Ref.lib.dump (.number_unsigned 5))) = .error .assertion ∧
      rapidjson.fromJson Ref.lib Example.visitor Example.mixedPlacesText
        = (.mk [("places", .nestedArray Example.address [Example.addressOf "Rome"])],
            .ok true) ∧
      nlohmann.fromJson Ref.lib Example.visitor Example.mixedPlacesText
        = (.mk [("places", .nestedArray Example.address
            [Example.address, Example.addressOf "Rome"])], .ok true) ∧
      Example.visitorNul.properties
        = [("places\x00x", .nestedArray Example.address [Example.addressOf "Oslo"])] ∧
      Ref.lib.parse (c_str Example.placesText)
        = some (.object [("places", .array [.object [("city", .string "Rome")],
            .object [("city", .string "Bern")]])]) ∧
      find [("places", Json.array [.object [("city", .string "Rome")],
          .object [("city", .string "Bern")]])] "places\x00x" = none ∧
      rapidjson.fromJson Ref.lib Example.visitorNul Example.placesText
        = (.mk [("places\x00x", .nestedArray Example.address
            [Example.addressOf "Rome", Example.addressOf "Bern"])], .ok true) ∧
      nlohmann.fromJson Ref.lib Example.visitorNul Example.placesText
        = (Example.visitorNul, .ok true) :=
  ⟨rfl, rfl, rfl, rfl, rfl, rfl, rfl, rfl, rfl⟩

/-! ## Round trip of a nested array (C15) -/

/-- A composite that meets the conditions of the round trip, and whose tree the library reads
back also when printed a second time, comes back from its own text in the nlohmann backend. -/
theorem nlohmann_comesBack_of_roundTrips (lib : TreeLib) (fresh v : JSONSerializable)
    (hrt : RoundTrips (nlohmannBackend lib) v fresh)
    (hreads : ∀ t, nlohmann.toJsonTree lib v = .ok t →
      lib.parse (lib.dump t) = some (reparse t) ∧
        lib.parse (lib.dump (reparse t)) = some (reparse (reparse t))) :
    nlohmann.ComesBack lib fresh v := by
  obtain ⟨t, ht, _, _, hrun⟩ := nlohmann_roundtrip_object lib v fresh hrt
  exact ⟨t, ht, (hreads t ht).1, nlohmann_read_back lib fresh v t (hreads t ht).2 hrun⟩

/-- The same for the rapidjson backend. -/
theorem rapidjson_comesBack_of_roundTrips (lib : TreeLib) (fresh v : JSONSerializable)
    (hrt : RoundTrips (rapidjsonBackend lib) v fresh)
    (hreads : ∀ t, rapidjson.toJsonTree lib v = .ok t →
      lib.parse (c_str (lib.dump t)) = some (reparse t) ∧
        lib.parse (c_str (lib.dump (reparse t))) = some (reparse (reparse t))) :
    rapidjson.ComesBack lib fresh v := by
  obtain ⟨ms, ht, hrun⟩ := rapidjson_roundtrip_object lib v fresh hrt
  exact ⟨_, ht, (hreads _ ht).1, rapidjson_read_back lib fresh v _ (hreads _ ht).2 hrun⟩

/-- Every deserializer of the rapidjson backend starts with `HasMember`, which asserts that the
tree is an object. -/
theorem rapidjson_deserialize_not_object (lib : TreeLib) (f : Field) (doc : Json) (key : String)
    (h : doc.kind ≠ .object) :
    rapidjson.deserialize lib f doc key = (f, some .assertion) := by
  cases doc <;> simp [Json.kind] at h <;>
    cases f <;>
    simp [rapidjson.deserialize, rapidjson.assignIf, rapidjson.EnumSerializer.deserialize,
      rapidjson.HasMember]

/-- C16: texts that are well-formed JSON.  When the root of the text is not an object, the
rapidjson `fromJson` of an object with at least one binding does not return: the first
deserializer calls `HasMember` on the root, which asserts that it is an object; the members are
as they were.  The enum deserializer of the rapidjson backend does not return either when the
node under its key is a number that `IsInt` rejects: it calls `GetInt` behind `IsNumber`.  The
nlohmann `fromJson` returns true on a root that is not an object, with the object as it was, and
on every well-formed text when the bindings are scalar and enum bindings. -/
theorem no_panic_C16 (lib : TreeLib) (o : JSONSerializable) (text : String) (doc : Json) :
    (lib.parse (c_str text) = some doc → doc.kind ≠ .object → o.properties ≠ [] →
        rapidjson.fromJson lib o text = (o, .error .assertion)) ∧
      (∀ inst v key node, rapidjson.index doc key = .ok node →
        rapidjson.IsNumber node = true → rapidjson.IsInt node = false →
        rapidjson.deserialize lib (.enum inst v) doc key = (.enum inst v, some .assertion)) ∧
      (lib.parse text = some doc → doc.kind ≠ .object →
        nlohmann.fromJson lib o text = (o, .ok true)) ∧
      (lib.parse text = some doc →
        (∀ p ∈ o.properties, p.2.expectedKind.isSome ∨ p.2.codec = .enum) →
        (nlohmann.fromJson lib o text).2 = .ok true) := by
  refine ⟨?_, ?_, ?_, ?_⟩
  · intro hp hroot hne
    cases o with
    | mk ps =>
      cases ps with
      | nil => simp [JSONSerializable.properties] at hne
      | cons p ps =>
        obtain ⟨k, f⟩ := p
        simp [rapidjson.fromJson, hp, rapidjson.runDeserializers,
          rapidjson_deserialize_not_object lib f doc k hroot]
  · intro inst v key node hn hnum hint
    have hstr : rapidjson.IsString node = false := by
      cases node <;> simp [rapidjson.IsNumber, rapidjson.IsString] at hnum ⊢
    simp [rapidjson.deserialize, rapidjson.EnumSerializer.deserialize,
      rapidjson_hasMember_of_index doc key _ hn, hn, hstr, hnum, rapidjson.GetInt, hint]
  · intro hp hroot
    refine (fromJson_no_key lib o text doc).1 hp (fun p _ => ?_)
    cases doc <;> simp [Json.kind, nlohmann.contains] at hroot ⊢
  · intro hp hflat
    rw [nlohmann_fromJson_parsed lib o text doc hp, runAll_complete _ _ doc
      (fun p hp' => nlohmann_deserialize_flat_no_fault lib p.2 doc p.1 (hflat p hp'))]

/-- C16 at the texts `[]` and `5`, read by an object with an `int` member, and at the text
`{"color":2147483648}`, read by an object with an enum member: the rapidjson `fromJson` fails an
assertion on each of them, and the nlohmann `fromJson` returns true. -/
theorem no_panic_C16_witness :
    Ref.lib.parse (c_str Example.emptyArray) = some (.array []) ∧
      rapidjson.fromJson Ref.lib Example.person Example.emptyArray
        = (Example.person, .error .assertion) ∧
      nlohmann.fromJson Ref.lib Example.person Example.emptyArray
        = (Example.person, .ok true) ∧
      Ref.lib.parse (c_str Example.five) = some (.number_unsigned 5) ∧
      rapidjson.fromJson Ref.lib Example.person Example.five
        = (Example.person, .error .assertion) ∧
      rapidjson.deserialize Ref.lib (.enum Example.colors 0)
          (.object [("color", .number_unsigned 2147483648)]) "color"
        = (.enum Example.colors 0, some .assertion) ∧
      rapidjson.fromJson Ref.lib Example.unnamedFresh Example.colorIsLarge
        = (Example.unnamedFresh, .error .assertion) ∧
      (nlohmann.fromJson Ref.lib Example.unnamedFresh Example.colorIsLarge).2 = .ok true :=
  ⟨rfl,
    (no_panic_C16 Ref.lib Example.person Example.emptyArray (.array [])).1 rfl (by decide)
      (by simp [Example.person, JSONSerializable.registerProperty, JSONSerializable.properties]),
    (no_panic_C16 Ref.lib Example.person Example.emptyArray (.array [])).2.2.1 rfl (by decide),
    rfl,
    (no_panic_C16 Ref.lib Example.person Example.five (.number_unsigned 5)).1 rfl (by decide)
      (by simp [Example.person, JSONSerializable.registerProperty, JSONSerializable.properties]),
    (no_panic_C16 Ref.lib Example.person Example.emptyArray
      (.object [("color", .number_unsigned 2147483648)])).2.1 Example.colors 0 "color"
      (.number_unsigned 2147483648) rfl rfl rfl,
    rfl,
    (no_panic_C16 Ref.lib Example.unnamedFresh Example.colorIsLarge
      (.object [("color", .number_unsigned 2147483648)])).2.2.2 rfl (by decide)⟩

/-! ## The two backends side by side (C17) -/

/-- C17: a `double` member under `key`, read from a text whose tree holds an integer literal `n`
under `key`, such as `{"x":1}`.  Both backends return true, and leave different values: the
nlohmann deserializer tests `is_number` and assigns the integer converted to `double`; the
rapidjson deserializer tests `IsDouble`, which an integer node fails, and leaves the member as it
was. -/
theorem backend_equivalence_C17 (lib : TreeLib) (text key : String) (v : Dbl) (n : Nat)
    (hkey : NulFree key)
    (hn : lib.parse text = some (.object [(key, .number_unsigned n)]))
    (hr : lib.parse (c_str text) = some (.object [(key, .number_unsigned n)])) :
    nlohmann.fromJson lib (.mk [(key, .double v)]) text
        = (.mk [(key, .double (lib.toDouble n))], .ok true) ∧
      rapidjson.fromJson lib (.mk [(key, .double v)]) text
        = (.mk [(key, .double v)], .ok true) := by
  have hkey' : c_str key = key := hkey
  constructor
  · simp [nlohmann.fromJson, hn, nlohmann.runDeserializers, nlohmann.deserialize,
      nlohmann.assignIf, nlohmann.contains, nlohmann.index, find, nlohmann.is_number,
      nlohmann.get_double]
  · simp [rapidjson.fromJson, hr, rapidjson.runDeserializers, rapidjson.deserialize,
      rapidjson.assignIf, rapidjson.HasMember, rapidjson.index, find, hkey',
      rapidjson.IsDouble]

/-- The conversion of the reference library sends 1 to the bit pattern of 1.0. -/
theorem Ref_toDouble_one : Ref.lib.toDouble 1 = ⟨4607182418800017408⟩ := by
  have h : Nat.log2 1 = 0 := by
    unfold Nat.log2
    simp
  simp [Ref.lib, Ref.toDouble, h]

/-- C17 at the text `{"x":1}` and a member holding 0.0: afterwards the member holds 1.0 in the
nlohmann backend and 0.0 in the rapidjson backend. -/
theorem backend_equivalence_C17_witness :
    Ref.lib.parse Example.xIsOne = some (.object [("x", .number_unsigned 1)]) ∧
      Ref.lib.toDouble 1 = ⟨4607182418800017408⟩ ∧
      nlohmann.fromJson Ref.lib Example.measured Example.xIsOne
        = (.mk [("x", .double (Ref.lib.toDouble 1))], .ok true) ∧
      rapidjson.fromJson Ref.lib Example.measured Example.xIsOne
        = (.mk [("x", .double ⟨0⟩)], .ok true) :=
  ⟨rfl, Ref_toDouble_one,
    (backend_equivalence_C17 Ref.lib Example.xIsOne "x" ⟨0⟩ 1 (by decide) rfl rfl).1,
    (backend_equivalence_C17 Ref.lib Example.xIsOne "x" ⟨0⟩ 1 (by decide) rfl rfl).2⟩

/-! ## Round trip of text, integers and flags (C18) -/

/-- An object whose members are text, integers in range and flags, under pairwise distinct keys,
meets the conditions of the round trip with the default-constructed object of its class, when
the backend carries its keys and strings in full. -/
theorem roundTripsAll_of_discrete (b : Backend) (ps qs : List (String × Field))
    (hdisc : ∀ p ∈ ps, p.2.isDiscrete = true) (hnodup : (ps.map Prod.fst).Nodup)
    (hclass : qs.map (fun p => (p.1, p.2.codec)) = ps.map (fun p => (p.1, p.2.codec)))
    (hrange : ∀ p ∈ ps, p.2.inRange = true)
    (htext : ∀ p ∈ ps, b.text p.1 ∧ ∀ s, p.2 = .string s → b.text s) :
    RoundTripsAll b ps qs := by
  induction ps generalizing qs with
  | nil =>
    cases qs with
    | nil => simp [RoundTripsAll]
    | cons q qs => simp at hclass
  | cons p ps ih =>
    obtain ⟨k, f⟩ := p
    cases qs with
    | nil => simp at hclass
    | cons q qs =>
      obtain ⟨k', g⟩ := q
      simp only [List.map_cons, List.cons.injEq, Prod.mk.injEq] at hclass
      obtain ⟨⟨hk, hc⟩, hrest⟩ := hclass
      subst hk
      simp only [List.map_cons, List.nodup_cons] at hnodup
      have hd := hdisc (k', f) (List.mem_cons_self _ _)
      have hr := hrange (k', f) (List.mem_cons_self _ _)
      have ht := htext (k', f) (List.mem_cons_self _ _)
      simp only [RoundTripsAll]
      refine ⟨ht.1, hnodup.1, g, qs, rfl, ?_,
        ih qs (fun q hq => hdisc q (List.mem_cons_of_mem _ hq)) hnodup.2 hrest
          (fun q hq => hrange q (List.mem_cons_of_mem _ hq))
          (fun q hq => htext q (List.mem_cons_of_mem _ hq))⟩
      cases f <;> simp [Field.isDiscrete] at hd <;>
        cases g <;> simp [Field.codec] at hc <;>
        simp [RoundTripsField, Field.inRange] at hr ⊢
      · exact ht.2 _ rfl
      · exact hr
      · exact hr
      · exact hr

/-- C18, as amended: round trip of an object `x` whose bindings refer to its own members
(`Instance.ReadsOwnFields`: it is not a copy that holds other values than the object it was
copied from), the members being strings, `int`, `unsigned int`, `uint64_t` and `bool` values,
under pairwise distinct keys, with `fresh` the default-constructed object of its class and the
library reading the printed tree back.  In the nlohmann backend `toJson` returns a text and
`fromJsonStatic` of that text returns an object whose members hold the values of the members of
`x`.  In the rapidjson backend it does when no key and no string member holds a NUL
character. -/
theorem discrete_round_trip_C18 (lib : TreeLib) (x : Instance) (fresh : JSONSerializable)
    (hown : x.ReadsOwnFields)
    (hdisc : ∀ p ∈ x.bindings.properties, p.2.isDiscrete = true)
    (hnodup : (x.bindings.properties.map Prod.fst).Nodup)
    (hclass : fresh.properties.map (fun p => (p.1, p.2.codec))
      = x.bindings.properties.map (fun p => (p.1, p.2.codec)))
    (hrange : ∀ p ∈ x.bindings.properties, p.2.inRange = true) :
    ((∀ t, nlohmann.toJsonTree lib x.bindings = .ok t →
          lib.parse (lib.dump t) = some (reparse t)) →
        ∃ text r, nlohmann.Instance.toJson lib x = .ok text ∧
          nlohmann.fromJsonStatic lib fresh text = .ok r ∧ r.values = x.fields) ∧
      ((∀ p ∈ x.bindings.properties, NulFree p.1 ∧ ∀ s, p.2 = .string s → NulFree s) →
        (∀ t, rapidjson.toJsonTree lib x.bindings = .ok t →
          lib.parse (c_str (lib.dump t)) = some (reparse t)) →
        ∃ text r, rapidjson.Instance.toJson lib x = .ok text ∧
          rapidjson.fromJsonStatic lib fresh text = .ok r ∧ r.values = x.fields) := by
  obtain ⟨fields, o⟩ := x
  simp only [Instance.ReadsOwnFields] at hown
  simp only [nlohmann.Instance.toJson, rapidjson.Instance.toJson] at *
  subst hown
  constructor
  · intro hreads
    have hrt : RoundTrips (nlohmannBackend lib) o fresh := by
      cases o with
      | mk ps =>
        simp only [RoundTrips]
        exact roundTripsAll_of_discrete _ ps _ hdisc hnodup hclass hrange
          (fun _ _ => ⟨trivial, fun _ _ => trivial⟩)
    obtain ⟨t, ht, _, _, hrun⟩ := nlohmann_roundtrip_object lib o fresh hrt
    refine ⟨lib.dump t, o, by simp [nlohmann.toJson, ht], ?_, rfl⟩
    have := (nlohmann_returnObj_of_run lib fresh _ _ _ (hreads t ht) hrun).2
    cases o with
    | mk ps => simpa [nlohmann.fromJsonStatic, JSONSerializable.properties] using this
  · intro hnul hreads
    have hrt : RoundTrips (rapidjsonBackend lib) o fresh := by
      cases o with
      | mk ps =>
        simp only [RoundTrips]
        exact roundTripsAll_of_discrete _ ps _ hdisc hnodup hclass hrange hnul
    obtain ⟨ms, ht, hrun⟩ := rapidjson_roundtrip_object lib o fresh hrt
    refine ⟨c_str (lib.dump (.object ms)), o, by simp [rapidjson.toJson, ht], ?_, rfl⟩
    simp only [rapidjson.fromJsonStatic]
    rw [rapidjson_fromJson_parsed lib fresh _ (reparse (.object ms))
      (by rw [c_str_idem]; exact hreads _ ht), hrun]
    cases o with
    | mk ps => rfl
/-- C18 at an object with a string, an `int`, an `unsigned int`, a `uint64_t` and a `bool`
member, whose bindings refer to its own members: the values come back from its text in both
backends. -/
theorem discrete_round_trip_C18_witness :
    Example.recordOwn.ReadsOwnFields ∧
      (∀ p ∈ Example.recordOwn.bindings.properties, p.2.isDiscrete = true) ∧
      (Example.recordOwn.bindings.properties.map Prod.fst).Nodup ∧
      Example.recordFresh.properties.map (fun p => (p.1, p.2.codec))
        = Example.recordOwn.bindings.properties.map (fun p => (p.1, p.2.codec)) ∧
      (∀ p ∈ Example.recordOwn.bindings.properties, p.2.inRange = true) ∧
      (∃ text r, nlohmann.Instance.toJson Ref.lib Example.recordOwn = .ok text ∧
        nlohmann.fromJsonStatic Ref.lib Example.recordFresh text = .ok r ∧
        r.values = Example.recordOwn.fields) ∧
      (∃ text r, rapidjson.Instance.toJson Ref.lib Example.recordOwn = .ok text ∧
        rapidjson.fromJsonStatic Ref.lib Example.recordFresh text = .ok r ∧
        r.values = Example.recordOwn.fields) :=
  ⟨rfl, by decide, by decide, by decide, by decide,
    (discrete_round_trip_C18 Ref.lib Example.recordOwn Example.recordFresh rfl (by decide)
      (by decide) (by decide) (by decide)).1
      (fun t ht => by
        obtain ⟨t₀, h₀, hr⟩ : ∃ t₀, nlohmann.toJsonTree Ref.lib Example.record = .ok t₀ ∧
            Ref.lib.parse (Ref.lib.dump t₀) = some (reparse t₀) := ⟨_, rfl, rfl⟩
        have ht' : nlohmann.toJsonTree Ref.lib Example.record = .ok t := ht
        rw [h₀] at ht'
        cases ht'
        exact hr),
    (discrete_round_trip_C18 Ref.lib Example.recordOwn Example.recordFresh rfl (by decide)
      (by decide) (by decide) (by decide)).2
      (by
        simp [Example.recordOwn, Example.record, JSONSerializable.registerProperty,
          JSONSerializable.properties]
        decide)
      (fun t ht => by
        obtain ⟨t₀, h₀, hr⟩ : ∃ t₀, rapidjson.toJsonTree Ref.lib Example.record = .ok t₀ ∧
            Ref.lib.parse (c_str (Ref.lib.dump t₀)) = some (reparse t₀) := ⟨_, rfl, rfl⟩
        have ht' : rapidjson.toJsonTree Ref.lib Example.record = .ok t := ht
        rw [h₀] at ht'
        cases ht'
        exact hr)⟩

/-- C18 fails as stated.  In the rapidjson backend the one member is the string `a`, NUL, `b`
under the key `"s"`: the serializer hands it over as a `const char*`, the text holds the string
`a`, and `fromJsonStatic` of the text returns an object whose member holds `a`; in the nlohmann
backend the object comes back.  And in both backends, for a copy of an object with one `int`
member that holds 30, whose own member was set to 5: the closures the copy holds print the
member of the object copied from, and `fromJsonStatic` of the text returns an object whose
member holds 30, not 5. -/
theorem discrete_round_trip_C18_counterexample :
    Example.binary.properties = [("s", .string "a\x00b")] ∧
      rapidjson.toJsonTree Ref.lib Example.binary = .ok (.object [("s", .string "a")]) ∧
      (∃ text, rapidjson.toJson Ref.lib Example.binary = .ok text ∧
        Ref.lib.parse (c_str text) = some (.object [("s", .string "a")]) ∧
        rapidjson.fromJsonStatic Ref.lib Example.binaryFresh text
          = .ok (.mk [("s", .string "a")])) ∧
      (∃ text, nlohmann.toJson Ref.lib Example.binary = .ok text ∧
        nlohmann.fromJsonStatic Ref.lib Example.binaryFresh text = .ok Example.binary) ∧
      Example.personCopy.fields = [.int 5] ∧
      Example.personFresh.values = [.int 0] ∧
      (∃ text r, nlohmann.Instance.toJson Ref.lib Example.personCopy = .ok text ∧
        nlohmann.fromJsonStatic Ref.lib Example.personFresh text = .ok r ∧
        r.values = [.int 30]) ∧
      (∃ text r, rapidjson.Instance.toJson Ref.lib Example.personCopy = .ok text ∧
        rapidjson.fromJsonStatic Ref.lib Example.personFresh text = .ok r ∧
        r.values = [.int 30]) :=
  ⟨rfl, rfl, ⟨_, rfl, rfl, rfl⟩, ⟨_, rfl, rfl⟩, rfl, rfl, ⟨_, _, rfl, rfl, rfl⟩,
    ⟨_, _, rfl, rfl, rfl⟩⟩

/-! ## Reading the same text twice (C19) -/

/-- A guarded read of the nlohmann backend, run again on what it left, does the same. -/
theorem nlohmann_assignIf_idem {α : Type} (obj : Json) (key : String) (isKind : Json → Bool)
    (get : Json → Except Fault α) (value : α) :
    nlohmann.assignIf obj key isKind get (nlohmann.assignIf obj key isKind get value).1
      = nlohmann.assignIf obj key isKind get value := by
  cases hc : nlohmann.contains obj key with
  | false => simp [nlohmann.assignIf, hc]
  | true =>
    obtain ⟨node, hn⟩ := nlohmann_index_of_contains obj key hc
    simp only [nlohmann_assignIf_found obj key isKind get _ node hn]
    cases hk : isKind node with
    | false => simp
    | true => cases hg : get node <;> simp

/-- A guarded read of the rapidjson backend, run again on what it left, does the same. -/
theorem rapidjson_assignIf_idem {α : Type} (obj : Json) (key : String) (isKind : Json → Bool)
    (get : Json → Except Fault α) (value : α) :
    rapidjson.assignIf obj key isKind get (rapidjson.assignIf obj key isKind get value).1
      = rapidjson.assignIf obj key isKind get value := by
  cases hm : rapidjson.HasMember obj key with
  | error e => simp [rapidjson.assignIf, hm]
  | ok b =>
    cases b with
    | false => simp [rapidjson.assignIf, hm]
    | true =>
      cases hn : rapidjson.index obj key with
      | error e => simp [rapidjson.assignIf, hm, hn]
      | ok node =>
        simp only [rapidjson_assignIf_found obj key isKind get _ node hn]
        cases hk : isKind node with
        | false => simp
        | true => cases hg : get node <;> simp

/-- The enum deserializer of the nlohmann backend, run again on what it left, does the same. -/
theorem nlohmann_enum_deserialize_idem (lib : TreeLib) (inst : EnumSerializer) (obj : Json)
    (key : String) (value : Int) :
    nlohmann.EnumSerializer.deserialize lib inst obj key
        (nlohmann.EnumSerializer.deserialize lib inst obj key value).1
      = nlohmann.EnumSerializer.deserialize lib inst obj key value := by
  cases hc : nlohmann.contains obj key with
  | false => simp [nlohmann.EnumSerializer.deserialize, hc]
  | true =>
    obtain ⟨node, hn⟩ := nlohmann_index_of_contains obj key hc
    simp only [nlohmann.EnumSerializer.deserialize, hc, hn, if_true]
    cases hs : nlohmann.is_string node with
    | true =>
      cases hg : nlohmann.get_string node with
      | error e => simp
      | ok s => cases hf : find inst.stringToEnum s <;> simp [hf]
    | false =>
      cases hk : nlohmann.is_number node with
      | false => simp
      | true => cases hg : nlohmann.get_int lib node <;> simp

/-- The enum deserializer of the rapidjson backend, run again on what it left, does the same. -/
theorem rapidjson_enum_deserialize_idem (inst : EnumSerializer) (obj : Json)
    (key : String) (value : Int) :
    rapidjson.EnumSerializer.deserialize inst obj key
        (rapidjson.EnumSerializer.deserialize inst obj key value).1
      = rapidjson.EnumSerializer.deserialize inst obj key value := by
  cases hm : rapidjson.HasMember obj key with
  | error e => simp [rapidjson.EnumSerializer.deserialize, hm]
  | ok b =>
    cases b with
    | false => simp [rapidjson.EnumSerializer.deserialize, hm]
    | true =>
      cases hn : rapidjson.index obj key with
      | error e => simp [rapidjson.EnumSerializer.deserialize, hm, hn]
      | ok node =>
        simp only [rapidjson.EnumSerializer.deserialize, hm, hn]
        cases hs : rapidjson.IsString node with
        | true =>
          cases hg : rapidjson.GetString node with
          | error e => simp
          | ok s => cases hf : find inst.stringToEnum s <;> simp [hf]
        | false =>
          cases hk : rapidjson.IsNumber node with
          | false => simp
          | true => cases hg : rapidjson.GetInt node <;> simp

/-- A deserializer of the nlohmann backend, run again on the member it left, leaves the same
member and ends the same way: what it assigns depends on the tree only. -/
theorem nlohmann_deserialize_idem (lib : TreeLib) (f : Field) (doc : Json) (key : String) :
    nlohmann.deserialize lib (nlohmann.deserialize lib f doc key).1 doc key
      = nlohmann.deserialize lib f doc key := by
  cases f with
  | string v =>
    have h := nlohmann_assignIf_idem doc key nlohmann.is_string nlohmann.get_string v
    rcases hr : nlohmann.assignIf doc key nlohmann.is_string nlohmann.get_string v with ⟨x, r⟩
    rw [hr] at h
    simp only [nlohmann.deserialize, hr, h]
  | int v =>
    have h := nlohmann_assignIf_idem doc key nlohmann.is_number_integer (nlohmann.get_int lib) v
    rcases hr : nlohmann.assignIf doc key nlohmann.is_number_integer (nlohmann.get_int lib) v
      with ⟨x, r⟩
    rw [hr] at h
    simp only [nlohmann.deserialize, hr, h]
  | double v =>
    have h := nlohmann_assignIf_idem doc key nlohmann.is_number (nlohmann.get_double lib) v
    rcases hr : nlohmann.assignIf doc key nlohmann.is_number (nlohmann.get_double lib) v
      with ⟨x, r⟩
    rw [hr] at h
    simp only [nlohmann.deserialize, hr, h]
  | bool v =>
    have h := nlohmann_assignIf_idem doc key nlohmann.is_boolean nlohmann.get_bool v
    rcases hr : nlohmann.assignIf doc key nlohmann.is_boolean nlohmann.get_bool v with ⟨x, r⟩
    rw [hr] at h
    simp only [nlohmann.deserialize, hr, h]
  | unsigned v =>
    have h := nlohmann_assignIf_idem doc key nlohmann.is_number_unsigned nlohmann.get_unsigned v
    rcases hr : nlohmann.assignIf doc key nlohmann.is_number_unsigned nlohmann.get_unsigned v
      with ⟨x, r⟩
    rw [hr] at h
    simp only [nlohmann.deserialize, hr, h]
  | uint64 v =>
    have h := nlohmann_assignIf_idem doc key nlohmann.is_number_unsigned nlohmann.get_uint64 v
    rcases hr : nlohmann.assignIf doc key nlohmann.is_number_unsigned nlohmann.get_uint64 v
      with ⟨x, r⟩
    rw [hr] at h
    simp only [nlohmann.deserialize, hr, h]
  | enum inst v =>
    have h := nlohmann_enum_deserialize_idem lib inst doc key v
    rcases hr : nlohmann.EnumSerializer.deserialize lib inst doc key v with ⟨x, r⟩
    rw [hr] at h
    simp only [nlohmann.deserialize, hr, h]
  | nestedObject fresh v =>
    cases hc : nlohmann.contains doc key with
    | false => simp [nlohmann.deserialize, hc]
    | true =>
      obtain ⟨node, hn⟩ := nlohmann_index_of_contains doc key hc
      cases hk : nlohmann.is_object node with
      | false => simp [nlohmann.deserialize, hc, hn, hk]
      | true =>
        cases hs : returnObj (nlohmann.fromJson lib fresh (lib.dump node)) with
        | ok o' => simp [nlohmann.deserialize, hc, hn, hk, hs]
        | error e => simp [nlohmann.deserialize, hc, hn, hk, hs]
  | nestedArray fresh v =>
    cases hc : nlohmann.contains doc key with
    | false => simp [nlohmann.deserialize, hc]
    | true =>
      obtain ⟨node, hn⟩ := nlohmann_index_of_contains doc key hc
      cases node <;> simp [nlohmann.deserialize, hc, hn]

/-- A deserializer of the rapidjson backend, run again on the member it left, leaves the same
member and ends the same way. -/
theorem rapidjson_deserialize_idem (lib : TreeLib) (f : Field) (doc : Json) (key : String) :
    rapidjson.deserialize lib (rapidjson.deserialize lib f doc key).1 doc key
      = rapidjson.deserialize lib f doc key := by
  cases f with
  | string v =>
    have h := rapidjson_assignIf_idem doc key rapidjson.IsString rapidjson.GetString v
    rcases hr : rapidjson.assignIf doc key rapidjson.IsString rapidjson.GetString v with ⟨x, r⟩
    rw [hr] at h
    simp only [rapidjson.deserialize, hr, h]
  | int v =>
    have h := rapidjson_assignIf_idem doc key rapidjson.IsInt rapidjson.GetInt v
    rcases hr : rapidjson.assignIf doc key rapidjson.IsInt rapidjson.GetInt v with ⟨x, r⟩
    rw [hr] at h
    simp only [rapidjson.deserialize, hr, h]
  | double v =>
    have h := rapidjson_assignIf_idem doc key rapidjson.IsDouble rapidjson.GetDouble v
    rcases hr : rapidjson.assignIf doc key rapidjson.IsDouble rapidjson.GetDouble v with ⟨x, r⟩
    rw [hr] at h
    simp only [rapidjson.deserialize, hr, h]
  | bool v =>
    have h := rapidjson_assignIf_idem doc key rapidjson.IsBool rapidjson.GetBool v
    rcases hr : rapidjson.assignIf doc key rapidjson.IsBool rapidjson.GetBool v with ⟨x, r⟩
    rw [hr] at h
    simp only [rapidjson.deserialize, hr, h]
  | unsigned v =>
    have h := rapidjson_assignIf_idem doc key rapidjson.IsUint rapidjson.GetUint v
    rcases hr : rapidjson.assignIf doc key rapidjson.IsUint rapidjson.GetUint v with ⟨x, r⟩
    rw [hr] at h
    simp only [rapidjson.deserialize, hr, h]
  | uint64 v =>
    have h := rapidjson_assignIf_idem doc key rapidjson.IsUint64 rapidjson.GetUint64 v
    rcases hr : rapidjson.assignIf doc key rapidjson.IsUint64 rapidjson.GetUint64 v with ⟨x, r⟩
    rw [hr] at h
    simp only [rapidjson.deserialize, hr, h]
  | enum inst v =>
    have h := rapidjson_enum_deserialize_idem inst doc key v
    rcases hr : rapidjson.EnumSerializer.deserialize inst doc key v with ⟨x, r⟩
    rw [hr] at h
    simp only [rapidjson.deserialize, hr, h]
  | nestedObject fresh v =>
    cases hm : rapidjson.HasMember doc key with
    | error e => simp [rapidjson.deserialize, hm]
    | ok b =>
      cases b with
      | false => simp [rapidjson.deserialize, hm]
      | true =>
        cases hn : rapidjson.index doc key with
        | error e => simp [rapidjson.deserialize, hm, hn]
        | ok node =>
          cases hk : rapidjson.IsObject node with
          | false => simp [rapidjson.deserialize, hm, hn, hk]
          | true =>
            cases hs : returnObj (rapidjson.fromJson lib fresh (c_str (lib.dump node))) with
            | ok o' => simp [rapidjson.deserialize, hm, hn, hk, hs]
            | error e => simp [rapidjson.deserialize, hm, hn, hk, hs]
  | nestedArray fresh v =>
    cases hm : rapidjson.HasMember doc key with
    | error e => simp [rapidjson.deserialize, hm]
    | ok b =>
      cases b with
      | false => simp [rapidjson.deserialize, hm]
      | true =>
        cases hn : rapidjson.index doc key with
        | error e => simp [rapidjson.deserialize, hm, hn]
        | ok node => cases node <;> simp [rapidjson.deserialize, hm, hn]

/-- The loop of `fromJson`, run again on the members it left, leaves the same members and ends
the same way, when each deserializer does. -/
theorem runAll_idem (d : Field → Json → String → Field × Option Fault)
    (hd : ∀ f doc key, d (d f doc key).1 doc key = d f doc key)
    (ps : List (String × Field)) (doc : Json) :
    runAll d (runAll d ps doc).1 doc = runAll d ps doc := by
  induction ps with
  | nil => simp [runAll]
  | cons p ps ih =>
    obtain ⟨k, f⟩ := p
    have h := hd f doc k
    rcases hf : d f doc k with ⟨f', r⟩
    rw [hf] at h
    simp only at h
    cases r with
    | some e => simp [runAll, hf, h]
    | none =>
      rcases hr : runAll d ps doc with ⟨rest', r'⟩
      rw [hr] at ih
      simp only at ih
      simp [runAll, hf, hr, h, ih]

/-- C19: `fromJson` is idempotent.  For either backend, every object, whatever its bindings and
keys, and every text, a second `fromJson` of the same text on the object the first call left
leaves the same object and ends as the first call did; in particular, when the first call
returns true, so does the second, with every member as the first call left it. -/
theorem fromJson_idempotent_C19 (lib : TreeLib) (o : JSONSerializable) (text : String) :
    nlohmann.fromJson lib (nlohmann.fromJson lib o text).1 text = nlohmann.fromJson lib o text ∧
      rapidjson.fromJson lib (rapidjson.fromJson lib o text).1 text
        = rapidjson.fromJson lib o text := by
  constructor
  · cases hp : lib.parse text with
    | none =>
      cases o with
      | mk ps => simp [nlohmann.fromJson, hp]
    | some doc =>
      rw [nlohmann_fromJson_parsed lib o text doc hp, nlohmann_fromJson_parsed lib _ text doc hp]
      simp only [JSONSerializable.properties]
      rw [runAll_idem _ (nlohmann_deserialize_idem lib)]
  · cases hp : lib.parse (c_str text) with
    | none =>
      cases o with
      | mk ps => simp [rapidjson.fromJson, hp]
    | some doc =>
      rw [rapidjson_fromJson_parsed lib o text doc hp,
        rapidjson_fromJson_parsed lib _ text doc hp]
      simp only [JSONSerializable.properties]
      rw [runAll_idem _ (rapidjson_deserialize_idem lib)]

/-- C19 at an object with a nested array and the text `{"places":[5,{"city":"Rome"}]}`: the
first `fromJson` returns true in both backends, and the second one leaves what the first left. -/
theorem fromJson_idempotent_C19_witness :
    (nlohmann.fromJson Ref.lib Example.visitor Example.mixedPlacesText).2 = .ok true ∧
      (rapidjson.fromJson Ref.lib Example.visitor Example.mixedPlacesText).2 = .ok true ∧
      nlohmann.fromJson Ref.lib
          (nlohmann.fromJson Ref.lib Example.visitor Example.mixedPlacesText).1
          Example.mixedPlacesText
        = nlohmann.fromJson Ref.lib Example.visitor Example.mixedPlacesText ∧
      rapidjson.fromJson Ref.lib
          (rapidjson.fromJson Ref.lib Example.visitor Example.mixedPlacesText).1
          Example.mixedPlacesText
        = rapidjson.fromJson Ref.lib Example.visitor Example.mixedPlacesText :=
  ⟨rfl, rfl, (fromJson_idempotent_C19 Ref.lib Example.visitor Example.mixedPlacesText).1,
    (fromJson_idempotent_C19 Ref.lib Example.visitor Example.mixedPlacesText).2⟩

/-! ## The two maps of the registry (C20) -/

theorem linked_empty : EnumSerializer.empty.Linked := by
  constructor <;> intro _ _ h <;> simp [EnumSerializer.empty, find] at h

/-- `registerValue` keeps the two maps referring to each other. -/
theorem linked_registerValue (inst : EnumSerializer) (name : String) (value : Int)
    (h : inst.Linked) : (inst.registerValue name value).Linked := by
  obtain ⟨h₁, h₂⟩ := h
  constructor
  · intro v n hv
    simp only [EnumSerializer.registerValue] at hv ⊢
    by_cases hn : n = name
    · subst hn
      simp [find_assign_self]
    · rw [find_assign_ne _ _ _ _ hn]
      by_cases hvv : v = value
      · subst hvv
        rw [find_assign_self] at hv
        exact absurd (Option.some.inj hv).symm hn
      · rw [find_assign_ne _ _ _ _ hvv] at hv
        exact h₁ v n hv
  · intro n v hn
    simp only [EnumSerializer.registerValue] at hn ⊢
    by_cases hvv : v = value
    · subst hvv
      simp [find_assign_self]
    · rw [find_assign_ne _ _ _ _ hvv]
      by_cases hnn : n = name
      · subst hnn
        rw [find_assign_self] at hn
        exact absurd (Option.some.inj hn).symm hvv
      · rw [find_assign_ne _ _ _ _ hnn] at hn
        exact h₂ n v hn

theorem linked_foldl (pairs : List (String × Int)) (init : EnumSerializer) (h : init.Linked) :
    (pairs.foldl (fun inst p => inst.registerValue p.1 p.2) init).Linked := by
  induction pairs generalizing init with
  | nil => exact h
  | cons p ps ih => exact ih _ (linked_registerValue init p.1 p.2 h)

/-- C20, as amended: the registry after any sequence of `registerValue` calls on the empty
registry.  Every name the reverse map stores is a key of the forward map, and the code of every
value the forward map stores is a key of the reverse map.  So in the nlohmann backend the name
the enum serializer writes for a value is found by the enum deserializer, which assigns the
value the forward map holds for it.  In the rapidjson backend this holds for a name without NUL
character: the serializer writes the name up to its first NUL. -/
theorem enum_registry_C20 (lib : TreeLib) (pairs : List (String × Int)) :
    (EnumSerializer.registerAll pairs).Linked ∧
      (∀ v name, find (EnumSerializer.registerAll pairs).enumToString v = some name →
        (∀ obj key, nlohmann.EnumSerializer.serialize (EnumSerializer.registerAll pairs) obj key v
          = nlohmann.set obj key (.string name)) ∧
        ∀ doc key w, nlohmann.index doc key = .ok (.string name) →
          ∃ v', find (EnumSerializer.registerAll pairs).stringToEnum name = some v' ∧
            nlohmann.EnumSerializer.deserialize lib (EnumSerializer.registerAll pairs) doc key w
              = (v', none)) ∧
      (∀ v name, find (EnumSerializer.registerAll pairs).enumToString v = some name →
        NulFree name →
        (∀ obj key, rapidjson.EnumSerializer.serialize (EnumSerializer.registerAll pairs) obj key v
          = rapidjson.AddMember obj key (.string name)) ∧
        ∀ doc key w, rapidjson.index doc key = .ok (.string name) →
          ∃ v', find (EnumSerializer.registerAll pairs).stringToEnum name = some v' ∧
            rapidjson.EnumSerializer.deserialize (EnumSerializer.registerAll pairs) doc key w
              = (v', none)) := by
  have hl : (EnumSerializer.registerAll pairs).Linked := linked_foldl pairs _ linked_empty
  refine ⟨hl, ?_, ?_⟩
  · intro v name hv
    refine ⟨fun obj key => by simp [nlohmann.EnumSerializer.serialize, hv], ?_⟩
    intro doc key w hd
    obtain ⟨v', hv'⟩ := Option.isSome_iff_exists.mp (hl.1 v name hv)
    exact ⟨v', hv', by simp [nlohmann_enum_deserialize_string lib _ doc key name w hd, hv']⟩
  · intro v name hv hnul
    have hnul' : c_str name = name := hnul
    refine ⟨fun obj key => by simp [rapidjson.EnumSerializer.serialize, hv, hnul'], ?_⟩
    intro doc key w hd
    obtain ⟨v', hv'⟩ := Option.isSome_iff_exists.mp (hl.1 v name hv)
    exact ⟨v', hv',
      by simp [rapidjson_enum_deserialize_string _ doc key name w hd, hnul', hv']⟩

/-- C20 at the registry after `registerValue("A", 0)` and `registerValue("A", 1)`: the name
written for the value 0 is found on the way back, and maps to the value 1. -/
theorem enum_registry_C20_witness :
    find (EnumSerializer.registerAll Example.sharedName).enumToString 0 = some "A" ∧
      ((∀ obj key, nlohmann.EnumSerializer.serialize
            (EnumSerializer.registerAll Example.sharedName) obj key 0
          = nlohmann.set obj key (.string "A")) ∧
        ∀ doc key w, nlohmann.index doc key = .ok (.string "A") →
          ∃ v', find (EnumSerializer.registerAll Example.sharedName).stringToEnum "A" = some v' ∧
            nlohmann.EnumSerializer.deserialize Ref.lib
              (EnumSerializer.registerAll Example.sharedName) doc key w = (v', none)) ∧
      ((∀ obj key, rapidjson.EnumSerializer.serialize
            (EnumSerializer.registerAll Example.sharedName) obj key 0
          = rapidjson.AddMember obj key (.string "A")) ∧
        ∀ doc key w, rapidjson.index doc key = .ok (.string "A") →
          ∃ v', find (EnumSerializer.registerAll Example.sharedName).stringToEnum "A" = some v' ∧
            rapidjson.EnumSerializer.deserialize
              (EnumSerializer.registerAll Example.sharedName) doc key w = (v', none)) ∧
      nlohmann.EnumSerializer.deserialize Ref.lib (EnumSerializer.registerAll Example.sharedName)
          (.object [("color", .string "A")]) "color" 0 = (1, none) ∧
      rapidjson.EnumSerializer.deserialize (EnumSerializer.registerAll Example.sharedName)
          (.object [("color", .string "A")]) "color" 0 = (1, none) :=
  ⟨rfl,
    (enum_registry_C20 Ref.lib Example.sharedName).2.1 0 "A" rfl,
    (enum_registry_C20 Ref.lib Example.sharedName).2.2 0 "A" rfl (by decide),
    rfl, rfl⟩

/-- C20 fails as stated in the rapidjson backend: after `registerValue` of the name `A`, NUL,
`B` for the value 0, the serializer writes for 0 the string `A`, which is no key of the forward
map: the deserializer misses it and leaves the member as it was. -/
theorem enum_registry_C20_counterexample :
    find (EnumSerializer.registerAll Example.nulName).enumToString 0 = some "A\x00B" ∧
      rapidjson.EnumSerializer.serialize (EnumSerializer.registerAll Example.nulName)
          (.object []) "color" 0 = .ok (.object [("color", .string "A")]) ∧
      find (EnumSerializer.registerAll Example.nulName).stringToEnum "A" = none ∧
      rapidjson.EnumSerializer.deserialize (EnumSerializer.registerAll Example.nulName)
          (.object [("color", .string "A")]) "color" 7 = (7, none) :=
  ⟨rfl, rfl, rfl, rfl⟩

/-! ## A nested object is replaced (C21) -/

theorem reparse_kind (x : Json) : (reparse x).kind = x.kind := by
  cases x <;> simp [reparse, Json.kind]
  case number_integer i => by_cases h : 0 ≤ i <;> simp [h, Json.kind]

/-- A deserializer of the nlohmann backend leaves its member alone, and does not throw, on a
node of a kind it does not read. -/
theorem nlohmann_deserialize_rejects (lib : TreeLib) (f : Field) (doc : Json) (key : String)
    (node : Json) (hn : nlohmann.index doc key = .ok node) (hk : f.accepts node.kind = false) :
    nlohmann.deserialize lib f doc key = (f, none) := by
  have hc := nlohmann_contains_of_index doc key _ hn
  cases f <;> cases node <;>
    simp [Field.accepts, Json.kind] at hk <;>
    simp [nlohmann.deserialize, nlohmann.EnumSerializer.deserialize,
      nlohmann_assignIf_found doc key _ _ _ _ hn, hc, hn, nlohmann.is_string,
      nlohmann.is_number_integer, nlohmann.is_number, nlohmann.is_boolean,
      nlohmann.is_number_unsigned, nlohmann.is_object]

/-- A deserializer of the rapidjson backend leaves its member alone, and fails no assertion, on
a node of a kind it does not read. -/
theorem rapidjson_deserialize_rejects (lib : TreeLib) (f : Field) (doc : Json) (key : String)
    (node : Json) (hn : rapidjson.index doc key = .ok node) (hk : f.accepts node.kind = false) :
    rapidjson.deserialize lib f doc key = (f, none) := by
  have hc := rapidjson_hasMember_of_index doc key _ hn
  cases f <;> cases node <;>
    simp [Field.accepts, Json.kind] at hk <;>
    simp [rapidjson.deserialize, rapidjson.EnumSerializer.deserialize,
      rapidjson_assignIf_found doc key _ _ _ _ hn, hc, hn, rapidjson.IsString,
      rapidjson.IsInt, rapidjson.IsDouble, rapidjson.IsBool, rapidjson.IsUint,
      rapidjson.IsUint64, rapidjson.IsNumber, rapidjson.IsObject]

/-- The deserializer of the nlohmann backend leaves a member alone on the tree read back from
the text of an object node, when the node does not hold the key, or holds under it a node of a
kind the deserializer does not read. -/
theorem nlohmann_deserialize_untouched (lib : TreeLib) (g : Field) (node : Json) (k : String)
    (hnode : node.kind = .object)
    (h : find node.members k = none ∨
      ∃ x, find node.members k = some x ∧ g.accepts x.kind = false) :
    nlohmann.deserialize lib g (reparse node) k = (g, none) := by
  cases node <;> simp [Json.kind] at hnode
  case object m =>
    simp only [Json.members] at h
    rcases h with hc | ⟨x, hfind, hne⟩
    · apply nlohmann_deserialize_absent
      simp [reparse, nlohmann.contains, find_reparseMembers, hc]
    · have hidx : nlohmann.index (reparse (.object m)) k = .ok (reparse x) := by
        simp [reparse, nlohmann.index, find_reparseMembers, hfind]
      exact nlohmann_deserialize_rejects lib g _ k (reparse x) hidx
        (by rw [reparse_kind]; exact hne)

/-- The same for the rapidjson backend, which looks the key up as a C string. -/
theorem rapidjson_deserialize_untouched (lib : TreeLib) (g : Field) (node : Json) (k : String)
    (hnode : node.kind = .object)
    (h : find node.members (c_str k) = none ∨
      ∃ x, find node.members (c_str k) = some x ∧ g.accepts x.kind = false) :
    rapidjson.deserialize lib g (reparse node) k = (g, none) := by
  cases node <;> simp [Json.kind] at hnode
  case object m =>
    simp only [Json.members] at h
    rcases h with hc | ⟨x, hfind, hne⟩
    · apply rapidjson_deserialize_absent
      simp [reparse, rapidjson.HasMember, find_reparseMembers, hc]
    · have hidx : rapidjson.index (reparse (.object m)) k = .ok (reparse x) := by
        simp [reparse, rapidjson.index, find_reparseMembers, hfind]
      exact rapidjson_deserialize_rejects lib g _ k (reparse x) hidx
        (by rw [reparse_kind]; exact hne)

/-- The flag of `fromJson` is true exactly when the loop over the deserializers completes. -/
theorem runAll_returns_iff (d : Field → Json → String → Field × Option Fault)
    (ps : List (String × Field)) (doc : Json) :
    (runAll d ps doc).2 = none ↔ ∀ p ∈ ps, (d p.2 doc p.1).2 = none :=
  ⟨runAll_of_complete d ps doc, fun h => by rw [runAll_complete d ps doc h]⟩

/-- C21, as amended: the binding of a nested object of the class of `fresh`, holding `v`, when
the tree holds under its key a node of object kind whose text the library reads back.  The
rapidjson backend is handed every key as a C string: there a node is under a key when it is the
first member whose name is the key up to its first NUL character (`key.c_str()`), and a key is
absent when there is no such member.  Whenever `fromJsonStatic` of the text of the node returns
an object, the deserializer stores that object, and in it every member, of whatever type, whose
own key the node does not hold, or holds with a node of a kind the deserializer of the member
does not read, is the one of `fresh`, whatever `v` held.  `fromJsonStatic` returns an object
exactly when no deserializer of the nested class fails on the node: so it does when every
member is such a member or a scalar or, in the nlohmann backend, an enum.  A member of the
enclosing object keeps its value when its key is absent. -/
theorem nested_replace_C21 (lib : TreeLib) (fresh v : JSONSerializable) (key : String)
    (doc node : Json) (hkind : node.kind = .object) :
    (nlohmann.index doc key = .ok node → lib.parse (lib.dump node) = some (reparse node) →
        (∀ o', nlohmann.fromJsonStatic lib fresh (lib.dump node) = .ok o' →
          nlohmann.deserialize lib (.nestedObject fresh v) doc key
              = (.nestedObject fresh o', none) ∧
            ∀ (j : Nat) (k : String) (g : Field), fresh.properties[j]? = some (k, g) →
              (find node.members k = none ∨
                ∃ x, find node.members k = some x ∧ g.accepts x.kind = false) →
              o'.properties[j]? = some (k, g)) ∧
        ((∃ o', nlohmann.fromJsonStatic lib fresh (lib.dump node) = .ok o') ↔
          ∀ p ∈ fresh.properties, (nlohmann.deserialize lib p.2 (reparse node) p.1).2 = none) ∧
        ((∀ p ∈ fresh.properties, p.2.expectedKind.isSome ∨ p.2.codec = .enum ∨
            find node.members p.1 = none ∨
            ∃ x, find node.members p.1 = some x ∧ p.2.accepts x.kind = false) →
          ∃ o', nlohmann.fromJsonStatic lib fresh (lib.dump node) = .ok o')) ∧
      ((∃ m, doc = .object m ∧ find m (c_str key) = some node) →
        lib.parse (c_str (lib.dump node)) = some (reparse node) →
        (∀ o', rapidjson.fromJsonStatic lib fresh (c_str (lib.dump node)) = .ok o' →
          rapidjson.deserialize lib (.nestedObject fresh v) doc key
              = (.nestedObject fresh o', none) ∧
            ∀ (j : Nat) (k : String) (g : Field), fresh.properties[j]? = some (k, g) →
              (find node.members (c_str k) = none ∨
                ∃ x, find node.members (c_str k) = some x ∧ g.accepts x.kind = false) →
              o'.properties[j]? = some (k, g)) ∧
        ((∃ o', rapidjson.fromJsonStatic lib fresh (c_str (lib.dump node)) = .ok o') ↔
          ∀ p ∈ fresh.properties, (rapidjson.deserialize lib p.2 (reparse node) p.1).2 = none) ∧
        ((∀ p ∈ fresh.properties, p.2.expectedKind.isSome ∨
            find node.members (c_str p.1) = none ∨
            ∃ x, find node.members (c_str p.1) = some x ∧ p.2.accepts x.kind = false) →
          ∃ o', rapidjson.fromJsonStatic lib fresh (c_str (lib.dump node)) = .ok o')) ∧
      (∀ f k, nlohmann.contains doc k = false →
        nlohmann.deserialize lib f doc k = (f, none)) ∧
      (∀ f k m, doc = .object m → find m (c_str k) = none →
        rapidjson.deserialize lib f doc k = (f, none)) := by
  have hret : ∀ (d : Field → Json → String → Field × Option Fault),
      (∃ o', returnObj (JSONSerializable.mk (runAll d fresh.properties (reparse node)).1,
          match (runAll d fresh.properties (reparse node)).2 with
          | none => (.ok true : Except Fault Bool)
          | some e => .error e) = .ok o') ↔
        ∀ p ∈ fresh.properties, (d p.2 (reparse node) p.1).2 = none := by
    intro d
    rw [← runAll_returns_iff]
    cases hr : (runAll d fresh.properties (reparse node)).2 with
    | none => simp [returnObj]
    | some e => simp [returnObj]
  have hframe : ∀ (d : Field → Json → String → Field × Option Fault) (o' : JSONSerializable)
      (j : Nat) (k : String) (g : Field),
      returnObj (JSONSerializable.mk (runAll d fresh.properties (reparse node)).1,
          match (runAll d fresh.properties (reparse node)).2 with
          | none => (.ok true : Except Fault Bool)
          | some e => .error e) = .ok o' →
      fresh.properties[j]? = some (k, g) → d g (reparse node) k = (g, none) →
      o'.properties[j]? = some (k, g) := by
    intro d o' j k g ho' hj hd
    have hf := runAll_frame d fresh.properties (reparse node) j (k, g) hj (by simp [hd])
    cases hr : (runAll d fresh.properties (reparse node)).2 with
    | some e => simp [hr, returnObj] at ho'
    | none =>
      simp only [hr, returnObj, Except.ok.injEq] at ho'
      subst ho'
      exact hf
  refine ⟨?_, ?_, fun f k h => nlohmann_deserialize_absent lib f doc k h, ?_⟩
  · intro hn hreads
    have hobj : nlohmann.is_object node = true := by
      cases node <;> simp [Json.kind] at hkind
      rfl
    have hstat : nlohmann.fromJsonStatic lib fresh (lib.dump node)
        = returnObj (JSONSerializable.mk
            (runAll (nlohmann.deserialize lib) fresh.properties (reparse node)).1,
          match (runAll (nlohmann.deserialize lib) fresh.properties (reparse node)).2 with
          | none => (.ok true : Except Fault Bool)
          | some e => .error e) := by
      rw [nlohmann.fromJsonStatic, nlohmann_fromJson_parsed lib fresh _ _ hreads]
    refine ⟨?_, ?_, ?_⟩
    · intro o' ho'
      have hret' : returnObj (nlohmann.fromJson lib fresh (lib.dump node)) = .ok o' := ho'
      refine ⟨by simp [nlohmann.deserialize, nlohmann_contains_of_index doc key _ hn, hn, hobj,
        hret'], ?_⟩
      intro j k g hj hskip
      rw [hstat] at ho'
      exact hframe _ o' j k g ho' hj (nlohmann_deserialize_untouched lib g node k hkind hskip)
    · rw [hstat]
      exact hret _
    · intro hall
      rw [hstat]
      refine (hret _).2 (fun p hp => ?_)
      rcases hall p hp with h | h | h
      · exact nlohmann_deserialize_flat_no_fault lib p.2 _ p.1 (Or.inl h)
      · exact nlohmann_deserialize_flat_no_fault lib p.2 _ p.1 (Or.inr h)
      · rw [nlohmann_deserialize_untouched lib p.2 node p.1 hkind h]
  · rintro ⟨m, rfl, hfind⟩ hreads
    have hn : rapidjson.index (.object m) key = .ok node := rapidjson_index_object m key _ hfind
    have hobj : rapidjson.IsObject node = true := by
      cases node <;> simp [Json.kind] at hkind
      rfl
    have hreads' : lib.parse (c_str (c_str (lib.dump node))) = some (reparse node) := by
      rw [c_str_idem]
      exact hreads
    have hstat : rapidjson.fromJsonStatic lib fresh (c_str (lib.dump node))
        = returnObj (JSONSerializable.mk
            (runAll (rapidjson.deserialize lib) fresh.properties (reparse node)).1,
          match (runAll (rapidjson.deserialize lib) fresh.properties (reparse node)).2 with
          | none => (.ok true : Except Fault Bool)
          | some e => .error e) := by
      rw [rapidjson.fromJsonStatic, rapidjson_fromJson_parsed lib fresh _ _ hreads']
    obtain ⟨ms, hms⟩ : ∃ ms, reparse node = .object ms := by
      cases node <;> simp [Json.kind] at hkind
      exact ⟨_, rfl⟩
    refine ⟨?_, ?_, ?_⟩
    · intro o' ho'
      have hret' : returnObj (rapidjson.fromJson lib fresh (c_str (lib.dump node))) = .ok o' :=
        ho'
      refine ⟨by simp [rapidjson.deserialize, rapidjson_hasMember_of_index _ key _ hn, hn,
        hobj, hret'], ?_⟩
      intro j k g hj hskip
      rw [hstat] at ho'
      exact hframe _ o' j k g ho' hj (rapidjson_deserialize_untouched lib g node k hkind hskip)
    · rw [hstat]
      exact hret _
    · intro hall
      rw [hstat]
      refine (hret _).2 (fun p hp => ?_)
      rcases hall p hp with h | h
      · rw [hms]
        exact rapidjson_deserialize_scalar_no_fault lib p.2 ms p.1 h
      · rw [rapidjson_deserialize_untouched lib p.2 node p.1 hkind h]
  · intro f k m hm hfind
    subst hm
    exact rapidjson_deserialize_absent lib f _ k (by simp [rapidjson.HasMember, hfind])
/-- C21 at an object holding 30 under `"age"` and, under `"home"`, a nested object holding Oslo
and the zip 7.  From `{"home":{"city":"Rome"}}` the nested object ends with the city read and
the zip 0 of the default-constructed object, not 7, while `age`, whose key is absent too, stays
30; from `{"home":{"city":"Rome","zip":"x"}}`, where the zip is a string, the same.  And at a
nested object with a string, an enum, a nested object and a nested array: from
`{"host":{"name":"Bob","home":5}}` the name is read and the enum, whose key is absent, the
nested object, whose node is a number, and the nested array, whose key is absent, are those of
the default-constructed object. -/
theorem nested_replace_C21_witness :
    Ref.lib.parse Example.homeText
        = some (.object [("home", .object [("city", .string "Rome")])]) ∧
      Example.lodgingFresh.properties[1]? = some ("zip", .int 0) ∧
      Example.lodging.properties[1]? = some ("zip", .int 7) ∧
      nlohmann.deserialize Ref.lib (.nestedObject Example.lodgingFresh Example.lodging)
          (.object [("home", .object [("city", .string "Rome")])]) "home"
        = (.nestedObject Example.lodgingFresh
            (.mk [("city", .string "Rome"), ("zip", .int 0)]), none) ∧
      (JSONSerializable.mk [("city", .string "Rome"), ("zip", .int 0)]).properties[1]?
        = some ("zip", .int 0) ∧
      rapidjson.deserialize Ref.lib (.nestedObject Example.lodgingFresh Example.lodging)
          (.object [("home", .object [("city", .string "Rome")])]) "home"
        = (.nestedObject Example.lodgingFresh
            (.mk [("city", .string "Rome"), ("zip", .int 0)]), none) ∧
      nlohmann.fromJson Ref.lib Example.guest Example.homeText
        = (.mk [("home", .nestedObject Example.lodgingFresh
            (.mk [("city", .string "Rome"), ("zip", .int 0)])), ("age", .int 30)], .ok true) ∧
      rapidjson.fromJson Ref.lib Example.guest Example.homeText
        = (.mk [("home", .nestedObject Example.lodgingFresh
            (.mk [("city", .string "Rome"), ("zip", .int 0)])), ("age", .int 30)], .ok true) ∧
      Ref.lib.parse Example.homeZipIsText
        = some (.object [("home", .object [("city", .string "Rome"), ("zip", .string "x")])]) ∧
      (JSONSerializable.mk [("city", .string "Rome"), ("zip", .int 0)]).properties[1]?
        = some ("zip", .int 0) ∧
      nlohmann.fromJson Ref.lib Example.guest Example.homeZipIsText
        = (.mk [("home", .nestedObject Example.lodgingFresh
            (.mk [("city", .string "Rome"), ("zip", .int 0)])), ("age", .int 30)], .ok true) ∧
      rapidjson.fromJson Ref.lib Example.guest Example.homeZipIsText
        = (.mk [("home", .nestedObject Example.lodgingFresh
            (.mk [("city", .string "Rome"), ("zip", .int 0)])), ("age", .int 30)], .ok true) ∧
      Ref.lib.parse Example.hostText
        = some (.object [("host", .object [("name", .string "Bob"),
            ("home", .number_unsigned 5)])]) ∧
      (∃ o', nlohmann.fromJsonStatic Ref.lib Example.hostFresh
        (Ref.lib.dump (.object [("name", .string "Bob"), ("home", .number_unsigned 5)]))
          = .ok o') ∧
      (∃ o', rapidjson.fromJsonStatic Ref.lib Example.hostFresh
        (c_str (Ref.lib.dump (.object [("name", .string "Bob"), ("home", .number_unsigned 5)])))
          = .ok o') ∧
      nlohmann.fromJson Ref.lib Example.party Example.hostText
        = (.mk [("host", .nestedObject Example.hostFresh
            (.mk [("name", .string "Bob"), ("color", .enum Example.colors 0),
              ("home", .nestedObject Example.address Example.address),
              ("places", .nestedArray Example.address [])]))], .ok true) ∧
      (JSONSerializable.mk [("name", .string "Bob"), ("color", .enum Example.colors 0),
          ("home", .nestedObject Example.address Example.address),
          ("places", .nestedArray Example.address [])]).properties[2]?
        = some ("home", .nestedObject Example.address Example.address) ∧
      (JSONSerializable.mk [("name", .string "Bob"), ("color", .enum Example.colors 0),
          ("home", .nestedObject Example.address Example.address),
          ("places", .nestedArray Example.address [])]).properties[3]?
        = some ("places", .nestedArray Example.address []) ∧
      rapidjson.fromJson Ref.lib Example.party Example.hostText
        = (.mk [("host", .nestedObject Example.hostFresh
            (.mk [("name", .string "Bob"), ("color", .enum Example.colors 0),
              ("home", .nestedObject Example.address Example.address),
              ("places", .nestedArray Example.address [])]))], .ok true) :=
  have hmem : ∀ p ∈ Example.hostFresh.properties,
      p = ("name", .string "") ∨ p = ("color", .enum Example.colors 0) ∨
        p = ("home", .nestedObject Example.address Example.address) ∨
        p = ("places", .nestedArray Example.address []) := by
    intro p hp
    simpa [Example.hostFresh, JSONSerializable.registerProperty, JSONSerializable.properties]
      using hp
  have hhost := nested_replace_C21 Ref.lib Example.hostFresh Example.host "host"
    (.object [("host", .object [("name", .string "Bob"), ("home", .number_unsigned 5)])])
    (.object [("name", .string "Bob"), ("home", .number_unsigned 5)]) rfl
  ⟨rfl, rfl, rfl,
    (((nested_replace_C21 Ref.lib Example.lodgingFresh Example.lodging "home"
      (.object [("home", .object [("city", .string "Rome")])])
      (.object [("city", .string "Rome")]) rfl).1 rfl rfl).1
      (.mk [("city", .string "Rome"), ("zip", .int 0)]) rfl).1,
    (((nested_replace_C21 Ref.lib Example.lodgingFresh Example.lodging "home"
      (.object [("home", .object [("city", .string "Rome")])])
      (.object [("city", .string "Rome")]) rfl).1 rfl rfl).1
      (.mk [("city", .string "Rome"), ("zip", .int 0)]) rfl).2 1 "zip" (.int 0) rfl (Or.inl rfl),
    (((nested_replace_C21 Ref.lib Example.lodgingFresh Example.lodging "home"
      (.object [("home", .object [("city", .string "Rome")])])
      (.object [("city", .string "Rome")]) rfl).2.1 ⟨_, rfl, rfl⟩ rfl).1
      (.mk [("city", .string "Rome"), ("zip", .int 0)]) rfl).1,
    rfl, rfl, rfl,
    (((nested_replace_C21 Ref.lib Example.lodgingFresh Example.lodging "home"
      (.object [("home", .object [("city", .string "Rome"), ("zip", .string "x")])])
      (.object [("city", .string "Rome"), ("zip", .string "x")]) rfl).1 rfl rfl).1
      (.mk [("city", .string "Rome"), ("zip", .int 0)]) rfl).2 1 "zip" (.int 0) rfl
      (Or.inr ⟨.string "x", rfl, rfl⟩),
    rfl, rfl, rfl,
    (hhost.1 rfl rfl).2.2 (fun p hp => by
      rcases hmem p hp with rfl | rfl | rfl | rfl
      · exact Or.inl rfl
      · exact Or.inr (Or.inl rfl)
      · exact Or.inr (Or.inr (Or.inr ⟨.number_unsigned 5, rfl, rfl⟩))
      · exact Or.inr (Or.inr (Or.inl rfl))),
    (hhost.2.1 ⟨_, rfl, rfl⟩ rfl).2.2 (fun p hp => by
      rcases hmem p hp with rfl | rfl | rfl | rfl
      · exact Or.inl rfl
      · exact Or.inr (Or.inl rfl)
      · exact Or.inr (Or.inr ⟨.number_unsigned 5, rfl, rfl⟩)
      · exact Or.inr (Or.inl rfl)),
    rfl,
    ((hhost.1 rfl rfl).1
      (.mk [("name", .string "Bob"), ("color", .enum Example.colors 0),
        ("home", .nestedObject Example.address Example.address),
        ("places", .nestedArray Example.address [])]) rfl).2 2 "home"
      (.nestedObject Example.address Example.address) rfl
      (Or.inr ⟨.number_unsigned 5, rfl, rfl⟩),
    ((hhost.2.1 ⟨_, rfl, rfl⟩ rfl).1
      (.mk [("name", .string "Bob"), ("color", .enum Example.colors 0),
        ("home", .nestedObject Example.address Example.address),
        ("places", .nestedArray Example.address [])]) rfl).2 3 "places"
      (.nestedArray Example.address []) rfl (Or.inl rfl),
    rfl⟩

/-- C21 fails as stated in the rapidjson backend, for a nested class whose `int` member is
registered under the key `zip`, NUL, `x`.  The node of `{"home":{"zip":9}}` does not hold that
key, and the member of the nested object ends at 9, read from the member `zip`, not at the 0 of
the default-constructed object.  In the nlohmann backend it ends at 0. -/
theorem nested_replace_C21_counterexample :
    Example.lodgingNulFresh.properties[1]? = some ("zip\x00x", .int 0) ∧
      Ref.lib.parse Example.homeZipText
        = some (.object [("home", .object [("zip", .number_unsigned 9)])]) ∧
      find [("zip", Json.number_unsigned 9)] "zip\x00x" = none ∧
      rapidjson.deserialize Ref.lib (.nestedObject Example.lodgingNulFresh Example.lodgingNul)
          (.object [("home", .object [("zip", .number_unsigned 9)])]) "home"
        = (.nestedObject Example.lodgingNulFresh
            (.mk [("city", .string ""), ("zip\x00x", .int 9)]), none) ∧
      nlohmann.deserialize Ref.lib (.nestedObject Example.lodgingNulFresh Example.lodgingNul)
          (.object [("home", .object [("zip", .number_unsigned 9)])]) "home"
        = (.nestedObject Example.lodgingNulFresh
            (.mk [("city", .string ""), ("zip\x00x", .int 0)]), none) :=
  ⟨rfl, rfl, rfl, rfl, rfl⟩

/-! ## Two bindings under one key (C22) -/

theorem mem_of_find {κ ν : Type} [DecidableEq κ] (l : List (κ × ν)) (k : κ) (v : ν)
    (h : find l k = some v) : (k, v) ∈ l := by
  induction l with
  | nil => simp [find] at h
  | cons p l ih =>
    obtain ⟨k', v'⟩ := p
    by_cases hk : k' = k
    · subst hk
      simp only [find, if_true, Option.some.injEq] at h
      subst h
      exact List.mem_cons_self _ _
    · simp only [find, hk, if_false] at h
      exact List.mem_cons_of_mem _ (ih h)

theorem find_map_snd {κ ν μ : Type} [DecidableEq κ] (l : List (κ × ν)) (h : ν → μ) (k : κ) :
    find (l.map (fun p => (p.1, h p.2))) k = (find l k).map h := by
  induction l with
  | nil => rfl
  | cons p l ih =>
    obtain ⟨k', v'⟩ := p
    by_cases hk : k' = k <;> simp [find, hk, ih]

/-- Whether a member is scalar depends on its codec only. -/
theorem expectedKind_of_codec (f g : Field) (hc : g.codec = f.codec)
    (hf : f.expectedKind.isSome) : g.expectedKind.isSome := by
  cases f <;> simp [Field.expectedKind] at hf <;>
    cases g <;> simp [Field.codec] at hc <;> rfl

/-- Two objects of one class hold at each position bindings with the same key and codec. -/
theorem class_get (ps qs : List (String × Field))
    (hclass : qs.map (fun p => (p.1, p.2.codec)) = ps.map (fun p => (p.1, p.2.codec)))
    (i : Nat) (p : String × Field) (hp : ps[i]? = some p) :
    ∃ q, qs[i]? = some q ∧ q.1 = p.1 ∧ q.2.codec = p.2.codec := by
  have h : (qs.map (fun p => (p.1, p.2.codec)))[i]? = some (p.1, p.2.codec) := by
    rw [hclass, List.getElem?_map, hp]
    rfl
  rw [List.getElem?_map] at h
  cases hq : qs[i]? with
  | none => simp [hq] at h
  | some q =>
    simp only [hq, Option.map_some', Option.some.injEq, Prod.mk.injEq] at h
    exact ⟨q, rfl, h.1, h.2⟩

/-- A scalar member in the range of its type, whose strings the backend carries in full, is read
back into any member of the same codec. -/
theorem roundTripsField_of_scalar (b : Backend) (f g : Field) (hs : f.expectedKind.isSome)
    (hc : g.codec = f.codec) (hr : f.inRange = true) (ht : ∀ s, f = .string s → b.text s) :
    RoundTripsField b f g := by
  cases f <;> simp [Field.expectedKind] at hs <;>
    cases g <;> simp [Field.codec] at hc <;>
    simp [RoundTripsField, Field.inRange] at hr ⊢
  · exact ht _ rfl
  · exact hr
  · exact hr
  · exact hr

theorem nlohmann_nodeOf_scalar (lib : TreeLib) (f : Field) (hs : f.expectedKind.isSome) :
    nlohmann.nodeOf lib f = f.scalarNode ∧
      ∀ obj key, nlohmann.serialize lib f obj key = nlohmann.set obj key f.scalarNode := by
  cases f <;> simp [Field.expectedKind] at hs <;>
    exact ⟨rfl, fun _ _ => rfl⟩

theorem rapidjson_nodeOf_scalar (lib : TreeLib) (f : Field) (hs : f.expectedKind.isSome) :
    rapidjson.nodeOf lib f = f.cNode ∧
      ∀ m key, rapidjson.serialize lib f (.object m) key
        = .ok (.object (m ++ [(c_str key, f.cNode)])) := by
  cases f <;> simp [Field.expectedKind] at hs <;>
    exact ⟨rfl, fun _ _ => rfl⟩

/-- The loop of the nlohmann `toJson` over scalar bindings: under each key the tree holds the
node of the binding registered last under it. -/
theorem nlohmann_runSerializers_last (lib : TreeLib) (ps : List (String × Field)) (obj : Json)
    (hobj : IsTree obj) (hscalar : ∀ p ∈ ps, p.2.expectedKind.isSome) :
    ∃ t, nlohmann.runSerializers lib ps obj = .ok t ∧ IsTree t ∧
      (∀ k f, find ps.reverse k = some f → find t.members k = some f.scalarNode) ∧
      (∀ k, find ps.reverse k = none → find t.members k = find obj.members k) := by
  induction ps generalizing obj with
  | nil => exact ⟨obj, by simp [nlohmann.runSerializers], hobj, by simp [find], fun _ _ => rfl⟩
  | cons p ps ih =>
    obtain ⟨key, f⟩ := p
    have hf := hscalar (key, f) (List.mem_cons_self _ _)
    obtain ⟨m', hset, hfind, hother⟩ := nlohmann_set_spec obj key f.scalarNode hobj
    obtain ⟨t, hrun, htree, hsome, hnone⟩ :=
      ih (.object m') (Or.inr ⟨m', rfl⟩) (fun q hq => hscalar q (List.mem_cons_of_mem _ hq))
    refine ⟨t, ?_, htree, ?_, ?_⟩
    · simp only [nlohmann.runSerializers, (nlohmann_nodeOf_scalar lib f hf).2, hset]
      exact hrun
    · intro k f' hk
      simp only [List.reverse_cons] at hk
      cases hr : find ps.reverse k with
      | some f'' =>
        rw [find_append_of_some _ _ _ _ hr] at hk
        simp only [Option.some.injEq] at hk
        subst hk
        exact hsome k _ hr
      | none =>
        rw [find_append_of_none _ _ _ hr] at hk
        by_cases hkk : key = k
        · subst hkk
          simp only [find, if_true, Option.some.injEq] at hk
          subst hk
          rw [hnone key hr]
          exact hfind
        · simp [find, hkk] at hk
    · intro k hk
      simp only [List.reverse_cons] at hk
      cases hr : find ps.reverse k with
      | some f'' => rw [find_append_of_some _ _ _ _ hr] at hk; cases hk
      | none =>
        rw [find_append_of_none _ _ _ hr] at hk
        by_cases hkk : key = k
        · simp [find, hkk] at hk
        · rw [hnone k hr]
          exact hother k (Ne.symm hkk)

/-- The loop of the rapidjson `toJson` over scalar bindings: one member per binding, in order,
named by the key as a C string. -/
theorem rapidjson_runSerializers_scalar (lib : TreeLib) (ps : List (String × Field))
    (m : List (String × Json)) (hscalar : ∀ p ∈ ps, p.2.expectedKind.isSome) :
    rapidjson.runSerializers lib ps (.object m)
      = .ok (.object (m ++ ps.map (fun p => (c_str p.1, p.2.cNode)))) := by
  induction ps generalizing m with
  | nil => simp [rapidjson.runSerializers]
  | cons p ps ih =>
    obtain ⟨key, f⟩ := p
    have hf := hscalar (key, f) (List.mem_cons_self _ _)
    simp only [rapidjson.runSerializers, (rapidjson_nodeOf_scalar lib f hf).2]
    rw [ih _ (fun q hq => hscalar q (List.mem_cons_of_mem _ hq))]
    simp

/-- The values of an object are those of its bindings, in order. -/
theorem fieldValues_eq_map (ps : List (String × Field)) :
    fieldValues ps = ps.map (fun p => p.2.value) := by
  induction ps with
  | nil => simp [fieldValues]
  | cons p ps ih =>
    obtain ⟨k, f⟩ := p
    simp [fieldValues, ih]

/-- The value at a position is the value of the binding at that position. -/
theorem values_getElem (o : JSONSerializable) (i : Nat) :
    o.values[i]? = o.properties[i]?.map (fun p => p.2.value) := by
  cases o with
  | mk ps => simp [JSONSerializable.values, JSONSerializable.properties, fieldValues_eq_map]

/-- C22, as amended: an object `x` of scalar bindings that refer to its own members
(`Instance.ReadsOwnFields`), several of which may be registered under `key`, with `fresh` the
default-constructed object of its class, every number in the range of its type and the library
reading the printed tree back.  In the nlohmann backend, after `fromJsonStatic` of the text of
`toJson`, every member registered under `key` that has the type of the member registered last
under `key`, of whatever type that one is, holds the value the latter holds in `x`.  In the
rapidjson backend every member registered under `key` that has the type of the member
registered first under a key equal to `key` up to the first NUL character holds the value the
latter holds in `x`, provided that value is no string with a NUL character.  So when the members
under the key are all of one type they end with one value. -/
theorem duplicate_keys_C22 (lib : TreeLib) (x : Instance) (fresh : JSONSerializable)
    (key : String) (hown : x.ReadsOwnFields)
    (hscalar : ∀ p ∈ x.bindings.properties, p.2.expectedKind.isSome)
    (hclass : fresh.properties.map (fun p => (p.1, p.2.codec))
      = x.bindings.properties.map (fun p => (p.1, p.2.codec)))
    (hrange : ∀ p ∈ x.bindings.properties, p.2.inRange = true) :
    (∀ last, find x.bindings.properties.reverse key = some last →
        (∀ t, nlohmann.toJsonTree lib x.bindings = .ok t →
          lib.parse (lib.dump t) = some (reparse t)) →
        ∃ text o', nlohmann.Instance.toJson lib x = .ok text ∧
          nlohmann.fromJsonStatic lib fresh text = .ok o' ∧
          (∃ j : Nat, x.bindings.properties[j]? = some (key, last) ∧
            x.fields[j]? = some last.value) ∧
          ∀ (i : Nat) (g : Field), x.bindings.properties[i]? = some (key, g) →
            g.codec = last.codec →
            o'.properties[i]? = some (key, last) ∧ o'.values[i]? = some last.value) ∧
      (∀ first,
        find (x.bindings.properties.map (fun p => (c_str p.1, p.2))) (c_str key) = some first →
        (∀ s, first = .string s → NulFree s) →
        (∀ t, rapidjson.toJsonTree lib x.bindings = .ok t →
          lib.parse (c_str (lib.dump t)) = some (reparse t)) →
        ∃ text o', rapidjson.Instance.toJson lib x = .ok text ∧
          rapidjson.fromJsonStatic lib fresh text = .ok o' ∧
          (∃ (j : Nat) (k : String), x.bindings.properties[j]? = some (k, first) ∧ c_str k = c_str key ∧
            x.fields[j]? = some first.value) ∧
          ∀ (i : Nat) (g : Field), x.bindings.properties[i]? = some (key, g) →
            g.codec = first.codec →
            o'.properties[i]? = some (key, first) ∧ o'.values[i]? = some first.value) := by
  obtain ⟨fields, o⟩ := x
  simp only [Instance.ReadsOwnFields] at hown
  simp only [nlohmann.Instance.toJson, rapidjson.Instance.toJson] at *
  subst hown
  cases o with
  | mk ps =>
  simp only [JSONSerializable.properties] at hscalar hrange
  have hclass' : fresh.properties.map (fun p => (p.1, p.2.codec))
      = ps.map (fun p => (p.1, p.2.codec)) := hclass
  have hfresh : ∀ q ∈ fresh.properties, q.2.expectedKind.isSome := by
    intro q hq
    obtain ⟨i, hi⟩ := List.mem_iff_getElem?.mp hq
    obtain ⟨p, hp, _, hc⟩ := class_get fresh.properties ps hclass'.symm i q hi
    exact expectedKind_of_codec p.2 q.2 hc.symm (hscalar p (List.getElem?_mem hp))
  constructor
  · intro last hlast hreads
    have hlast' : find ps.reverse key = some last := hlast
    have hmem : (key, last) ∈ ps := List.mem_reverse.mp (mem_of_find _ _ _ hlast')
    obtain ⟨t, hrun, htree, hsome, _⟩ :=
      nlohmann_runSerializers_last lib ps .null (Or.inl rfl) hscalar
    have ht : nlohmann.toJsonTree lib (.mk ps) = .ok t := by
      simpa [nlohmann.toJsonTree] using hrun
    have hidx : nlohmann.index (reparse t) key = .ok (reparse (nlohmann.nodeOf lib last)) := by
      rw [(nlohmann_nodeOf_scalar lib last (hscalar _ hmem)).1]
      exact index_reparse_of_find t key _ htree (hsome key last hlast')
    refine ⟨lib.dump t,
      .mk (fresh.properties.map
        (fun q => (q.1, (nlohmann.deserialize lib q.2 (reparse t) q.1).1))),
      by simp [nlohmann.toJson, ht], ?_, ?_, ?_⟩
    · rw [nlohmann.fromJsonStatic, nlohmann_fromJson_parsed lib fresh _ _ (hreads t ht),
        runAll_complete _ _ _
          (fun q hq => nlohmann_deserialize_scalar_no_fault lib q.2 _ q.1 (hfresh q hq))]
      rfl
    · obtain ⟨j, hj⟩ := List.mem_iff_getElem?.mp hmem
      exact ⟨j, hj, by simp [values_getElem, JSONSerializable.properties, hj]⟩
    · intro i g hi hc
      have hi' : ps[i]? = some (key, g) := hi
      obtain ⟨q, hq, hq1, hq2⟩ := class_get ps fresh.properties hclass' i (key, g) hi'
      simp only at hq1 hq2
      have hrt := roundTripsField_of_scalar (nlohmannBackend lib) last q.2 (hscalar _ hmem)
        (hq2.trans hc) (hrange _ hmem) (fun _ _ => trivial)
      have hd := (nlohmann_roundtrip_field lib last q.2 hrt).2 (reparse t) key hidx
      have hres : (fresh.properties.map
          (fun q => (q.1, (nlohmann.deserialize lib q.2 (reparse t) q.1).1)))[i]?
          = some (key, last) := by
        rw [List.getElem?_map, hq]
        simp only [Option.map_some']
        rw [hq1, hd]
      exact ⟨hres, by
        rw [values_getElem]
        exact congrArg (Option.map fun p => p.2.value) hres⟩
  · intro first hfirst hnul hreads
    have hfirst' : find (ps.map (fun p => (c_str p.1, p.2))) (c_str key) = some first := hfirst
    obtain ⟨p₀, hp₀, hp₀eq⟩ := List.mem_map.mp (mem_of_find _ _ _ hfirst')
    have hp₀2 : p₀.2 = first := (Prod.mk.inj hp₀eq).2
    have hs : first.expectedKind.isSome := hp₀2 ▸ hscalar p₀ hp₀
    have hr : first.inRange = true := hp₀2 ▸ hrange p₀ hp₀
    have hrun := rapidjson_runSerializers_scalar lib ps [] hscalar
    simp only [List.nil_append] at hrun
    obtain ⟨ms, hms⟩ : ∃ ms, ms = ps.map (fun p => (c_str p.1, p.2.cNode)) := ⟨_, rfl⟩
    rw [← hms] at hrun
    have ht : rapidjson.toJsonTree lib (.mk ps) = .ok (.object ms) := by
      simpa [rapidjson.toJsonTree] using hrun
    have hfind : find ms (c_str key) = some first.cNode := by
      have := find_map_snd (ps.map (fun p => (c_str p.1, p.2))) Field.cNode (c_str key)
      rw [hfirst'] at this
      rw [hms]
      simpa [List.map_map, Function.comp] using this
    have hdoc : reparse (.object ms) = .object (reparseMembers ms) := by simp [reparse]
    have hidx : rapidjson.index (.object (reparseMembers ms)) key
        = .ok (reparse (rapidjson.nodeOf lib first)) := by
      rw [(rapidjson_nodeOf_scalar lib first hs).1]
      simp [rapidjson.index, find_reparseMembers, hfind]
    refine ⟨c_str (lib.dump (.object ms)),
      .mk (fresh.properties.map
        (fun q => (q.1, (rapidjson.deserialize lib q.2 (.object (reparseMembers ms)) q.1).1))),
      by simp [rapidjson.toJson, ht], ?_, ?_, ?_⟩
    · rw [rapidjson.fromJsonStatic, rapidjson_fromJson_parsed lib fresh _ _
        (by rw [c_str_idem]; exact hreads _ ht), hdoc,
        runAll_complete _ _ _
          (fun q hq => rapidjson_deserialize_scalar_no_fault lib q.2 _ q.1 (hfresh q hq))]
      rfl
    · obtain ⟨j, hj⟩ := List.mem_iff_getElem?.mp hp₀
      refine ⟨j, p₀.1, ?_, (Prod.mk.inj hp₀eq).1, ?_⟩
      · show ps[j]? = some (p₀.1, first)
        rw [hj, ← hp₀2]
      · simp [values_getElem, JSONSerializable.properties, hj, hp₀2]
    · intro i g hi hc
      have hi' : ps[i]? = some (key, g) := hi
      obtain ⟨q, hq, hq1, hq2⟩ := class_get ps fresh.properties hclass' i (key, g) hi'
      simp only at hq1 hq2
      have hrt := roundTripsField_of_scalar (rapidjsonBackend lib) first q.2 hs
        (hq2.trans hc) hr hnul
      have hd := (rapidjson_roundtrip_field lib first q.2 hrt).2 _ key hidx
      have hres : (fresh.properties.map
          (fun q => (q.1,
            (rapidjson.deserialize lib q.2 (.object (reparseMembers ms)) q.1).1)))[i]?
          = some (key, first) := by
        rw [List.getElem?_map, hq]
        simp only [Option.map_some']
        rw [hq1, hd]
      exact ⟨hres, by
        rw [values_getElem]
        exact congrArg (Option.map fun p => p.2.value) hres⟩


/-- C22 at an object with two `int` members under `"n"`, holding 1 and 2, whose bindings refer
to its own members: after the round trip both hold 2 in the nlohmann backend and 1 in the
rapidjson backend. -/
theorem duplicate_keys_C22_witness :
    Example.twinOwn.ReadsOwnFields ∧
      Example.twinOwn.bindings.properties = [("n", .int 1), ("n", .int 2)] ∧
      find Example.twinOwn.bindings.properties.reverse "n" = some (.int 2) ∧
      find (Example.twinOwn.bindings.properties.map (fun p => (c_str p.1, p.2))) (c_str "n")
        = some (.int 1) ∧
      (∃ text o', nlohmann.Instance.toJson Ref.lib Example.twinOwn = .ok text ∧
        nlohmann.fromJsonStatic Ref.lib Example.twinFresh text = .ok o' ∧
        (∃ j : Nat, Example.twinOwn.bindings.properties[j]? = some ("n", .int 2) ∧
          Example.twinOwn.fields[j]? = some (Field.int 2).value) ∧
        ∀ (i : Nat) (g : Field), Example.twinOwn.bindings.properties[i]? = some ("n", g) →
          g.codec = (Field.int 2).codec →
          o'.properties[i]? = some ("n", .int 2) ∧ o'.values[i]? = some (Field.int 2).value) ∧
      (∃ text o', rapidjson.Instance.toJson Ref.lib Example.twinOwn = .ok text ∧
        rapidjson.fromJsonStatic Ref.lib Example.twinFresh text = .ok o' ∧
        (∃ (j : Nat) (k : String), Example.twinOwn.bindings.properties[j]? = some (k, .int 1) ∧
          c_str k = c_str "n" ∧ Example.twinOwn.fields[j]? = some (Field.int 1).value) ∧
        ∀ (i : Nat) (g : Field), Example.twinOwn.bindings.properties[i]? = some ("n", g) →
          g.codec = (Field.int 1).codec →
          o'.properties[i]? = some ("n", .int 1) ∧ o'.values[i]? = some (Field.int 1).value) ∧
      (∃ text r, nlohmann.Instance.toJson Ref.lib Example.twinOwn = .ok text ∧
        nlohmann.fromJsonStatic Ref.lib Example.twinFresh text = .ok r ∧
        r.values = [.int 2, .int 2]) ∧
      (∃ text r, rapidjson.Instance.toJson Ref.lib Example.twinOwn = .ok text ∧
        rapidjson.fromJsonStatic Ref.lib Example.twinFresh text = .ok r ∧
        r.values = [.int 1, .int 1]) :=
  ⟨rfl, rfl, rfl, rfl,
    (duplicate_keys_C22 Ref.lib Example.twinOwn Example.twinFresh "n" rfl (by decide)
      (by decide) (by decide)).1 (.int 2) rfl
      (fun t ht => by
        obtain ⟨t₀, h₀, hr⟩ : ∃ t₀, nlohmann.toJsonTree Ref.lib Example.twin = .ok t₀ ∧
            Ref.lib.parse (Ref.lib.dump t₀) = some (reparse t₀) := ⟨_, rfl, rfl⟩
        have ht' : nlohmann.toJsonTree Ref.lib Example.twin = .ok t := ht
        rw [h₀] at ht'
        cases ht'
        exact hr),
    (duplicate_keys_C22 Ref.lib Example.twinOwn Example.twinFresh "n" rfl (by decide)
      (by decide) (by decide)).2 (.int 1) rfl (fun s h => by cases h)
      (fun t ht => by
        obtain ⟨t₀, h₀, hr⟩ : ∃ t₀, rapidjson.toJsonTree Ref.lib Example.twin = .ok t₀ ∧
            Ref.lib.parse (c_str (Ref.lib.dump t₀)) = some (reparse t₀) := ⟨_, rfl, rfl⟩
        have ht' : rapidjson.toJsonTree Ref.lib Example.twin = .ok t := ht
        rw [h₀] at ht'
        cases ht'
        exact hr),
    ⟨_, _, rfl, rfl, rfl⟩, ⟨_, _, rfl, rfl, rfl⟩⟩

/-- C22 fails as stated.  In the rapidjson backend, with two string members under `"s"`, the
one registered first holding `a`, NUL, `b`: the tree holds the string `a` for it, and after the
round trip both members hold `a`, which is not the value of the member registered first.  With
two `int` members holding 1 and 2 and then an `unsigned int` member holding 7 under one key, in
the nlohmann backend both `int` members end at 7, not at 2, the value of the `int` member
registered last.  With a string member holding `a` and then two `int` members holding 1 and 2
under one key, in the rapidjson backend the `int` members stay at the 10 and 20 of the
default-constructed object.  And for a copy of the object with 1 and 2, whose own members were
set to 5 and 6, the members end at 2 and 2 in the nlohmann backend and at 1 and 1 in the
rapidjson backend: the values of the object copied from. -/
theorem duplicate_keys_C22_counterexample :
    Example.twinText.properties = [("s", .string "a\x00b"), ("s", .string "c")] ∧
      rapidjson.toJsonTree Ref.lib Example.twinText
        = .ok (.object [("s", .string "a"), ("s", .string "c")]) ∧
      (∃ text, rapidjson.toJson Ref.lib Example.twinText = .ok text ∧
        rapidjson.fromJsonStatic Ref.lib Example.twinTextFresh text
          = .ok (.mk [("s", .string "a"), ("s", .string "a")])) ∧
      "a" ≠ "a\x00b" ∧
      (∃ text, nlohmann.toJson Ref.lib Example.twinText = .ok text ∧
        nlohmann.fromJsonStatic Ref.lib Example.twinTextFresh text
          = .ok (.mk [("s", .string "c"), ("s", .string "c")])) ∧
      Example.trio.properties = [("n", .int 1), ("n", .int 2), ("n", .unsigned 7)] ∧
      (∃ text, nlohmann.toJson Ref.lib Example.trio = .ok text ∧
        nlohmann.fromJsonStatic Ref.lib Example.trioFresh text
          = .ok (.mk [("n", .int 7), ("n", .int 7), ("n", .unsigned 7)])) ∧
      Example.labelled.properties = [("n", .string "a"), ("n", .int 1), ("n", .int 2)] ∧
      Example.labelledFresh.properties = [("n", .string ""), ("n", .int 10), ("n", .int 20)] ∧
      (∃ text, rapidjson.toJson Ref.lib Example.labelled = .ok text ∧
        rapidjson.fromJsonStatic Ref.lib Example.labelledFresh text
          = .ok (.mk [("n", .string "a"), ("n", .int 10), ("n", .int 20)])) ∧
      Example.twinCopy.fields = [.int 5, .int 6] ∧
      (∃ text r, nlohmann.Instance.toJson Ref.lib Example.twinCopy = .ok text ∧
        nlohmann.fromJsonStatic Ref.lib Example.twinFresh text = .ok r ∧
        r.values = [.int 2, .int 2]) ∧
      (∃ text r, rapidjson.Instance.toJson Ref.lib Example.twinCopy = .ok text ∧
        rapidjson.fromJsonStatic Ref.lib Example.twinFresh text = .ok r ∧
        r.values = [.int 1, .int 1]) :=
  ⟨rfl, rfl, ⟨_, rfl, rfl⟩, by decide, ⟨_, rfl, rfl⟩, rfl, ⟨_, rfl, rfl⟩, rfl, rfl,
    ⟨_, rfl, rfl⟩, rfl, ⟨_, _, rfl, rfl, rfl⟩, ⟨_, _, rfl, rfl, rfl⟩⟩

/-! ## Integers outside the range of the member (C23) -/

/-- C23, as amended: an `unsigned int` member, and a tree that holds the integer `n` under its
key.  The rapidjson backend is handed the key as a C string, so that there `under its key`
reads: in the first member whose name is the key up to its first NUL character
(`key.c_str()`).  The nlohmann deserializer passes `is_number_unsigned` and assigns `n` modulo
2^32, whatever `n`.  The rapidjson deserializer fails `IsUint` when `n` is 2^32 or more, and
leaves the member as it was.  When `n` is below 2^32 both assign exactly `n`. -/
theorem unsigned_out_of_range_C23 (lib : TreeLib) (doc : Json) (key : String) (v n : Nat) :
    (nlohmann.index doc key = .ok (.number_unsigned n) →
        nlohmann.is_number_unsigned (.number_unsigned n) = true ∧
        nlohmann.deserialize lib (.unsigned v) doc key = (.unsigned (n % 2 ^ 32), none)) ∧
      ((∃ m, doc = .object m ∧ find m (c_str key) = some (.number_unsigned n)) → 2 ^ 32 ≤ n →
        rapidjson.IsUint (.number_unsigned n) = false ∧
        rapidjson.deserialize lib (.unsigned v) doc key = (.unsigned v, none)) ∧
      (nlohmann.index doc key = .ok (.number_unsigned n) → n < 2 ^ 32 →
        nlohmann.deserialize lib (.unsigned v) doc key = (.unsigned n, none)) ∧
      ((∃ m, doc = .object m ∧ find m (c_str key) = some (.number_unsigned n)) → n < 2 ^ 32 →
        rapidjson.deserialize lib (.unsigned v) doc key = (.unsigned n, none)) := by
  have hd : nlohmann.index doc key = .ok (.number_unsigned n) →
      nlohmann.deserialize lib (.unsigned v) doc key = (.unsigned (n % 2 ^ 32), none) := by
    intro hn
    simp [nlohmann.deserialize, nlohmann_assignIf_found doc key _ _ _ _ hn,
      nlohmann.is_number_unsigned, nlohmann.get_unsigned]
  have hidx : (∃ m, doc = .object m ∧ find m (c_str key) = some (.number_unsigned n)) →
      rapidjson.index doc key = .ok (.number_unsigned n) := by
    rintro ⟨m, rfl, hfind⟩
    exact rapidjson_index_object m key _ hfind
  refine ⟨fun hn => ⟨rfl, hd hn⟩, ?_, ?_, ?_⟩
  · intro hm hge
    have hn := hidx hm
    have hge' : ¬ n < 4294967296 := by omega
    exact ⟨by simp [rapidjson.IsUint, hge'],
      by simp [rapidjson.deserialize, rapidjson_assignIf_found doc key _ _ _ _ hn,
        rapidjson.IsUint, hge']⟩
  · intro hn hlt
    rw [hd hn, Nat.mod_eq_of_lt hlt]
  · intro hm hlt
    have hn := hidx hm
    have hlt' : n < 4294967296 := by omega
    simp [rapidjson.deserialize, rapidjson_assignIf_found doc key _ _ _ _ hn,
      rapidjson.IsUint, rapidjson.GetUint, hlt']
/-- C23 at a member holding 7 and the texts `{"count":4294967298}` and `{"count":12}`: from the
first the member ends at 2 in the nlohmann backend and stays 7 in the rapidjson backend; from the
second it ends at 12 in both. -/
theorem unsigned_out_of_range_C23_witness :
    Ref.lib.parse Example.countIsLarge = some (.object [("count", .number_unsigned 4294967298)]) ∧
      (nlohmann.is_number_unsigned (.number_unsigned 4294967298) = true ∧
        nlohmann.deserialize Ref.lib (.unsigned 7)
            (.object [("count", .number_unsigned 4294967298)]) "count"
          = (.unsigned (4294967298 % 2 ^ 32), none)) ∧
      4294967298 % 2 ^ 32 = 2 ∧
      (rapidjson.IsUint (.number_unsigned 4294967298) = false ∧
        rapidjson.deserialize Ref.lib (.unsigned 7)
            (.object [("count", .number_unsigned 4294967298)]) "count"
          = (.unsigned 7, none)) ∧
      nlohmann.fromJson Ref.lib Example.counter Example.countIsLarge
        = (.mk [("count", .unsigned 2)], .ok true) ∧
      rapidjson.fromJson Ref.lib Example.counter Example.countIsLarge
        = (.mk [("count", .unsigned 7)], .ok true) ∧
      Ref.lib.parse Example.countIsSmall = some (.object [("count", .number_unsigned 12)]) ∧
      nlohmann.deserialize Ref.lib (.unsigned 7) (.object [("count", .number_unsigned 12)])
          "count" = (.unsigned 12, none) ∧
      rapidjson.deserialize Ref.lib (.unsigned 7) (.object [("count", .number_unsigned 12)])
          "count" = (.unsigned 12, none) ∧
      nlohmann.fromJson Ref.lib Example.counter Example.countIsSmall
        = (.mk [("count", .unsigned 12)], .ok true) ∧
      rapidjson.fromJson Ref.lib Example.counter Example.countIsSmall
        = (.mk [("count", .unsigned 12)], .ok true) :=
  ⟨rfl,
    (unsigned_out_of_range_C23 Ref.lib (.object [("count", .number_unsigned 4294967298)])
      "count" 7 4294967298).1 rfl,
    by decide,
    (unsigned_out_of_range_C23 Ref.lib (.object [("count", .number_unsigned 4294967298)])
      "count" 7 4294967298).2.1 ⟨_, rfl, rfl⟩ (by decide),
    rfl, rfl, rfl,
    (unsigned_out_of_range_C23 Ref.lib (.object [("count", .number_unsigned 12)])
      "count" 7 12).2.2.1 rfl (by decide),
    (unsigned_out_of_range_C23 Ref.lib (.object [("count", .number_unsigned 12)])
      "count" 7 12).2.2.2 ⟨_, rfl, rfl⟩ (by decide),
    rfl, rfl⟩

/-- C23 fails as stated in the rapidjson backend, for a member registered under the key `count`,
NUL, `x`: the tree holds 12, which is below 2^32, under that key, and the deserializer, which
looks for a member named `count`, leaves the member at 7.  The nlohmann deserializer assigns
12. -/
theorem unsigned_out_of_range_C23_counterexample :
    find [("count\x00x", Json.number_unsigned 12)] "count\x00x" = some (.number_unsigned 12) ∧
      rapidjson.deserialize Ref.lib (.unsigned 7) (.object [("count\x00x", .number_unsigned 12)])
          "count\x00x" = (.unsigned 7, none) ∧
      nlohmann.deserialize Ref.lib (.unsigned 7) (.object [("count\x00x", .number_unsigned 12)])
          "count\x00x" = (.unsigned 12, none) :=
  ⟨rfl, rfl, rfl⟩

/-! ## The sequence codec of the generic dispatch (C24) -/

/-- C24: the codec `PropertySerializer<std::vector<JSONSerializable>>` against the deserializer
`registerNestedArray` installs, on the same tree, key and sequence.  In the nlohmann backend the
two leave the same sequence and end the same way.  In the rapidjson backend they agree when the
key is absent or its node is not an array; when the node is an array, the generic codec clears
the sequence and then takes `obj.Size()` of the tree the key was looked up in, an object, which
fails the assertion of `Size`: it does not return, and it does not iterate over the elements of
the array under the key, which the deserializer of `registerNestedArray` does. -/
theorem sequence_dispatch_C24 (lib : TreeLib) (fresh : JSONSerializable) (obj : Json)
    (key : String) (value : List JSONSerializable) :
    nlohmann.deserialize lib (.nestedArray fresh value) obj key
        = (.nestedArray fresh
            (nlohmann.PropertySerializerVector.deserialize lib fresh obj key value).1,
          (nlohmann.PropertySerializerVector.deserialize lib fresh obj key value).2) ∧
      ((rapidjson.HasMember obj key = .ok false ∨
          ∃ node, rapidjson.index obj key = .ok node ∧ node.kind ≠ .array) →
        rapidjson.PropertySerializerVector.deserialize lib fresh obj key value = (value, none) ∧
        rapidjson.deserialize lib (.nestedArray fresh value) obj key
          = (.nestedArray fresh value, none)) ∧
      (∀ items, rapidjson.index obj key = .ok (.array items) →
        rapidjson.PropertySerializerVector.deserialize lib fresh obj key value
          = ([], some .assertion) ∧
        rapidjson.deserialize lib (.nestedArray fresh value) obj key
          = (.nestedArray fresh
              (rapidjson.pushBackObjects
                (fun item => returnObj (rapidjson.fromJson lib fresh (c_str (lib.dump item))))
                items []).1,
            (rapidjson.pushBackObjects
                (fun item => returnObj (rapidjson.fromJson lib fresh (c_str (lib.dump item))))
                items []).2)) := by
  refine ⟨?_, ?_, ?_⟩
  · cases hc : nlohmann.contains obj key with
    | false => simp [nlohmann.deserialize, nlohmann.PropertySerializerVector.deserialize, hc]
    | true =>
      obtain ⟨node, hn⟩ := nlohmann_index_of_contains obj key hc
      cases node <;>
        simp [nlohmann.deserialize, nlohmann.PropertySerializerVector.deserialize, hc, hn]
  · rintro (hc | ⟨node, hn, hk⟩)
    · exact ⟨by simp [rapidjson.PropertySerializerVector.deserialize, hc],
        rapidjson_deserialize_absent lib _ obj key hc⟩
    · cases node <;>
        simp [Json.kind, rapidjson.deserialize, rapidjson.PropertySerializerVector.deserialize,
          rapidjson_hasMember_of_index obj key _ hn, hn, rapidjson.IsArray] at hk ⊢
  · intro items hn
    have hobj : ∃ m, obj = .object m := by
      cases obj <;> simp [rapidjson.index] at hn
      exact ⟨_, rfl⟩
    obtain ⟨m, rfl⟩ := hobj
    exact ⟨by simp [rapidjson.PropertySerializerVector.deserialize,
        rapidjson_hasMember_of_index _ key _ hn, hn, rapidjson.IsArray, rapidjson.Size],
      by simp [rapidjson.deserialize, rapidjson_hasMember_of_index _ key _ hn, hn]⟩

/-- C24 at the tree of `{"places":[{"city":"Rome"},{"city":"Bern"}]}` and a sequence holding the
address of Oslo: the deserializer of `registerNestedArray` leaves the two addresses read; the
generic codec of the rapidjson backend leaves the sequence empty and fails an assertion; the
generic codec of the nlohmann backend leaves the two addresses read. -/
theorem sequence_dispatch_C24_witness :
    Ref.lib.parse (c_str Example.placesText)
        = some (.object [("places", .array [.object [("city", .string "Rome")],
            .object [("city", .string "Bern")]])]) ∧
      (rapidjson.PropertySerializerVector.deserialize Ref.lib Example.address
          (.object [("places", .array [.object [("city", .string "Rome")],
            .object [("city", .string "Bern")]])]) "places" [Example.addressOf "Oslo"]
          = ([], some .assertion) ∧
        rapidjson.deserialize Ref.lib (.nestedArray Example.address [Example.addressOf "Oslo"])
          (.object [("places", .array [.object [("city", .string "Rome")],
            .object [("city", .string "Bern")]])]) "places"
          = (.nestedArray Example.address
              (rapidjson.pushBackObjects
                (fun item => returnObj (rapidjson.fromJson Ref.lib Example.address
                  (c_str (Ref.lib.dump item))))
                [.object [("city", .string "Rome")], .object [("city", .string "Bern")]] []).1,
            (rapidjson.pushBackObjects
                (fun item => returnObj (rapidjson.fromJson Ref.lib Example.address
                  (c_str (Ref.lib.dump item))))
                [.object [("city", .string "Rome")], .object [("city", .string "Bern")]] []).2)) ∧
      rapidjson.deserialize Ref.lib (.nestedArray Example.address [Example.addressOf "Oslo"])
          (.object [("places", .array [.object [("city", .string "Rome")],
            .object [("city", .string "Bern")]])]) "places"
        = (.nestedArray Example.address [Example.addressOf "Rome", Example.addressOf "Bern"],
            none) ∧
      nlohmann.PropertySerializerVector.deserialize Ref.lib Example.address
          (.object [("places", .array [.object [("city", .string "Rome")],
            .object [("city", .string "Bern")]])]) "places" [Example.addressOf "Oslo"]
        = ([Example.addressOf "Rome", Example.addressOf "Bern"], none) ∧
      nlohmann.deserialize Ref.lib (.nestedArray Example.address [Example.addressOf "Oslo"])
          (.object [("places", .array [.object [("city", .string "Rome")],
            .object [("city", .string "Bern")]])]) "places"
        = (.nestedArray Example.address
            (nlohmann.PropertySerializerVector.deserialize Ref.lib Example.address
              (.object [("places", .array [.object [("city", .string "Rome")],
                .object [("city", .string "Bern")]])]) "places" [Example.addressOf "Oslo"]).1,
          (nlohmann.PropertySerializerVector.deserialize Ref.lib Example.address
              (.object [("places", .array [.object [("city", .string "Rome")],
                .object [("city", .string "Bern")]])]) "places" [Example.addressOf "Oslo"]).2) :=
  ⟨rfl,
    (sequence_dispatch_C24 Ref.lib Example.address
      (.object [("places", .array [.object [("city", .string "Rome")],
        .object [("city", .string "Bern")]])]) "places" [Example.addressOf "Oslo"]).2.2 _ rfl,
    rfl, rfl,
    (sequence_dispatch_C24 Ref.lib Example.address
      (.object [("places", .array [.object [("city", .string "Rome")],
        .object [("city", .string "Bern")]])]) "places" [Example.addressOf "Oslo"]).1⟩

end JsonParser
